import Mathlib

/-!
Verification development for the conduit mesh subsystem
(tiled mesh generator, point merge, parallel partitioner).

Each C++ routine used by a claim is embedded shallowly as an executable
Lean definition: `conduit::index_t` values become `Int` (point ids, with
the sentinel -1) or `Nat` (array indices, which are nonnegative in every
modeled run), `double` becomes the exact fraction type `Frac` below (all
modeled computations are exact: the default tile pattern has integer
coordinates and the homogeneous divisor is 1), and C++ `std::vector`
indexing becomes `List.getD` (all modeled runs stay in bounds, so the
default value is never read).
-/

namespace Conduit

/-! ## Exact fractions

The tiler's coordinate arithmetic uses C++ `double`s, but every modeled
computation is exact (the default pattern has small integer coordinates,
the transform entries are small ratios, and the homogeneous divisor is 1),
so we model `double` values by exact unnormalized fractions over `Int`.
`Frac.toRat` gives the represented rational; the lemmas below show the
operations agree with `ℚ` whenever the denominators are nonzero, which
holds in every modeled run.  (An unnormalized pair is used instead of
Mathlib's `ℚ` because its arithmetic reduces inside the kernel, which the
concrete-instance proofs rely on.) -/

/-- An exact fraction `n / d` with integer numerator and denominator. -/
structure Frac where
  n : Int
  d : Int
deriving DecidableEq

/-- The rational value represented by a fraction. -/
def Frac.toRat (a : Frac) : ℚ := (a.n : ℚ) / (a.d : ℚ)

/-- Exact order on fractions: cross-multiply and correct for the sign of
the product of denominators. -/
def Frac.lt (a b : Frac) : Prop :=
  a.n * b.d * Int.sign (a.d * b.d) < b.n * a.d * Int.sign (a.d * b.d)

instance : LT Frac := ⟨Frac.lt⟩

instance (a b : Frac) : Decidable (a < b) := by
  show Decidable (Frac.lt a b); unfold Frac.lt; infer_instance

/-- Exact value equality of fractions (cross multiplication). -/
def Frac.feq (a b : Frac) : Prop := a.n * b.d = b.n * a.d

instance (a b : Frac) : Decidable (Frac.feq a b) := by
  unfold Frac.feq; infer_instance

instance : Add Frac := ⟨fun a b => ⟨a.n * b.d + b.n * a.d, a.d * b.d⟩⟩

instance : Sub Frac := ⟨fun a b => ⟨a.n * b.d - b.n * a.d, a.d * b.d⟩⟩

instance : Mul Frac := ⟨fun a b => ⟨a.n * b.n, a.d * b.d⟩⟩

instance : Div Frac := ⟨fun a b => ⟨a.n * b.d, a.d * b.n⟩⟩

instance (k : Nat) : OfNat Frac k := ⟨⟨(k : Int), 1⟩⟩

/-- `std::min` on doubles: the smaller argument, the first on ties. -/
def Frac.fmin (a b : Frac) : Frac := if b < a then b else a

/-- `std::max` on doubles: the larger argument, the first on ties. -/
def Frac.fmax (a b : Frac) : Frac := if a < b then b else a

/-! ## Tile and Tiler (conduit_blueprint_mesh_examples_tiled.cpp) -/

/-- `Tile::INVALID_POINT`: sentinel meaning a template point has no global id yet. -/
def INVALID_POINT : Int := -1

/-- The tile pattern held by `Tiler`: template points, quads (flattened
4-tuples of indices into the point list) and the four edge index arrays. -/
structure TilerPattern where
  xpts : List Frac
  ypts : List Frac
  quads : List Nat
  left : List Nat
  right : List Nat
  bottom : List Nat
  top : List Nat
deriving DecidableEq

/-- `Tiler::computeExtents`: max minus min of a coordinate array
(the C++ seeds both with `values[0]` and folds over all values). -/
def computeExtents (values : List Frac) : Frac :=
  (values.foldl Frac.fmax (values.headD 0)) - (values.foldl Frac.fmin (values.headD 0))

/-- `Tiler::width()`: extent of the template x coordinates. -/
def TilerPattern.width (p : TilerPattern) : Frac := computeExtents p.xpts

/-- `Tiler::height()`: extent of the template y coordinates. -/
def TilerPattern.height (p : TilerPattern) : Frac := computeExtents p.ypts

/-- The default tile pattern built by the zero-argument `Tiler` constructor:
33 points, 24 quads, 5 points on each edge. -/
def defaultPattern : TilerPattern :=
  ⟨[0, 3, 10, 17, 20,
    0, 3, 17, 20,
    5, 15,
    7, 10, 13,
    0, 7, 10, 13, 20,
    7, 10, 13,
    5, 15,
    0, 3, 17, 20,
    0, 3, 10, 17, 20],
   [0, 0, 0, 0, 0,
    3, 3, 3, 3,
    5, 5,
    7, 7, 7,
    10, 10, 10, 10, 10,
    13, 13, 13,
    15, 15,
    17, 17, 17, 17,
    20, 20, 20, 20, 20],
   [0,1,6,5,  1,2,9,6,  2,12,11,9,  5,6,9,14,  9,11,15,14,  11,12,16,15,
    2,3,7,10,  3,4,8,7,  7,8,18,10,  2,10,13,12,  12,13,17,16,  10,18,17,13,
    14,22,25,24,  14,15,19,22,  15,16,20,19,  24,25,29,28,  22,30,29,25,  19,20,30,22,
    16,17,21,20,  17,18,23,21,  18,27,26,23,  20,21,23,30,  23,26,31,30,  26,27,32,31],
   [0,5,14,24,28],
   [4,8,18,27,32],
   [0,1,2,3,4],
   [28,29,30,31,32]⟩

/-- `Tiler::initialize(const conduit::Node &t)`: load the replacement tile
pattern from the options subtree.  The C++ only copies the seven arrays out
of the node and recomputes width/height; it performs no validation and has
no failure path. -/
def tilerInitFromNode (x y : List Frac) (quads l r b t : List Nat) : TilerPattern :=
  ⟨x, y, quads, l, r, b, t⟩

/-- The pattern validation invariants as worded by the spec
(`|x| == |y|`, `|quads| % 4 == 0`, all indices in `[0, |x|)`,
`|left| == |right|`, `|bottom| == |top|`).  This definition follows the
spec's words, for comparison with the source (which never checks them). -/
def specValidPattern (p : TilerPattern) : Prop :=
  p.xpts.length = p.ypts.length ∧
  p.quads.length % 4 = 0 ∧
  (∀ q ∈ p.quads, q < p.xpts.length) ∧
  (∀ q ∈ p.left, q < p.xpts.length) ∧
  (∀ q ∈ p.right, q < p.xpts.length) ∧
  (∀ q ∈ p.bottom, q < p.xpts.length) ∧
  (∀ q ∈ p.top, q < p.xpts.length) ∧
  p.left.length = p.right.length ∧
  p.bottom.length = p.top.length

instance (p : TilerPattern) : Decidable (specValidPattern p) := by
  unfold specValidPattern; infer_instance

/-- `Tile::getPointIds(indices)`: gather this tile's ids at the given
template indices. -/
def getPointIds (ptids : List Int) (indices : List Nat) : List Int :=
  indices.map (fun idx => ptids.getD idx 0)

/-- `Tile::setPointIds(indices, ids)`: store the given ids at the given
template indices (in order; later writes win on duplicate indices). -/
def setPointIds (ptids : List Int) (indices : List Nat) (ids : List Int) : List Int :=
  (indices.zip ids).foldl (fun l pr => l.set pr.1 pr.2) ptids

/-- The 3x3 projective transform used by `Tiler::addPoints`. -/
structure Mat3 where
  m00 : Frac
  m01 : Frac
  m02 : Frac
  m10 : Frac
  m11 : Frac
  m12 : Frac
  m20 : Frac
  m21 : Frac
  m22 : Frac

/-- `Tiler::addPoints`: for each template point still invalid, assign the
next global id (`x.size()`) and append the transformed coordinates
`(x, y, 1) * M` divided by the homogeneous coordinate. -/
def addPoints (p : TilerPattern) (M : Mat3) (ptids0 : List Int) (x0 y0 : List Frac) :
    List Int × List Frac × List Frac :=
  (List.range p.xpts.length).foldl
    (fun st i =>
      let ptids := st.1
      let x := st.2.1
      let y := st.2.2
      if ptids.getD i 0 = INVALID_POINT then
        let xv := p.xpts.getD i 0
        let yv := p.ypts.getD i 0
        let xc := xv * M.m00 + yv * M.m10 + M.m20
        let yc := xv * M.m01 + yv * M.m11 + M.m21
        let h := xv * M.m02 + yv * M.m12 + M.m22
        (ptids.set i (Int.ofNat x.length), x ++ [xc / h], y ++ [yc / h])
      else st)
    (ptids0, x0, y0)

/-- State threaded through the point-generation pass of `Tiler::generate`:
the tiles built so far (row-major), the global coordinate arrays, and the
current translation entries `M[2][0]`, `M[2][1]`. -/
structure TilerState where
  tiles : List (List Int)
  x : List Frac
  y : List Frac
  m20 : Frac
  m21 : Frac

/-- One iteration of the inner `(j, i)` loop of `Tiler::generate`'s point
pass: reset the tile, copy `left` ids from the previous tile's `right`
(if `i > 0`), copy `bottom` ids from the previous row's `top`
(if `j > 0`), then `addPoints`. -/
def tileStep (p : TilerPattern) (nx : Nat) (sx sy : Frac) (j i : Nat)
    (st : TilerState) : TilerState :=
  let t0 : List Int := List.replicate p.xpts.length (-1)
  let t1 := if 0 < i then
      setPointIds t0 p.left (getPointIds (st.tiles.getD (j * nx + i - 1) []) p.right)
    else t0
  let t2 := if 0 < j then
      setPointIds t1 p.bottom (getPointIds (st.tiles.getD ((j - 1) * nx + i) []) p.top)
    else t1
  let M : Mat3 := ⟨sx, 0, 0, 0, sy, 0, st.m20, st.m21, 1⟩
  let r := addPoints p M t2 st.x st.y
  ⟨st.tiles ++ [r.1], r.2.1, r.2.2, st.m20, st.m21⟩

/-- The full point-generation pass of `Tiler::generate`: row-major
traversal over the `nx*ny` tiles, advancing `M[2][0]` by `tx` per column
(reset to `ox` at each row start) and `M[2][1]` by `ty` per row.
`sx = tx / width`, `sy = ty / height` are the scale entries `M[0][0]`,
`M[1][1]`. -/
def tilePass (p : TilerPattern) (nx ny : Nat) (ox oy tx ty : Frac) : TilerState :=
  let sx := tx / p.width
  let sy := ty / p.height
  (List.range ny).foldl
    (fun st j =>
      let strow := (List.range nx).foldl
        (fun st2 i =>
          let st3 := tileStep p nx sx sy j i st2
          ⟨st3.tiles, st3.x, st3.y, st3.m20 + tx, st3.m21⟩)
        ⟨st.tiles, st.x, st.y, ox, st.m21⟩
      ⟨strow.tiles, strow.x, strow.y, strow.m20, strow.m21 + ty⟩)
    ⟨[], [], [], ox, oy⟩

/-- `Tiler`'s boundary type labels. -/
def BoundaryLeft : Nat := 0

/-- `BoundaryRight = 1`. -/
def BoundaryRight : Nat := 1

/-- `BoundaryBottom = 2`. -/
def BoundaryBottom : Nat := 2

/-- `BoundaryTop = 3`. -/
def BoundaryTop : Nat := 3

/-- `BoundaryBack = 4`. -/
def BoundaryBack : Nat := 4

/-- `BoundaryFront = 5`. -/
def BoundaryFront : Nat := 5

/-- `Tiler::iterateFaces`: one quad element per pattern quad, point ids
looked up through the tile's `ptids` (order reversed when `reverse`),
shifted by `offset`; paired with the side label `stype`. -/
def iterateFaces (p : TilerPattern) (ptids : List Int) (offset : Int)
    (reverse : Bool) (stype : Nat) : List (List Int × Nat) :=
  let order : List Nat := if reverse then [3, 2, 1, 0] else [0, 1, 2, 3]
  (List.range (p.quads.length / 4)).map
    (fun i =>
      ([offset + ptids.getD (p.quads.getD (4 * i + order.getD 0 0) 0) 0,
        offset + ptids.getD (p.quads.getD (4 * i + order.getD 1 0) 0) 0,
        offset + ptids.getD (p.quads.getD (4 * i + order.getD 2 0) 0) 0,
        offset + ptids.getD (p.quads.getD (4 * i + order.getD 3 0) 0) 0], stype))

/-- The quad connectivity emitted by `Tiler::generate` when `nz < 1`:
tiles in row-major order, each contributing its pattern quads. -/
def quadElements (p : TilerPattern) (nx ny : Nat) (tiles : List (List Int)) :
    List (List Int) :=
  ((List.range ny).flatMap (fun j =>
    (List.range nx).flatMap (fun i =>
      (iterateFaces p (tiles.getD (j * nx + i) []) 0 false BoundaryBack).map
        Prod.fst)))

/-- A 2D boundary segment: two global point ids and the side label. -/
structure BSeg where
  a : Int
  b : Int
  side : Nat
deriving DecidableEq

/-- Indices `n-1, n-2, ..., 1` (the descending `bi` loop of
`iterateBoundary2D`). -/
def downIdxs (n : Nat) : List Nat := ((List.range (n - 1)).map (· + 1)).reverse

/-- Indices `0, 1, ..., n-2` (the ascending `bi` loop of
`iterateBoundary2D`). -/
def upIdxs (n : Nat) : List Nat := List.range (n - 1)

/-- `Tiler::iterateBoundary2D`: emit the enabled sides in the order Left,
Bottom, Right, Top; Left walks `j = ny-1 .. 0` with `bi` descending,
Bottom walks `i = 0 .. nx-1` with `bi` ascending, Right walks
`j = 0 .. ny-1` with `bi` ascending, Top walks `i = nx-1 .. 0` with `bi`
descending. -/
def iterateBoundary2D (p : TilerPattern) (tiles : List (List Int))
    (nx ny : Nat) (flags : List Bool) : List BSeg :=
  let leftSegs := if flags.getD BoundaryLeft false then
      (List.range ny).reverse.flatMap (fun j =>
        let ids := getPointIds (tiles.getD (j * nx + 0) []) p.left
        (downIdxs ids.length).map (fun bi =>
          ⟨ids.getD bi 0, ids.getD (bi - 1) 0, BoundaryLeft⟩))
    else []
  let bottomSegs := if flags.getD BoundaryBottom false then
      (List.range nx).flatMap (fun i =>
        let ids := getPointIds (tiles.getD (0 * nx + i) []) p.bottom
        (upIdxs ids.length).map (fun bi =>
          ⟨ids.getD bi 0, ids.getD (bi + 1) 0, BoundaryBottom⟩))
    else []
  let rightSegs := if flags.getD BoundaryRight false then
      (List.range ny).flatMap (fun j =>
        let ids := getPointIds (tiles.getD (j * nx + (nx - 1)) []) p.right
        (upIdxs ids.length).map (fun bi =>
          ⟨ids.getD bi 0, ids.getD (bi + 1) 0, BoundaryRight⟩))
    else []
  let topSegs := if flags.getD BoundaryTop false then
      (List.range nx).reverse.flatMap (fun i =>
        let ids := getPointIds (tiles.getD ((ny - 1) * nx + i) []) p.top
        (downIdxs ids.length).map (fun bi =>
          ⟨ids.getD bi 0, ids.getD (bi - 1) 0, BoundaryTop⟩))
    else []
  leftSegs ++ bottomSegs ++ rightSegs ++ topSegs

/-- The `domain` / `domains` option subtrees consumed by
`Tiler::boundaryFlags` (each `none` when the path is absent). -/
structure DomainOptions where
  domain : Option (List Int)
  domains : Option (List Int)

/-- `Tiler::boundaryFlags`: with both `domain` and `domains` present,
3 components each and more than one total domain, a side is enabled only
when the local brick is extremal on that axis; otherwise all six flags
are set. -/
def boundaryFlags (opts : DomainOptions) : List Bool :=
  match opts.domain, opts.domains with
  | some dom, some doms =>
    if dom.length = 3 ∧ dom.length = doms.length then
      let ndoms := doms.getD 0 0 * doms.getD 1 0 * doms.getD 2 0
      if 1 < ndoms then
        [dom.getD 0 0 == 0, dom.getD 0 0 == doms.getD 0 0 - 1,
         dom.getD 1 0 == 0, dom.getD 1 0 == doms.getD 1 0 - 1,
         dom.getD 2 0 == 0, dom.getD 2 0 == doms.getD 2 0 - 1]
      else List.replicate 6 true
    else List.replicate 6 true
  | _, _ => List.replicate 6 true

/-- The 2D output of `Tiler::generate` (with `reorder = 0`, no `extents`
and no `domain`/`domains` options): coordinates, quad connectivity, the
boundary shape string and the boundary segments with labels. -/
structure Mesh2D where
  x : List Frac
  y : List Frac
  elements : List (List Int)
  bshape : String
  bsegs : List BSeg

/-- `tiled(nx, ny, 0)` with tile pattern `p` and `reorder = 0`: run the
point pass at the default origin with `tx = width`, `ty = height`,
emit the quads and the 2D boundary with all six flags set. -/
def tiledGenerate2D (p : TilerPattern) (nx ny : Nat) : Mesh2D :=
  let st := tilePass p nx ny 0 0 p.width p.height
  ⟨st.x, st.y, quadElements p nx ny st.tiles, "line",
   iterateBoundary2D p st.tiles nx ny (List.replicate 6 true)⟩

/-! ## point_merge (pointmerge.hpp) -/

/-- The fixed scale table of `point_merge::determine_scale`
(`{1., 2u<<4, 2u<<7, 2u<<10, 2u<<14, 2u<<17, 2u<<20}`). -/
def scaleLookup : List ℚ := [1, 32, 256, 2048, 32768, 262144, 2097152]

/-- `point_merge::determine_scale(double tolerance)`: the C++ parameter is
unnamed and unused; `decimal_places` is the literal `4u` and the function
returns `lookup[4]` unconditionally. -/
def determine_scale (_tolerance : ℚ) : ℚ :=
  let decimal_places := 4
  if decimal_places < scaleLookup.length then scaleLookup.getD decimal_places 0
  else scaleLookup.getD 6 0

/-! ## parallel_partitioner::map_chunks (conduit_blueprint_mpi_mesh_partition.cpp)

The free-assignment branch (`free_to_move == ntotal_chunks`).  The global
chunk metadata is the Allgatherv concatenation, identical on every rank,
so the branch is a deterministic function of the global
`num_elements` list, `target` and the communicator `size`. -/

/-- The argmin scan of the free-assignment loop: `idx = 0`, then for each
`r` replace `idx` when `next[r] < next[idx]` (the C++ starts at `r = 1`;
the `r = 0` iteration compares `next[0]` with itself and is a no-op, so
scanning the full range is identical). Ties keep the lower index. -/
def minIndexLoop (next : List Nat) : Nat :=
  (List.range next.length).foldl
    (fun idx r => if next.getD r 0 < next.getD idx 0 then r else idx) 0

/-- One step of the free-assignment loop: compute
`next_target_element_counts[r] = target_element_counts[r] + num_elements`,
pick the argmin index, and add the chunk there.  Returns the updated
counts and the chosen target domain. -/
def freeAssignStep (counts : List Nat) (ne : Nat) : List Nat × Nat :=
  let next := counts.map (· + ne)
  let idx := minIndexLoop next
  (counts.set idx (counts.getD idx 0 + ne), idx)

/-- The free-assignment loop of `map_chunks`: iterate the chunks in global
order, starting from `target_element_counts = 0`; returns the final counts
and `global_dest_domain`. -/
def freeAssign (target : Nat) (elems : List Nat) : List Nat × List Nat :=
  elems.foldl
    (fun st ne =>
      let r := freeAssignStep st.1 ne
      (r.1, st.2 ++ [r.2]))
    (List.replicate target 0, [])

/-- `rank_domain_count`: how many final domains each rank receives;
domain index `i` increments slot `i % divsize` with
`divsize = min(size, target)`. -/
def rankDomainCount (size target : Nat) : List Nat :=
  let divsize := min size target
  (List.range target).foldl
    (fun counts i => counts.set (i % divsize) (counts.getD (i % divsize) 0 + 1))
    (List.replicate size 0)

/-- The innermost scan of the domain-to-rank loop: set
`global_dest_rank[i] = r` for every chunk `i` whose domain is `tid`. -/
def assignDomainToRank (destDomain : List Nat) (destRank : List Int)
    (tid r : Nat) : List Int :=
  (List.range destDomain.length).foldl
    (fun dr i => if destDomain.getD i 0 = tid then dr.set i (Int.ofNat r) else dr)
    destRank

/-- The `j` loop: assign the next `c` consecutive domain ids
(`tid, tid+1, ...`) to rank `r`; returns the updated `global_dest_rank`
and the advanced `target_id`. -/
def assignBlock (destDomain : List Nat) (destRank : List Int) :
    Nat → Nat → Nat → List Int × Nat
  | tid, 0, _ => (destRank, tid)
  | tid, Nat.succ c, r =>
      assignBlock destDomain (assignDomainToRank destDomain destRank tid r) (tid + 1) c r

/-- The outer `r` loop of the domain-to-rank assignment: walk the ranks in
order, stopping at the first rank whose domain count is zero (the C++
`break`), giving each rank its block of consecutive domain ids. -/
def spreadLoop (destDomain : List Nat) :
    List Nat → Nat → Nat → List Int → List Int
  | [], _, _, dr => dr
  | c :: rest, r, tid, dr =>
    if c = 0 then dr
    else
      let res := assignBlock destDomain dr tid c r
      spreadLoop destDomain rest (r + 1) res.2 res.1

/-- The whole free branch of `map_chunks`: greedy domain assignment
followed by the domain-to-rank spread (with `global_dest_rank`
initialized to `-1`).  Returns `(global_dest_rank, global_dest_domain)`. -/
def mapChunksFree (size target : Nat) (elems : List Nat) : List Int × List Nat :=
  let fa := freeAssign target elems
  let counts := rankDomainCount size target
  let dr0 : List Int := List.replicate elems.length (-1)
  (spreadLoop fa.2 counts 0 0 dr0, fa.2)

/-! ## parallel_partitioner::get_largest_selection -/

/-- The `long_int` pair used with `MPI_MAXLOC`. -/
structure LongInt where
  value : Int
  rank : Int
deriving DecidableEq

/-- The local pass of `get_largest_selection`: `value` starts at 0 and is
replaced whenever a selection length exceeds it; `rank` is the calling
rank and never changes. -/
def localLargest (sizes : List Nat) (rank : Int) : LongInt :=
  sizes.foldl
    (fun (acc : LongInt) (s : Nat) =>
      if (s : Int) > acc.value then ⟨(s : Int), acc.rank⟩ else acc)
    ⟨0, rank⟩

/-- Modelled from the spec: the `MPI_MAXLOC` combination on `(value, rank)`
pairs — the larger value wins and ties take the lower rank.  (The MPI
library is an external collaborator; the spec fixes the tie-break as
"maxloc standard (lowest rank wins on ties)".) -/
def maxlocOp (a b : LongInt) : LongInt :=
  if a.value > b.value then a
  else if b.value > a.value then b
  else ⟨a.value, min a.rank b.rank⟩

/-- Modelled from the spec: the allreduce of the per-rank `(value, rank)`
contributions under `MPI_MAXLOC`, in rank order. -/
def maxlocReduce : List LongInt → LongInt
  | [] => ⟨0, 0⟩
  | h :: t => t.foldl maxlocOp h

/-- The winner's scan of `get_largest_selection`: index of the first local
selection whose length equals the global max, `-1` when none matches. -/
def firstIndexEq : List Nat → Int → Int
  | [], _ => -1
  | s :: t, v =>
    if (s : Int) = v then 0
    else
      let r := firstIndexEq t v
      if r < 0 then r else r + 1

/-- `get_largest_selection` as one rank observes it, with `allSizes` the
per-rank selection length lists (rank `r` contributes
`localLargest allSizes[r] r` to the reduction).  Returns
`(sel_rank, sel_index)`. -/
def get_largest_selection (allSizes : List (List Nat)) (rank : Nat) : Int × Int :=
  let contribs := (List.range allSizes.length).map
    (fun r => localLargest (allSizes.getD r []) (Int.ofNat r))
  let glob := maxlocReduce contribs
  let sel_index : Int :=
    if glob.rank = Int.ofNat rank then firstIndexEq (allSizes.getD rank []) glob.value
    else -1
  (glob.rank, sel_index)

/-! ## parallel_partitioner::communicate_chunks -/

/-- A conduit node for the chunk-migration model: a typed leaf or an
ordered list of named children. -/
inductive CNode where
  | leaf (v : Int)
  | obj (children : List (String × CNode))

/-- The ordered children of a node (a leaf has none). -/
def CNode.children : CNode → List (String × CNode)
  | .leaf _ => []
  | .obj cs => cs

/-- Child lookup by name (the first match, as in conduit). -/
def getChild (n : CNode) (name : String) : Option CNode :=
  (n.children.find? (fun c => c.1 == name)).map Prod.snd

/-- Two-level path lookup (`a/b`), mirroring `has_path`/`operator[]` on a
path such as `state/cycle`. -/
def fetchPath2 (n : CNode) (a b : String) : Option CNode :=
  (getChild n a).bind (fun m => getChild m b)

/-- Replace the first child of the given name, or append one. -/
def setChildList (cs : List (String × CNode)) (name : String) (v : CNode) :
    List (String × CNode) :=
  match cs with
  | [] => [(name, v)]
  | c :: rest => if c.1 == name then (name, v) :: rest else c :: setChildList rest name v

/-- `(*n_recv)["state/domain_id"] = i` on a received node: create or
overwrite the `state/domain_id` leaf. -/
def setStateDomainId (n : CNode) (g : Int) : CNode :=
  let st := match getChild n "state" with
    | some s => CNode.obj (setChildList s.children "domain_id" (.leaf g))
    | none => CNode.obj [("domain_id", .leaf g)]
  .obj (setChildList n.children "state" st)

/-- A child of an assembled wrapper node: either a non-owning
(`set_external_node`) reference to an existing subtree, or an owned
subtree. -/
inductive WChild where
  | ext (n : CNode)
  | own (n : CNode)

/-- The wrapper node pushed onto `chunks_to_assemble`. -/
structure WNode where
  children : List (String × WChild)

/-- View a fully owned node (a received chunk) as a wrapper node. -/
def toOwnedWNode (n : CNode) : WNode :=
  ⟨n.children.map (fun c => (c.1, WChild.own c.2))⟩

/-- The wrapper built by the locally-owned branch of the recv loop of
`communicate_chunks`: every child of the local mesh except `state`
becomes a non-owning reference (in child order); then `state/cycle` and
`state/time` are copied when present and `state/domain_id` is set to the
global index, so the new `state` subtree is appended last. -/
def wrapLocalChunk (mesh : CNode) (g : Nat) : WNode :=
  let exts := (mesh.children.filter (fun c => c.1 ≠ "state")).map
    (fun c => (c.1, WChild.ext c.2))
  let st0 : List (String × CNode) := []
  let st1 := match fetchPath2 mesh "state" "cycle" with
    | some v => st0 ++ [("cycle", v)]
    | none => st0
  let st2 := match fetchPath2 mesh "state" "time" with
    | some v => st1 ++ [("time", v)]
    | none => st1
  let st3 := st2 ++ [("domain_id", CNode.leaf (Int.ofNat g))]
  ⟨exts ++ [("state", WChild.own (CNode.obj st3))]⟩

/-- The recv loop of `communicate_chunks`: for every global index `i` with
`dest_rank[i] == rank`, push either the local wrapper (when `i` falls in
this rank's offset slice) or the received subtree (`recvFn i` stands for
`recv_using_schema` from `src_rank[i]` with tag `12000 + i`) with its
`state/domain_id` patched; both are pushed as owned, paired with
`dest_domain[i]`.  Returns `(chunks_to_assemble, chunks_to_assemble_domains)`
where each assembled entry carries its owned flag. -/
def communicateChunksRecv (chunks : List CNode) (dest_rank dest_domain : List Int)
    (offsets : List Nat) (rank : Nat) (recvFn : Nat → CNode) :
    List (WNode × Bool) × List Int :=
  (List.range dest_rank.length).foldl
    (fun acc i =>
      if dest_rank.getD i 0 = Int.ofNat rank then
        let start := offsets.getD rank 0
        let stop := start + chunks.length
        if start ≤ i ∧ i < stop then
          let local_i := i - start
          (acc.1 ++ [(wrapLocalChunk (chunks.getD local_i (.obj [])) i, true)],
           acc.2 ++ [dest_domain.getD i 0])
        else
          (acc.1 ++ [(toOwnedWNode (setStateDomainId (recvFn i) (Int.ofNat i)), true)],
           acc.2 ++ [dest_domain.getD i 0])
      else acc)
    ([], [])

/-- A tiny concrete two-child chunk mesh (a `coordsets` leaf and a
`state` object with `cycle` and `time`) used to exercise the local-wrap
branch of the recv loop. -/
def c9mesh : CNode :=
  CNode.obj [("coordsets", CNode.leaf 7),
             ("state", CNode.obj [("cycle", CNode.leaf 3), ("time", CNode.leaf 5)])]

/-! ## Auxiliary definitions used by the theorem statements -/

/-- Maximum of a list of naturals (0 for the empty list). -/
def maxNat (l : List Nat) : Nat := l.foldl max 0

/-- Minimum of a nonempty list of naturals (0 for the empty list). -/
def minNat : List Nat → Nat
  | [] => 0
  | a :: t => t.foldl min a

/-- Spec-side count: how many of the domains `0 .. target-1` land on rank
`r` when dealt round-robin over `min size target` ranks. -/
def countSpec (size target r : Nat) : Nat :=
  (List.range target).countP (fun i => i % (min size target) = r)

/-- Spec-side block start: the first domain id owned by rank `r` under the
contiguous-block distribution with round-robin block sizes. -/
def blockStart (size target r : Nat) : Nat :=
  ((List.range r).map (countSpec size target)).sum

/-- Spec-side description of the claim's round-robin owner: domain `d`
would belong to rank `d % min size target` if the domains were dealt
round-robin. -/
def roundRobinOwner (size target d : Nat) : Nat := d % (min size target)

/-- A segment `(xa, ya) -> (xb, yb)` on the boundary of the brick
`[xmin, xmax] x [ymin, ymax]` is outward oriented when the right normal
`(dy, -dx)` of its traversal direction points out of the brick: on the
left side the segment runs downward, on the bottom rightward, on the
right upward and on the top leftward. -/
def outwardOriented (xmin xmax ymin ymax xa ya xb yb : ℚ) : Prop :=
  (xa = xmin ∧ xb = xmin ∧ yb < ya) ∨
  (ya = ymin ∧ yb = ymin ∧ xa < xb) ∨
  (xa = xmax ∧ xb = xmax ∧ ya < yb) ∨
  (ya = ymax ∧ yb = ymax ∧ xb < xa)

instance (xmin xmax ymin ymax xa ya xb yb : ℚ) :
    Decidable (outwardOriented xmin xmax ymin ymax xa ya xb yb) := by
  unfold outwardOriented; infer_instance

/-- Coordinate lookup for the endpoints of a boundary segment of a 2D
mesh, packaging `outwardOriented` over the rational values of the mesh's
coordinate arrays. -/
def segOutward (m : Mesh2D) (xmin xmax ymin ymax : ℚ) (s : BSeg) : Prop :=
  outwardOriented xmin xmax ymin ymax
    (m.x.getD s.a.toNat 0).toRat (m.y.getD s.a.toNat 0).toRat
    (m.x.getD s.b.toNat 0).toRat (m.y.getD s.b.toNat 0).toRat

/-- The executable core of `segOutward`: the same four side cases decided
by exact fraction comparisons, together with the nonzero-denominator side
conditions that make those comparisons agree with `ℚ`. -/
def segOutwardB (m : Mesh2D) (xmin xmax ymin ymax : Frac) (s : BSeg) : Bool :=
  let xa := m.x.getD s.a.toNat 0
  let ya := m.y.getD s.a.toNat 0
  let xb := m.x.getD s.b.toNat 0
  let yb := m.y.getD s.b.toNat 0
  decide (xa.d ≠ 0) && decide (ya.d ≠ 0) && decide (xb.d ≠ 0) && decide (yb.d ≠ 0) &&
  (  (decide (Frac.feq xa xmin) && decide (Frac.feq xb xmin) && decide (yb < ya))
  || (decide (Frac.feq ya ymin) && decide (Frac.feq yb ymin) && decide (xa < xb))
  || (decide (Frac.feq xa xmax) && decide (Frac.feq xb xmax) && decide (ya < yb))
  || (decide (Frac.feq ya ymax) && decide (Frac.feq yb ymax) && decide (xb < xa)))

/-- A tile pattern that satisfies every validation invariant of the spec
(including the data-model requirement that edge arrays hold only points
on the corresponding extremal edge, ordered monotonically) but whose
`left` and `bottom` arrays share the corner index 0 while the matching
`right`/`top` entries disagree, so the bottom copy of the point pass
overwrites the left copy inconsistently. -/
def roguePattern : TilerPattern :=
  ⟨[0, 1, 0], [0, 0, 1], [], [0], [1], [0], [2]⟩

/-- A tile pattern violating the `|bottom| == |top|` validation invariant
(`|bottom| = 2`, `|top| = 3`) while keeping every index in range, so the
generator runs it without any out-of-range access. -/
def mismatchedEdgePattern : TilerPattern :=
  ⟨[0, 1, 0, 1], [0, 0, 1, 1], [0, 1, 3, 2], [0, 2], [1, 3], [0, 1], [2, 3, 3]⟩

/-- Spec-side description of the contiguous-block domain-to-rank map: walk
the per-rank domain counts (stopping at the first zero count, as the
assignment loop does) and return the rank whose block of consecutive
domain ids contains `d`. -/
def ownerFrom : List Nat → Nat → Nat → Nat → Option Nat
  | [], _, _, _ => none
  | c :: rest, r, tid, d =>
    if c = 0 then none
    else if tid ≤ d ∧ d < tid + c then some r
    else ownerFrom rest (r + 1) (tid + c) d

/-- Invariant of the point pass with the default pattern: every stored
tile has 33 entries, every id is assigned (nonnegative), each tile after
the first of a row took its corner id 28 from id 32 of its left
neighbour, each tile beyond the first row took its corner id 4 from id 32
of the tile below, and adjacent tiles share their full edge id
sequences. -/
def goodTiles (nx : Nat) (ts : List (List Int)) : Prop :=
  (∀ t ∈ ts, t.length = 33) ∧
  (∀ t ∈ ts, ∀ idx : Nat, 0 ≤ t.getD idx 0) ∧
  (∀ m : Nat, m < ts.length → m % nx ≠ 0 →
    (ts.getD m []).getD 28 0 = (ts.getD (m - 1) []).getD 32 0) ∧
  (∀ m : Nat, m < ts.length → nx ≤ m →
    (ts.getD m []).getD 4 0 = (ts.getD (m - nx) []).getD 32 0) ∧
  (∀ m : Nat, m < ts.length → m % nx ≠ 0 →
    getPointIds (ts.getD m []) defaultPattern.left =
      getPointIds (ts.getD (m - 1) []) defaultPattern.right) ∧
  (∀ m : Nat, m < ts.length → nx ≤ m →
    getPointIds (ts.getD m []) defaultPattern.bottom =
      getPointIds (ts.getD (m - nx) []) defaultPattern.top)

/-- Coordinate invariant of the point pass of `tiled` with the default
pattern over the default extents: every id stored in a tile indexes into
the coordinate arrays, and the coordinates of the id at template slot
`idx` of tile `m` (row-major) are the tile origin
`(20 * (m % nx), 20 * (m / nx))` plus the template point, exactly. -/
def coordsGood (nx : Nat) (ts : List (List Int)) (xs ys : List Frac) : Prop :=
  xs.length = ys.length ∧
  ∀ m : Nat, m < ts.length → ∀ idx : Nat, idx < 33 →
    ((ts.getD m []).getD idx 0).toNat < xs.length ∧
    (xs.getD ((ts.getD m []).getD idx 0).toNat 0).toRat =
      ((m % nx : Nat) : ℚ) * 20 + (defaultPattern.xpts.getD idx 0).toRat ∧
    (ys.getD ((ts.getD m []).getD idx 0).toNat 0).toRat =
      ((m / nx : Nat) : ℚ) * 20 + (defaultPattern.ypts.getD idx 0).toRat

/-! ## Helper lemmas -/

set_option maxRecDepth 2000

/-- `getD` after `set` at the written index. -/
theorem getD_set_self {α : Type _} (l : List α) (i : Nat) (v d : α) (h : i < l.length) :
    (l.set i v).getD i d = v := by
  simp [List.getD_eq_getElem?_getD, List.getElem?_set_self h]

/-- `getD` after `set` at a different index. -/
theorem getD_set_ne {α : Type _} (l : List α) {i j : Nat} (v d : α) (h : i ≠ j) :
    (l.set i v).getD j d = l.getD j d := by
  simp [List.getD_eq_getElem?_getD, List.getElem?_set_ne h]

/-- `getD` of an append at the length of the first part. -/
theorem getD_append_cons {α : Type _} (A : List α) (x : α) (t : List α) (d : α) :
    (A ++ x :: t).getD A.length d = x := by
  induction A with
  | nil => rfl
  | cons a A ih => simpa using ih

/-- `getD` of an append inside the first part. -/
theorem getD_append_lt {α : Type _} (A B : List α) (i : Nat) (d : α) (h : i < A.length) :
    (A ++ B).getD i d = A.getD i d := by
  simp [List.getD_eq_getElem?_getD, List.getElem?_append_left h]

/-- Length of a `flatMap` whose pieces all have the same length. -/
theorem length_flatMap_const {α β : Type _} (l : List α) (k : Nat) (f : α → List β)
    (h : ∀ a ∈ l, (f a).length = k) : (l.flatMap f).length = l.length * k := by
  induction l with
  | nil => simp
  | cons a t ih =>
    simp only [List.flatMap_cons, List.length_append, List.length_cons,
      h a (List.mem_cons_self a t), ih (fun b hb => h b (List.mem_cons_of_mem a hb))]
    ring

/-- A `flatMap` of constant replicates is a replicate. -/
theorem flatMap_replicate_const {α β : Type _} (l : List α) (k : Nat) (c : β) :
    (l.flatMap fun _ => List.replicate k c) = List.replicate (l.length * k) c := by
  induction l with
  | nil => simp
  | cons a t ih =>
    rw [List.flatMap_cons, ih, List.length_cons, Nat.succ_mul, Nat.add_comm,
      List.replicate_add]

/-! ## Frac bridge lemmas -/

/-- Fractions with nonzero denominators that are `feq`-equal represent the
same rational. -/
theorem Frac.toRat_feq {a b : Frac} (ha : a.d ≠ 0) (hb : b.d ≠ 0)
    (h : Frac.feq a b) : a.toRat = b.toRat := by
  have ha' : (a.d : ℚ) ≠ 0 := Int.cast_ne_zero.mpr ha
  have hb' : (b.d : ℚ) ≠ 0 := Int.cast_ne_zero.mpr hb
  unfold Frac.feq at h
  unfold Frac.toRat
  rw [div_eq_div_iff ha' hb']
  exact_mod_cast congrArg (fun z : Int => (z : ℚ)) h

/-- The exact fraction order agrees with the rational order when the
denominators are nonzero. -/
theorem Frac.toRat_lt_iff {a b : Frac} (ha : a.d ≠ 0) (hb : b.d ≠ 0) :
    a < b ↔ a.toRat < b.toRat := by
  have ha' : (a.d : ℚ) ≠ 0 := Int.cast_ne_zero.mpr ha
  have hb' : (b.d : ℚ) ≠ 0 := Int.cast_ne_zero.mpr hb
  have hne : a.d * b.d ≠ 0 := mul_ne_zero ha hb
  have hc : (0 : ℚ) < ((a.d * b.d * Int.sign (a.d * b.d) : Int) : ℚ) := by
    rcases lt_or_gt_of_ne hne with hlt | hgt
    · rw [Int.sign_eq_neg_one_of_neg hlt]
      have h2 : (a.d : ℚ) * b.d < 0 := by exact_mod_cast hlt
      push_cast
      linarith
    · rw [Int.sign_eq_one_of_pos hgt]
      have h2 : (0 : ℚ) < (a.d : ℚ) * b.d := by exact_mod_cast hgt
      push_cast
      linarith
  have key1 : a.toRat * ((a.d * b.d * Int.sign (a.d * b.d) : Int) : ℚ) =
      ((a.n * b.d * Int.sign (a.d * b.d) : Int) : ℚ) := by
    unfold Frac.toRat
    push_cast
    field_simp
    ring
  have key2 : b.toRat * ((a.d * b.d * Int.sign (a.d * b.d) : Int) : ℚ) =
      ((b.n * a.d * Int.sign (a.d * b.d) : Int) : ℚ) := by
    unfold Frac.toRat
    push_cast
    field_simp
    ring
  constructor
  · intro h
    have h' : ((a.n * b.d * Int.sign (a.d * b.d) : Int) : ℚ) <
        ((b.n * a.d * Int.sign (a.d * b.d) : Int) : ℚ) := by exact_mod_cast h
    rw [← key1, ← key2] at h'
    exact lt_of_mul_lt_mul_right h' (le_of_lt hc)
  · intro h
    have h' := (mul_lt_mul_right hc).mpr h
    rw [key1, key2] at h'
    exact_mod_cast h'

/-- Soundness of the executable boundary-orientation check: if it returns
`true`, the segment is outward oriented in the rational sense. -/
theorem segOutwardB_sound {m : Mesh2D} {xminF xmaxF yminF ymaxF : Frac} {s : BSeg}
    (hx0 : xminF.d ≠ 0) (hx1 : xmaxF.d ≠ 0) (hy0 : yminF.d ≠ 0) (hy1 : ymaxF.d ≠ 0)
    (h : segOutwardB m xminF xmaxF yminF ymaxF s = true) :
    segOutward m xminF.toRat xmaxF.toRat yminF.toRat ymaxF.toRat s := by
  unfold segOutwardB at h
  simp only [Bool.and_eq_true, Bool.or_eq_true, decide_eq_true_eq] at h
  obtain ⟨⟨⟨⟨had, hbd⟩, hcd⟩, hdd⟩, hcase⟩ := h
  unfold segOutward outwardOriented
  rcases hcase with ((⟨⟨h1, h2⟩, h3⟩ | ⟨⟨h1, h2⟩, h3⟩) | ⟨⟨h1, h2⟩, h3⟩) | ⟨⟨h1, h2⟩, h3⟩
  · exact Or.inl ⟨Frac.toRat_feq had hx0 h1, Frac.toRat_feq hcd hx0 h2,
      (Frac.toRat_lt_iff hdd hbd).mp h3⟩
  · exact Or.inr (Or.inl ⟨Frac.toRat_feq hbd hy0 h1, Frac.toRat_feq hdd hy0 h2,
      (Frac.toRat_lt_iff had hcd).mp h3⟩)
  · exact Or.inr (Or.inr (Or.inl ⟨Frac.toRat_feq had hx1 h1, Frac.toRat_feq hcd hx1 h2,
      (Frac.toRat_lt_iff hbd hdd).mp h3⟩))
  · exact Or.inr (Or.inr (Or.inr ⟨Frac.toRat_feq hbd hy1 h1, Frac.toRat_feq hdd hy1 h2,
      (Frac.toRat_lt_iff hcd had).mp h3⟩))

/-! ## Claim theorems -/

/-- C2 counterexample: `determine_scale` returns the same scale for
tolerances corresponding to different decimal-place counts (1 and 6),
refuting that different decimal-place counts yield different scales. -/
theorem C2_counterexample :
    determine_scale (1 / 10) = determine_scale (1 / 1000000) ∧
    determine_scale (1 / 10) = 32768 := ⟨rfl, rfl⟩

/-- C2 (amended): the tolerance argument of `determine_scale` is ignored;
`decimal_places` is hardwired to 4, so the scale is `lookup[4] = 32768`
(`2u << 14`) for every tolerance. -/
theorem C2_scale_constant : ∀ t : ℚ, determine_scale t = 32768 := fun _ => rfl

/-- C10: when `domain` and `domains` both have exactly 3 components but
the total domain count `domains[0]*domains[1]*domains[2]` is 1,
`boundaryFlags` enables all six boundaries — interior-face suppression
only applies when more than one domain exists. -/
theorem C10_boundaryFlags_single_domain (dom doms : List Int)
    (h1 : dom.length = 3) (h2 : doms.length = 3)
    (h3 : doms.getD 0 0 * doms.getD 1 0 * doms.getD 2 0 = 1) :
    boundaryFlags ⟨some dom, some doms⟩ = List.replicate 6 true := by
  simp only [boundaryFlags]
  rw [if_pos ⟨h1, by rw [h1, h2]⟩]
  simp only [h3]
  norm_num

/-- C10 witness: the single-domain case `domain = (0,0,0)`,
`domains = (1,1,1)` produces all six flags. -/
theorem C10_boundaryFlags_single_domain_witness :
    boundaryFlags ⟨some [0, 0, 0], some [1, 1, 1]⟩ = List.replicate 6 true :=
  C10_boundaryFlags_single_domain [0, 0, 0] [1, 1, 1] rfl rfl rfl

/-- C3 counterexample: `tiled(1,1,0)` with the default pattern and
`reorder=0` emits 16 boundary segments, not the 20 the claim states
(each 5-point edge yields 4 segments). -/
theorem C3_counterexample : (tiledGenerate2D defaultPattern 1 1).bsegs.length ≠ 20 := by
  decide

/-- C3 (amended): `tiled(1,1,0)` with the default pattern and `reorder=0`
produces 33 points, 24 quad elements and a boundary topology of shape
"line" with 4+4+4+4 = 16 segments whose label counts are Left:4, Right:4,
Bottom:4, Top:4. -/
theorem C3_tiled_1_1_0 :
    (tiledGenerate2D defaultPattern 1 1).x.length = 33 ∧
    (tiledGenerate2D defaultPattern 1 1).y.length = 33 ∧
    (tiledGenerate2D defaultPattern 1 1).elements.length = 24 ∧
    (tiledGenerate2D defaultPattern 1 1).bshape = "line" ∧
    (tiledGenerate2D defaultPattern 1 1).bsegs.length = 16 ∧
    ((tiledGenerate2D defaultPattern 1 1).bsegs.filter
      (fun s => s.side = BoundaryLeft)).length = 4 ∧
    ((tiledGenerate2D defaultPattern 1 1).bsegs.filter
      (fun s => s.side = BoundaryRight)).length = 4 ∧
    ((tiledGenerate2D defaultPattern 1 1).bsegs.filter
      (fun s => s.side = BoundaryBottom)).length = 4 ∧
    ((tiledGenerate2D defaultPattern 1 1).bsegs.filter
      (fun s => s.side = BoundaryTop)).length = 4 := by
  refine ⟨by decide, by decide, by decide, rfl, by decide, by decide, by decide,
    by decide, by decide⟩

/-- C1 counterexample: a pattern that violates the `|bottom| == |top|`
validation invariant is accepted without any `InvalidPattern` failure —
generation runs to completion and produces a normal mesh (4 points, 1
quad, 5 boundary segments). -/
theorem C1_counterexample :
    ¬ specValidPattern mismatchedEdgePattern ∧
    (tiledGenerate2D mismatchedEdgePattern 1 1).x.length = 4 ∧
    (tiledGenerate2D mismatchedEdgePattern 1 1).elements.length = 1 ∧
    (tiledGenerate2D mismatchedEdgePattern 1 1).bsegs.length = 5 := by
  refine ⟨by decide, by decide, by decide, by decide⟩

/-- C1 (amended): `Tiler::initialize` performs no validation — every
pattern, valid or not, is loaded as-is and generation runs unconditionally
(no `InvalidPattern` error exists in the code), always producing
`ny * nx * (|quads| / 4)` elements; in particular the invalid pattern with
`|bottom| != |top|` generates a normal 1-element mesh. -/
theorem C1_no_validation :
    (∀ (p : TilerPattern) (nx ny : Nat),
      (tiledGenerate2D p nx ny).elements.length = ny * (nx * (p.quads.length / 4))) ∧
    ¬ specValidPattern mismatchedEdgePattern ∧
    (tiledGenerate2D mismatchedEdgePattern 1 1).elements.length = 1 := by
  refine ⟨?_, by decide, by decide⟩
  intro p nx ny
  show (quadElements p nx ny (tilePass p nx ny 0 0 p.width p.height).tiles).length =
    ny * (nx * (p.quads.length / 4))
  unfold quadElements
  rw [length_flatMap_const _ (nx * (p.quads.length / 4))]
  · rw [List.length_range]
  · intro j _
    rw [length_flatMap_const _ (p.quads.length / 4)]
    · rw [List.length_range]
    · intro i _
      simp [iterateFaces]

/-- A list of segments all carrying the same side label maps to a
constant label block. -/
theorem map_side_const (L : List BSeg) (c : Nat) (h : ∀ s ∈ L, s.side = c) :
    L.map BSeg.side = List.replicate L.length c := by
  induction L with
  | nil => rfl
  | cons a t ih =>
    simp only [List.map_cons, List.length_cons, List.replicate_succ,
      h a (List.mem_cons_self a t), List.cons.injEq, true_and]
    exact ih fun s hs => h s (List.mem_cons_of_mem a hs)

/-- The rational value of a `Frac` numeral. -/
theorem Frac.toRat_natLit (k : Nat) : (OfNat.ofNat k : Frac).toRat = (k : ℚ) := by
  show ((k : Int) : ℚ) / ((1 : Int) : ℚ) = (k : ℚ)
  norm_num

/-- One side block of the boundary emission: mapping the side label over
an `if`-guarded segment list gives the `if`-guarded constant block. -/
theorem side_block_eq (flag : Bool) (L : List BSeg) (c k : Nat)
    (hside : ∀ s ∈ L, s.side = c) (hlen : L.length = k) :
    (if flag then L else []).map BSeg.side = if flag then List.replicate k c else [] := by
  cases flag with
  | false => rfl
  | true => rw [if_pos rfl, if_pos rfl, map_side_const L c hside, hlen]

/-- `foldl max` is monotone in its seed and bounds every seed. -/
theorem le_foldl_max (l : List Nat) (init : Nat) : init ≤ l.foldl max init := by
  induction l generalizing init with
  | nil => exact Nat.le_refl _
  | cons a t ih => exact Nat.le_trans (Nat.le_max_left init a) (ih (max init a))

/-- Every member bounds `foldl max`. -/
theorem mem_le_foldl_max (l : List Nat) (init : Nat) {a : Nat} (h : a ∈ l) :
    a ≤ l.foldl max init := by
  induction l generalizing init with
  | nil => cases h
  | cons b t ih =>
    rcases List.mem_cons.mp h with rfl | h
    · exact Nat.le_trans (Nat.le_max_right init a) (le_foldl_max t _)
    · exact ih _ h

/-- `foldl max` is at most any upper bound of the seed and the members. -/
theorem foldl_max_le (l : List Nat) (init b : Nat) (h0 : init ≤ b)
    (h : ∀ a ∈ l, a ≤ b) : l.foldl max init ≤ b := by
  induction l generalizing init with
  | nil => exact h0
  | cons a t ih =>
    exact ih _ (Nat.max_le.mpr ⟨h0, h a (List.mem_cons_self a t)⟩)
      fun c hc => h c (List.mem_cons_of_mem a hc)

/-- Members bound `maxNat`. -/
theorem le_maxNat {l : List Nat} {a : Nat} (h : a ∈ l) : a ≤ maxNat l :=
  mem_le_foldl_max l 0 h

/-- `maxNat` is the least upper bound over the members (with floor 0). -/
theorem maxNat_le {l : List Nat} {b : Nat} (h : ∀ a ∈ l, a ≤ b) : maxNat l ≤ b :=
  foldl_max_le l 0 b (Nat.zero_le b) h

/-- `maxNat` of a cons. -/
theorem maxNat_cons (a : Nat) (l : List Nat) : maxNat (a :: l) = max a (maxNat l) := by
  apply Nat.le_antisymm
  · exact maxNat_le fun c hc => by
      rcases List.mem_cons.mp hc with rfl | hc
      · exact Nat.le_max_left _ _
      · exact Nat.le_trans (le_maxNat hc) (Nat.le_max_right _ _)
  · exact Nat.max_le.mpr ⟨le_maxNat (List.mem_cons_self a l),
      maxNat_le fun c hc => le_maxNat (List.mem_cons_of_mem a hc)⟩

/-- `maxNat` is either 0 or attained by a member. -/
theorem maxNat_mem (l : List Nat) : maxNat l = 0 ∨ maxNat l ∈ l := by
  induction l with
  | nil => exact Or.inl rfl
  | cons a t ih =>
    rw [maxNat_cons]
    rcases Nat.le_total a (maxNat t) with h | h
    · rw [Nat.max_eq_right h]
      rcases ih with h0 | hmem
      · exact Or.inl h0
      · exact Or.inr (List.mem_cons_of_mem a hmem)
    · rw [Nat.max_eq_left h]
      exact Or.inr (List.mem_cons_self a t)

/-- `maxNat` of a prefix is bounded by `maxNat` of the list. -/
theorem maxNat_take_le (l : List Nat) (k : Nat) : maxNat (l.take k) ≤ maxNat l :=
  maxNat_le fun _ ha => le_maxNat (List.mem_of_mem_take ha)

/-- `foldl min` is bounded by its seed. -/
theorem foldl_min_le_init (l : List Nat) (init : Nat) : l.foldl min init ≤ init := by
  induction l generalizing init with
  | nil => exact Nat.le_refl _
  | cons c u ih => exact Nat.le_trans (ih (min init c)) (Nat.min_le_left init c)

/-- `foldl min` is bounded by every member. -/
theorem foldl_min_le_mem (l : List Nat) (init : Nat) {a : Nat} (h : a ∈ l) :
    l.foldl min init ≤ a := by
  induction l generalizing init with
  | nil => cases h
  | cons c u ih =>
    rcases List.mem_cons.mp h with rfl | h
    · exact Nat.le_trans (foldl_min_le_init u (min init a)) (Nat.min_le_right init a)
    · exact ih _ h

/-- Any common lower bound of the seed and members bounds `foldl min`. -/
theorem le_foldl_min (l : List Nat) (init b : Nat) (h0 : b ≤ init)
    (h : ∀ a ∈ l, b ≤ a) : b ≤ l.foldl min init := by
  induction l generalizing init with
  | nil => exact h0
  | cons c u ih =>
    exact ih _ (Nat.le_min.mpr ⟨h0, h c (List.mem_cons_self c u)⟩)
      fun e he => h e (List.mem_cons_of_mem c he)

/-- `foldl min` is the seed or a member. -/
theorem foldl_min_mem (l : List Nat) (init : Nat) :
    l.foldl min init = init ∨ l.foldl min init ∈ l := by
  induction l generalizing init with
  | nil => exact Or.inl rfl
  | cons c u ih =>
    rw [List.foldl_cons]
    rcases ih (min init c) with h | h
    · rcases Nat.le_total init c with hic | hic
      · exact Or.inl (h.trans (Nat.min_eq_left hic))
      · rw [h, Nat.min_eq_right hic]
        exact Or.inr (List.mem_cons_self c u)
    · exact Or.inr (List.mem_cons_of_mem c h)

/-- `minNat` bounds every member. -/
theorem minNat_le {l : List Nat} {a : Nat} (h : a ∈ l) : minNat l ≤ a := by
  cases l with
  | nil => cases h
  | cons b t =>
    show t.foldl min b ≤ a
    rcases List.mem_cons.mp h with rfl | h
    · exact foldl_min_le_init t a
    · exact foldl_min_le_mem t b h

/-- Any lower bound of the members bounds `minNat` of a nonempty list. -/
theorem le_minNat {l : List Nat} {b : Nat} (hne : l ≠ []) (h : ∀ a ∈ l, b ≤ a) :
    b ≤ minNat l := by
  cases l with
  | nil => cases hne rfl
  | cons a t =>
    exact le_foldl_min t a b (h a (List.mem_cons_self a t))
      fun c hc => h c (List.mem_cons_of_mem a hc)

/-- `minNat` of a nonempty list is attained. -/
theorem minNat_mem {l : List Nat} (hne : l ≠ []) : minNat l ∈ l := by
  cases l with
  | nil => cases hne rfl
  | cons a t =>
    show t.foldl min a ∈ a :: t
    rcases foldl_min_mem t a with h | h
    · rw [h]
      exact List.mem_cons_self a t
    · exact List.mem_cons_of_mem a h

/-- `getD` at an in-range index is a member. -/
theorem getD_mem_of_lt {α : Type _} (l : List α) (i : Nat) (d : α) (h : i < l.length) :
    l.getD i d ∈ l := by
  rw [List.getD_eq_getElem l d h]
  exact l.getElem_mem h

/-- `getD` through `map (· + ne)` at an in-range index. -/
theorem getD_map_add (l : List Nat) (ne i : Nat) (h : i < l.length) :
    (l.map (· + ne)).getD i 0 = l.getD i 0 + ne := by
  have h' : i < (l.map (· + ne)).length := by simpa using h
  rw [List.getD_eq_getElem _ _ h', List.getD_eq_getElem _ _ h, List.getElem_map]

/-- The argmin scan: the result is in range, attains the minimum, and is
strictly below every earlier index (ties keep the lowest index). -/
theorem minIndexLoop_spec (next : List Nat) (hne : next ≠ []) :
    minIndexLoop next < next.length ∧
    (∀ r < next.length, next.getD (minIndexLoop next) 0 ≤ next.getD r 0) ∧
    (∀ r < minIndexLoop next, next.getD (minIndexLoop next) 0 < next.getD r 0) := by
  have key : ∀ m, m ≤ next.length → 0 < m →
      ((List.range m).foldl
        (fun idx r => if next.getD r 0 < next.getD idx 0 then r else idx) 0) < m ∧
      (∀ r < m, next.getD ((List.range m).foldl
        (fun idx r => if next.getD r 0 < next.getD idx 0 then r else idx) 0) 0 ≤
        next.getD r 0) ∧
      (∀ r < (List.range m).foldl
        (fun idx r => if next.getD r 0 < next.getD idx 0 then r else idx) 0,
        next.getD ((List.range m).foldl
          (fun idx r => if next.getD r 0 < next.getD idx 0 then r else idx) 0) 0 <
        next.getD r 0) := by
    intro m
    induction m with
    | zero => intro _ h0; cases h0
    | succ m ih =>
      intro hm _
      rw [List.range_succ, List.foldl_append, List.foldl_cons, List.foldl_nil]
      rcases Nat.eq_zero_or_pos m with rfl | hmpos
      · simp only [List.range_zero, List.foldl_nil]
        constructor
        · split <;> omega
        · constructor
          · intro r hr
            interval_cases r
            split <;> omega
          · intro r hr
            split at hr <;> omega
      · obtain ⟨ih1, ih2, ih3⟩ := ih (Nat.le_of_succ_le hm) hmpos
        set prev := (List.range m).foldl
          (fun idx r => if next.getD r 0 < next.getD idx 0 then r else idx) 0 with hprev
        constructor
        · split <;> omega
        · constructor
          · intro r hr
            rcases (show r < m ∨ r = m by omega) with hr | rfl
            · split
              · next hlt => exact Nat.le_trans (Nat.le_of_lt hlt) (ih2 r hr)
              · exact ih2 r hr
            · split
              · exact Nat.le_refl _
              · next hnlt => omega
          · intro r hr
            split at hr
            · next hlt =>
                rw [if_pos hlt]
                exact Nat.lt_of_lt_of_le hlt (ih2 r hr)
            · next hnlt =>
                rw [if_neg hnlt]
                exact ih3 r hr
  have hlen : 0 < next.length := List.length_pos.mpr hne
  have := key next.length (Nat.le_refl _) hlen
  exact this

/-- The counts vector length is preserved by one greedy step. -/
theorem freeAssignStep_length (counts : List Nat) (ne : Nat) :
    (freeAssignStep counts ne).1.length = counts.length := by
  unfold freeAssignStep
  simp

/-- Characterization of one greedy step on a nonempty counts vector: the
chosen index is in range, minimizes `counts[r] + ne`, is strictly better
than every earlier index, and the counts are updated at that index. -/
theorem freeAssignStep_spec (counts : List Nat) (ne : Nat) (hne : counts ≠ []) :
    (freeAssignStep counts ne).2 < counts.length ∧
    (∀ r < counts.length,
      counts.getD (freeAssignStep counts ne).2 0 + ne ≤ counts.getD r 0 + ne) ∧
    (∀ r < (freeAssignStep counts ne).2,
      counts.getD (freeAssignStep counts ne).2 0 + ne < counts.getD r 0 + ne) ∧
    (freeAssignStep counts ne).1 =
      counts.set (freeAssignStep counts ne).2
        (counts.getD (freeAssignStep counts ne).2 0 + ne) := by
  have hmapne : counts.map (· + ne) ≠ [] := by
    intro h
    exact hne (List.map_eq_nil_iff.mp h)
  obtain ⟨h1, h2, h3⟩ := minIndexLoop_spec (counts.map (· + ne)) hmapne
  rw [List.length_map] at h1
  have idx_eq : (freeAssignStep counts ne).2 = minIndexLoop (counts.map (· + ne)) := rfl
  refine ⟨by rw [idx_eq]; exact h1, ?_, ?_, rfl⟩
  · intro r hr
    have := h2 r (by simpa using hr)
    rwa [getD_map_add _ _ _ h1, getD_map_add _ _ _ hr] at this
  · intro r hr
    rw [idx_eq] at hr
    have := h3 r hr
    rwa [getD_map_add _ _ _ h1, getD_map_add _ _ _ (Nat.lt_trans hr h1)] at this

/-- One greedy step keeps the spread of the counts below
`max B (chunk size)`. -/
theorem freeAssignStep_balance (counts : List Nat) (ne B : Nat)
    (hne : counts ≠ []) (hB : maxNat counts - minNat counts ≤ B) :
    maxNat (freeAssignStep counts ne).1 - minNat (freeAssignStep counts ne).1 ≤
      max B ne := by
  obtain ⟨h1, h2, _, h4⟩ := freeAssignStep_spec counts ne hne
  set idx := (freeAssignStep counts ne).2 with hidx
  -- the written value is minNat counts + ne
  have hval : counts.getD idx 0 = minNat counts := by
    apply Nat.le_antisymm
    · obtain ⟨r, hrlen, hrval⟩ := List.mem_iff_getElem.mp (minNat_mem hne)
      have := h2 r hrlen
      rw [← List.getD_eq_getElem counts 0 hrlen] at hrval
      omega
    · exact minNat_le (getD_mem_of_lt counts idx 0 h1)
  have hsetne : (freeAssignStep counts ne).1 ≠ [] := by
    intro h
    have := freeAssignStep_length counts ne
    rw [h] at this
    exact hne (List.length_eq_zero.mp this.symm)
  have hmax' : maxNat (freeAssignStep counts ne).1 ≤
      max (maxNat counts) (minNat counts + ne) := by
    apply maxNat_le
    intro a ha
    rw [h4] at ha
    rcases List.mem_or_eq_of_mem_set ha with ha | rfl
    · exact Nat.le_trans (le_maxNat ha) (Nat.le_max_left _ _)
    · rw [hval]
      exact Nat.le_max_right _ _
  have hmin' : minNat counts ≤ minNat (freeAssignStep counts ne).1 := by
    apply le_minNat hsetne
    intro a ha
    rw [h4] at ha
    rcases List.mem_or_eq_of_mem_set ha with ha | rfl
    · exact minNat_le ha
    · rw [hval]
      omega
  have hminmax : minNat counts ≤ maxNat counts := by
    obtain ⟨a, ha⟩ := List.exists_mem_of_ne_nil counts hne
    exact Nat.le_trans (minNat_le ha) (le_maxNat ha)
  omega

/-- The counts vector length is preserved by the whole free-assignment
fold. -/
theorem freeAssign_foldl_length (l : List Nat) (st : List Nat × List Nat) :
    (l.foldl (fun st ne =>
      let r := freeAssignStep st.1 ne
      (r.1, st.2 ++ [r.2])) st).1.length = st.1.length := by
  induction l generalizing st with
  | nil => rfl
  | cons a t ih =>
    rw [List.foldl_cons, ih]
    exact freeAssignStep_length st.1 a

/-- The free-assignment fold keeps the counts spread below the running
maximum chunk size. -/
theorem freeAssign_foldl_balance (l : List Nat) (counts doms : List Nat) (B : Nat)
    (hne : counts ≠ []) (hB : maxNat counts - minNat counts ≤ B) :
    maxNat (l.foldl (fun st ne =>
      let r := freeAssignStep st.1 ne
      (r.1, st.2 ++ [r.2])) (counts, doms)).1 -
    minNat (l.foldl (fun st ne =>
      let r := freeAssignStep st.1 ne
      (r.1, st.2 ++ [r.2])) (counts, doms)).1 ≤ max B (maxNat l) := by
  induction l generalizing counts doms B with
  | nil =>
    simp only [List.foldl_nil]
    exact Nat.le_trans hB (Nat.le_max_left _ _)
  | cons a t ih =>
    rw [List.foldl_cons]
    have h1 : (freeAssignStep counts a).1 ≠ [] := by
      intro h
      have hl := freeAssignStep_length counts a
      rw [h] at hl
      exact hne (List.length_eq_zero.mp hl.symm)
    have hstep := freeAssignStep_balance counts a B hne hB
    have hrec := ih (freeAssignStep counts a).1
      (doms ++ [(freeAssignStep counts a).2]) (max B a) h1 hstep
    refine Nat.le_trans hrec ?_
    rw [maxNat_cons]
    exact Nat.max_le.mpr ⟨Nat.max_le.mpr ⟨Nat.le_max_left _ _,
      Nat.le_trans (Nat.le_max_left a (maxNat t)) (Nat.le_max_right B _)⟩,
      Nat.le_trans (Nat.le_max_right a (maxNat t)) (Nat.le_max_right B _)⟩

/-- Unfolding the free assignment one chunk at a time. -/
theorem freeAssign_take_succ (target : Nat) (elems : List Nat) (k : Nat)
    (hk : k < elems.length) :
    freeAssign target (elems.take (k + 1)) =
      ((freeAssignStep (freeAssign target (elems.take k)).1 (elems.getD k 0)).1,
       (freeAssign target (elems.take k)).2 ++
         [(freeAssignStep (freeAssign target (elems.take k)).1 (elems.getD k 0)).2]) := by
  unfold freeAssign
  rw [List.take_succ]
  have hg : elems[k]? = some (elems.getD k 0) := by
    rw [List.getElem?_eq_getElem hk, List.getD_eq_getElem _ _ hk]
  rw [hg]
  rw [List.foldl_append]
  rfl

/-- C5: in the all-free branch of `map_chunks`, chunks are assigned in
global order, each to the target domain minimizing
`target_element_counts[t] + num_elements` with ties to the lowest index
(the chosen index is in range, minimizes the candidate sums, and is
strictly better than every earlier index), the counts are updated at the
chosen index and the chosen domain is appended; and after every step of
the assignment `max(target_element_counts) - min(target_element_counts)`
is at most the largest chunk size. -/
theorem C5_free_assignment (target : Nat) (elems : List Nat) (htarget : 0 < target) :
    (∀ k : Nat,
      maxNat (freeAssign target (elems.take k)).1 -
        minNat (freeAssign target (elems.take k)).1 ≤ maxNat elems) ∧
    (∀ k, k < elems.length →
      (freeAssignStep (freeAssign target (elems.take k)).1 (elems.getD k 0)).2 < target ∧
      (∀ r < target,
        (freeAssign target (elems.take k)).1.getD
            ((freeAssignStep (freeAssign target (elems.take k)).1 (elems.getD k 0)).2) 0 +
          elems.getD k 0 ≤
        (freeAssign target (elems.take k)).1.getD r 0 + elems.getD k 0) ∧
      (∀ r < (freeAssignStep (freeAssign target (elems.take k)).1 (elems.getD k 0)).2,
        (freeAssign target (elems.take k)).1.getD
            ((freeAssignStep (freeAssign target (elems.take k)).1 (elems.getD k 0)).2) 0 +
          elems.getD k 0 <
        (freeAssign target (elems.take k)).1.getD r 0 + elems.getD k 0) ∧
      (freeAssign target (elems.take (k + 1))).2 =
        (freeAssign target (elems.take k)).2 ++
          [(freeAssignStep (freeAssign target (elems.take k)).1 (elems.getD k 0)).2] ∧
      (freeAssign target (elems.take (k + 1))).1 =
        (freeAssign target (elems.take k)).1.set
          ((freeAssignStep (freeAssign target (elems.take k)).1 (elems.getD k 0)).2)
          ((freeAssign target (elems.take k)).1.getD
              ((freeAssignStep (freeAssign target (elems.take k)).1 (elems.getD k 0)).2) 0 +
            elems.getD k 0)) := by
  have hct : ∀ l : List Nat, (freeAssign target l).1.length = target := by
    intro l
    have := freeAssign_foldl_length l (List.replicate target 0, [])
    simpa [freeAssign] using this
  have hcne : ∀ l : List Nat, (freeAssign target l).1 ≠ [] := by
    intro l h
    have hlen := hct l
    rw [h] at hlen
    simp at hlen
    omega
  constructor
  · intro k
    have hrepne : (List.replicate target 0 : List Nat) ≠ [] := by
      intro h
      have := congrArg List.length h
      simp at this
      omega
    have hrep : maxNat (List.replicate target 0) - minNat (List.replicate target 0) ≤ 0 := by
      have hm : maxNat (List.replicate target 0) = 0 :=
        Nat.le_antisymm (maxNat_le fun a ha => Nat.le_of_eq (List.eq_of_mem_replicate ha))
          (Nat.zero_le _)
      omega
    have hb := freeAssign_foldl_balance (elems.take k) (List.replicate target 0) [] 0
      hrepne hrep
    have hunfold : freeAssign target (elems.take k) =
        (elems.take k).foldl (fun st ne =>
          let r := freeAssignStep st.1 ne
          (r.1, st.2 ++ [r.2])) (List.replicate target 0, []) := rfl
    rw [hunfold]
    refine Nat.le_trans hb ?_
    have : max 0 (maxNat (elems.take k)) = maxNat (elems.take k) := Nat.zero_max _
    rw [this]
    exact maxNat_take_le elems k
  · intro k hk
    obtain ⟨h1, h2, h3, h4⟩ :=
      freeAssignStep_spec (freeAssign target (elems.take k)).1 (elems.getD k 0)
        (hcne (elems.take k))
    rw [hct] at h1 h2
    have hsucc := freeAssign_take_succ target elems k hk
    refine ⟨h1, h2, h3, ?_, ?_⟩
    · rw [hsucc]
    · rw [hsucc]
      exact h4

/-- C5 witness: target 3 with chunks `[5,3,3,2,9]`. -/
theorem C5_free_assignment_witness :
    0 < 3 ∧
    maxNat (freeAssign 3 (([5, 3, 3, 2, 9] : List Nat).take 5)).1 -
      minNat (freeAssign 3 (([5, 3, 3, 2, 9] : List Nat).take 5)).1 ≤
      maxNat [5, 3, 3, 2, 9] :=
  ⟨by decide, (C5_free_assignment 3 [5, 3, 3, 2, 9] (by decide)).1 5⟩

/-! ## Lemmas for `get_largest_selection` -/

/-- Componentwise equality of `long_int` pairs. -/
theorem LongInt.ext_eq {a b : LongInt} (h1 : a.value = b.value)
    (h2 : a.rank = b.rank) : a = b := by
  cases a
  cases b
  cases h1
  cases h2
  rfl

/-- The rank of the local scan never changes. -/
theorem localLargest_fold_rank (sizes : List Nat) (acc : LongInt) :
    (sizes.foldl
      (fun (acc : LongInt) (s : Nat) =>
        if (s : Int) > acc.value then (⟨(s : Int), acc.rank⟩ : LongInt) else acc)
      acc).rank = acc.rank := by
  induction sizes generalizing acc with
  | nil => rfl
  | cons a t ih =>
    rw [List.foldl_cons, ih]
    split <;> rfl

/-- The value of the local scan is the running maximum (cast to `Int`). -/
theorem localLargest_fold_value (sizes : List Nat) (acc : LongInt) (v : Nat)
    (hv : acc.value = (v : Int)) :
    (sizes.foldl
      (fun (acc : LongInt) (s : Nat) =>
        if (s : Int) > acc.value then (⟨(s : Int), acc.rank⟩ : LongInt) else acc)
      acc).value = ((sizes.foldl max v : Nat) : Int) := by
  induction sizes generalizing acc v with
  | nil => simpa using hv
  | cons a t ih =>
    simp only [List.foldl_cons]
    apply ih
    split
    · next h =>
      show (a : Int) = ((max v a : Nat) : Int)
      rw [hv] at h
      have hva : v < a := by exact_mod_cast h
      rw [Nat.max_eq_right (Nat.le_of_lt hva)]
    · next h =>
      rw [hv] at h ⊢
      have hav : a ≤ v := by
        by_contra hc
        exact h (by exact_mod_cast Nat.lt_of_not_le hc)
      rw [Nat.max_eq_left hav]

/-- The local scan of `get_largest_selection` computes the local maximum
length (with floor 0) and keeps the calling rank. -/
theorem localLargest_eq (sizes : List Nat) (r : Int) :
    localLargest sizes r = ⟨((maxNat sizes : Nat) : Int), r⟩ := by
  refine LongInt.ext_eq ?_ ?_
  · show (localLargest sizes r).value = ((maxNat sizes : Nat) : Int)
    unfold localLargest maxNat
    exact localLargest_fold_value sizes ⟨0, r⟩ 0 rfl
  · show (localLargest sizes r).rank = r
    unfold localLargest
    exact localLargest_fold_rank sizes ⟨0, r⟩

/-- `maxlocReduce` over a nonempty list extended by one element. -/
theorem maxlocReduce_append_singleton (A : List LongInt) (x : LongInt) (h : A ≠ []) :
    maxlocReduce (A ++ [x]) = maxlocOp (maxlocReduce A) x := by
  cases A with
  | nil => cases h rfl
  | cons a t =>
    show List.foldl maxlocOp a (t ++ [x]) = maxlocOp (List.foldl maxlocOp a t) x
    rw [List.foldl_append, List.foldl_cons, List.foldl_nil]

/-- The `MPI_MAXLOC` reduction over the per-rank contributions returns the
global maximum value together with the lowest rank attaining it. -/
theorem maxlocReduce_spec (n : Nat) (f : Nat → Nat) (hn : 0 < n) :
    ∃ W : Nat, W < n ∧
      maxlocReduce ((List.range n).map fun r => (⟨((f r : Nat) : Int), (r : Int)⟩ : LongInt)) =
        ⟨((f W : Nat) : Int), (W : Int)⟩ ∧
      (∀ r < n, f r ≤ f W) ∧ (∀ r < W, f r < f W) := by
  induction n with
  | zero => omega
  | succ n ih =>
    rcases Nat.eq_zero_or_pos n with rfl | hpos
    · refine ⟨0, by omega, rfl, ?_, by omega⟩
      intro r hr
      interval_cases r
      exact Nat.le_refl _
    · obtain ⟨W, hW, hred, hmax, hstrict⟩ := ih hpos
      have hne : ((List.range n).map fun r => (⟨((f r : Nat) : Int), (r : Int)⟩ : LongInt)) ≠ [] := by
        intro h
        have := congrArg List.length h
        simp at this
        omega
      have hsplit : (List.range (n + 1)).map
          (fun r => (⟨((f r : Nat) : Int), (r : Int)⟩ : LongInt)) =
          ((List.range n).map fun r => (⟨((f r : Nat) : Int), (r : Int)⟩ : LongInt)) ++
            [⟨((f n : Nat) : Int), (n : Int)⟩] := by
        rw [List.range_succ, List.map_append, List.map_cons, List.map_nil]
      rw [hsplit, maxlocReduce_append_singleton _ _ hne, hred]
      rcases Nat.lt_trichotomy (f n) (f W) with hlt | heq | hgt
      · refine ⟨W, by omega, ?_, ?_, hstrict⟩
        · unfold maxlocOp
          rw [if_pos (by
            show ((f n : Nat) : Int) < ((f W : Nat) : Int)
            exact_mod_cast hlt)]
        · intro r hr
          rcases (show r < n ∨ r = n by omega) with hr | rfl
          · exact hmax r hr
          · exact Nat.le_of_lt hlt
      · refine ⟨W, by omega, ?_, ?_, hstrict⟩
        · unfold maxlocOp
          rw [if_neg (by
              show ¬ ((f n : Nat) : Int) < ((f W : Nat) : Int)
              exact_mod_cast (by omega : ¬ f n < f W)),
            if_neg (by
              show ¬ ((f W : Nat) : Int) < ((f n : Nat) : Int)
              exact_mod_cast (by omega : ¬ f W < f n))]
          refine LongInt.ext_eq rfl ?_
          show min ((W : Nat) : Int) ((n : Nat) : Int) = ((W : Nat) : Int)
          exact min_eq_left (by exact_mod_cast Nat.le_of_lt hW)
        · intro r hr
          rcases (show r < n ∨ r = n by omega) with hr | rfl
          · exact hmax r hr
          · exact Nat.le_of_eq heq
      · refine ⟨n, by omega, ?_, ?_, ?_⟩
        · unfold maxlocOp
          rw [if_neg (by
              show ¬ ((f n : Nat) : Int) < ((f W : Nat) : Int)
              exact_mod_cast (by omega : ¬ f n < f W)),
            if_pos (by
              show ((f W : Nat) : Int) < ((f n : Nat) : Int)
              exact_mod_cast hgt)]
        · intro r hr
          rcases (show r < n ∨ r = n by omega) with hr | rfl
          · exact Nat.le_of_lt (Nat.lt_of_le_of_lt (hmax r hr) hgt)
          · exact Nat.le_refl _
        · intro r hr
          exact Nat.lt_of_le_of_lt (hmax r hr) hgt

/-- The winner's scan finds the first index whose length equals the
target. -/
theorem firstIndexEq_spec (sizes : List Nat) (m : Nat) (hmem : m ∈ sizes) :
    ∃ i : Nat, firstIndexEq sizes (m : Int) = (i : Int) ∧ i < sizes.length ∧
      sizes.getD i 0 = m ∧ ∀ k < i, sizes.getD k 0 ≠ m := by
  induction sizes with
  | nil => cases hmem
  | cons a t ih =>
    by_cases ha : a = m
    · refine ⟨0, ?_, by simp, by simp [ha], by omega⟩
      unfold firstIndexEq
      rw [if_pos (by exact_mod_cast ha)]
      rfl
    · have hmem' : m ∈ t := by
        rcases List.mem_cons.mp hmem with rfl | h
        · exact absurd rfl ha
        · exact h
      obtain ⟨i, h1, h2, h3, h4⟩ := ih hmem'
      refine ⟨i + 1, ?_, by simpa using h2, by simpa using h3, ?_⟩
      · unfold firstIndexEq
        rw [if_neg (by exact_mod_cast ha)]
        rw [h1]
        rw [if_neg (by omega)]
        push_cast
        ring
      · intro k hk
        cases k with
        | zero => simpa using ha
        | succ k =>
          have := h4 k (by omega)
          simpa using this

/-- C7: each rank contributes its local maximum selection length to an
`MPI_MAXLOC` reduction; the winner `W` is the lowest rank attaining the
global maximum; every rank's `sel_rank` equals `W`; the winner's
`sel_index` is the first local selection index whose length equals the
global maximum, and every other rank's `sel_index` is `-1`. -/
theorem C7_get_largest_selection (allSizes : List (List Nat)) (rank : Nat)
    (hrank : rank < allSizes.length) (hpos : 0 < maxNat allSizes.flatten) :
    ∃ W : Nat, W < allSizes.length ∧
      maxNat (allSizes.getD W []) = maxNat allSizes.flatten ∧
      (∀ r < W, maxNat (allSizes.getD r []) < maxNat allSizes.flatten) ∧
      (get_largest_selection allSizes rank).1 = (W : Int) ∧
      (rank ≠ W → (get_largest_selection allSizes rank).2 = -1) ∧
      (rank = W → ∃ i : Nat,
        (get_largest_selection allSizes rank).2 = (i : Int) ∧
        i < (allSizes.getD W []).length ∧
        (allSizes.getD W []).getD i 0 = maxNat allSizes.flatten ∧
        ∀ k < i, (allSizes.getD W []).getD k 0 ≠ maxNat allSizes.flatten) := by
  have hn : 0 < allSizes.length := Nat.lt_of_le_of_lt (Nat.zero_le rank) hrank
  obtain ⟨W, hW, hred, hmax, hstrict⟩ :=
    maxlocReduce_spec allSizes.length (fun r => maxNat (allSizes.getD r [])) hn
  have hcongr : ((List.range allSizes.length).map
      (fun r => localLargest (allSizes.getD r []) (Int.ofNat r))) =
      ((List.range allSizes.length).map
        (fun r => (⟨((maxNat (allSizes.getD r []) : Nat) : Int), (r : Int)⟩ : LongInt))) := by
    apply List.map_congr_left
    intro r _
    exact localLargest_eq (allSizes.getD r []) (Int.ofNat r)
  -- the winner attains the global flatten maximum
  have hfW : maxNat (allSizes.getD W []) = maxNat allSizes.flatten := by
    apply Nat.le_antisymm
    · apply maxNat_le
      intro a ha
      exact le_maxNat (List.mem_flatten.mpr ⟨allSizes.getD W [], getD_mem_of_lt _ _ _ hW, ha⟩)
    · apply maxNat_le
      intro a ha
      obtain ⟨l, hl, hal⟩ := List.mem_flatten.mp ha
      obtain ⟨r, hr, rfl⟩ := List.mem_iff_getElem.mp hl
      have : a ≤ maxNat (allSizes.getD r []) := by
        rw [List.getD_eq_getElem allSizes [] hr]
        exact le_maxNat hal
      exact Nat.le_trans this (hmax r hr)
  have hglob : maxlocReduce ((List.range allSizes.length).map
      (fun r => localLargest (allSizes.getD r []) (Int.ofNat r))) =
      ⟨((maxNat (allSizes.getD W []) : Nat) : Int), (W : Int)⟩ := by
    rw [hcongr]
    exact hred
  refine ⟨W, hW, hfW, ?_, ?_, ?_, ?_⟩
  · intro r hr
    rw [← hfW]
    exact hstrict r hr
  · show (maxlocReduce _).rank = (W : Int)
    rw [hglob]
  · intro hne
    show (if (maxlocReduce _).rank = Int.ofNat rank then _ else (-1 : Int)) = -1
    rw [hglob]
    rw [if_neg (by
      intro h
      have h' : Int.ofNat rank = Int.ofNat W := (h : (W : Int) = Int.ofNat rank).symm
      exact hne (Int.ofNat.inj h')
      )]
  · intro heq
    subst heq
    have hmem : maxNat allSizes.flatten ∈ allSizes.getD rank [] := by
      rcases maxNat_mem (allSizes.getD rank []) with h0 | hmem
      · rw [hfW] at h0
        omega
      · rw [← hfW]
        exact hmem
    obtain ⟨i, h1, h2, h3, h4⟩ := firstIndexEq_spec (allSizes.getD rank []) _ hmem
    refine ⟨i, ?_, h2, h3, h4⟩
    show (if (maxlocReduce _).rank = Int.ofNat rank then
      firstIndexEq (allSizes.getD rank []) (maxlocReduce _).value else (-1 : Int)) = (i : Int)
    rw [hglob]
    have hc : (⟨((maxNat (allSizes.getD rank []) : Nat) : Int), (rank : Int)⟩ : LongInt).rank =
        Int.ofNat rank := rfl
    rw [if_pos hc]
    show firstIndexEq (allSizes.getD rank []) ((maxNat (allSizes.getD rank []) : Nat) : Int) =
      (i : Int)
    rw [hfW]
    exact h1

/-! ## Lemmas for the domain-to-rank spread of `map_chunks` -/

/-- `assignDomainToRank` preserves the length of `global_dest_rank`. -/
theorem assignDomainToRank_length (dd : List Nat) (dr : List Int) (tid r : Nat) :
    (assignDomainToRank dd dr tid r).length = dr.length := by
  unfold assignDomainToRank
  generalize List.range dd.length = idxs
  induction idxs generalizing dr with
  | nil => rfl
  | cons a t ih =>
    rw [List.foldl_cons]
    rw [ih]
    split <;> simp

/-- Entrywise effect of `assignDomainToRank`: every chunk whose domain is
`tid` is set to rank `r`, all others keep their value. -/
theorem assignDomainToRank_getD (dd : List Nat) (dr : List Int) (tid r : Nat)
    (i : Nat) (hi : i < dd.length) (hlen : dr.length = dd.length) (d : Int) :
    (assignDomainToRank dd dr tid r).getD i d =
      if dd.getD i 0 = tid then Int.ofNat r else dr.getD i d := by
  have key : ∀ m, m ≤ dd.length → ∀ dr : List Int, dr.length = dd.length →
      ((List.range m).foldl
        (fun dr i => if dd.getD i 0 = tid then dr.set i (Int.ofNat r) else dr) dr).getD i d =
      if i < m ∧ dd.getD i 0 = tid then Int.ofNat r else dr.getD i d := by
    intro m
    induction m with
    | zero =>
      intro _ dr _
      simp only [List.range_zero, List.foldl_nil]
      rw [if_neg (by omega)]
    | succ m ih =>
      intro hm dr hlen'
      rw [List.range_succ, List.foldl_append, List.foldl_cons, List.foldl_nil]
      have hfoldlen : ((List.range m).foldl
          (fun dr i => if dd.getD i 0 = tid then dr.set i (Int.ofNat r) else dr) dr).length =
          dd.length := by
        have : ∀ (idxs : List Nat) (dr : List Int),
            (idxs.foldl
              (fun dr i => if dd.getD i 0 = tid then dr.set i (Int.ofNat r) else dr) dr).length =
            dr.length := by
          intro idxs
          induction idxs with
          | nil => intro dr; rfl
          | cons a t ih2 =>
            intro dr
            rw [List.foldl_cons, ih2]
            split <;> simp
        rw [this, hlen']
      have ihm := ih (by omega) dr hlen'
      by_cases him : i = m
      · subst him
        split
        · next hcond =>
          rw [getD_set_self _ _ _ _ (by omega)]
          rw [if_pos ⟨by omega, hcond⟩]
        · next hcond =>
          rw [ihm, if_neg (by omega), if_neg (by
            intro h
            exact hcond h.2)]
      · split
        · next hcond =>
          rw [getD_set_ne _ _ _ (by omega), ihm]
          by_cases hc2 : i < m ∧ dd.getD i 0 = tid
          · rw [if_pos hc2, if_pos ⟨by omega, hc2.2⟩]
          · rw [if_neg hc2, if_neg (by
              intro h
              exact hc2 ⟨by omega, h.2⟩)]
        · next hcond =>
          rw [ihm]
          by_cases hc2 : i < m ∧ dd.getD i 0 = tid
          · rw [if_pos hc2, if_pos ⟨by omega, hc2.2⟩]
          · rw [if_neg hc2, if_neg (by
              intro h
              exact hc2 ⟨by omega, h.2⟩)]
  have hkey := key dd.length (Nat.le_refl _) dr hlen
  unfold assignDomainToRank
  rw [hkey]
  by_cases hc : dd.getD i 0 = tid
  · rw [if_pos ⟨hi, hc⟩, if_pos hc]
  · rw [if_neg (fun h => hc h.2), if_neg hc]

/-- `assignBlock` advances `target_id` by the block size. -/
theorem assignBlock_snd (dd : List Nat) (dr : List Int) (tid c r : Nat) :
    (assignBlock dd dr tid c r).2 = tid + c := by
  induction c generalizing tid dr with
  | zero => rfl
  | succ c ih =>
    show (assignBlock dd (assignDomainToRank dd dr tid r) (tid + 1) c r).2 = tid + (c + 1)
    rw [ih]
    omega

/-- `assignBlock` preserves the length of `global_dest_rank`. -/
theorem assignBlock_length (dd : List Nat) (dr : List Int) (tid c r : Nat) :
    (assignBlock dd dr tid c r).1.length = dr.length := by
  induction c generalizing tid dr with
  | zero => rfl
  | succ c ih =>
    show (assignBlock dd (assignDomainToRank dd dr tid r) (tid + 1) c r).1.length = dr.length
    rw [ih, assignDomainToRank_length]

/-- Entrywise effect of `assignBlock`: chunks whose domain lies in the
block `[tid, tid + c)` are set to rank `r`. -/
theorem assignBlock_getD (dd : List Nat) (dr : List Int) (tid c r : Nat)
    (i : Nat) (hi : i < dd.length) (hlen : dr.length = dd.length) (d : Int) :
    (assignBlock dd dr tid c r).1.getD i d =
      if tid ≤ dd.getD i 0 ∧ dd.getD i 0 < tid + c then Int.ofNat r
      else dr.getD i d := by
  induction c generalizing tid dr with
  | zero =>
    show dr.getD i d = _
    rw [if_neg (by omega)]
  | succ c ih =>
    show (assignBlock dd (assignDomainToRank dd dr tid r) (tid + 1) c r).1.getD i d = _
    rw [ih (assignDomainToRank dd dr tid r) (tid + 1)
      (by rw [assignDomainToRank_length, hlen])]
    rw [assignDomainToRank_getD dd dr tid r i hi hlen d]
    by_cases h1 : tid + 1 ≤ dd.getD i 0 ∧ dd.getD i 0 < tid + 1 + c
    · rw [if_pos h1, if_pos (by omega)]
    · rw [if_neg h1]
      by_cases h2 : dd.getD i 0 = tid
      · rw [if_pos h2, if_pos (by omega)]
      · rw [if_neg h2, if_neg (by omega)]

/-- If the block walk finds an owner, the domain is at or past the walk's
starting id. -/
theorem ownerFrom_some_le (cs : List Nat) (r t d rk : Nat)
    (h : ownerFrom cs r t d = some rk) : t ≤ d := by
  induction cs generalizing r t with
  | nil => cases h
  | cons c rest ih =>
    unfold ownerFrom at h
    split at h
    · cases h
    · split at h
      · next hin => exact hin.1
      · exact Nat.le_trans (by omega) (ih (r + 1) (t + c) h)

/-- Entrywise effect of the rank loop: each chunk gets the rank that the
contiguous-block walk assigns to its domain, or keeps its initial value
when the walk never reaches that domain. -/
theorem spreadLoop_getD (dd : List Nat) (counts : List Nat) (r tid : Nat)
    (dr : List Int) (i : Nat) (hi : i < dd.length) (hlen : dr.length = dd.length)
    (d : Int) :
    (spreadLoop dd counts r tid dr).getD i d =
      match ownerFrom counts r tid (dd.getD i 0) with
      | some rk => Int.ofNat rk
      | none => dr.getD i d := by
  induction counts generalizing r tid dr with
  | nil => rfl
  | cons c rest ih =>
    show (if c = 0 then dr
      else spreadLoop dd rest (r + 1) (assignBlock dd dr tid c r).2
        (assignBlock dd dr tid c r).1).getD i d = _
    by_cases hc : c = 0
    · rw [if_pos hc]
      show _ = match ownerFrom (c :: rest) r tid (dd.getD i 0) with
        | some rk => Int.ofNat rk
        | none => dr.getD i d
      unfold ownerFrom
      rw [if_pos hc]
    · rw [if_neg hc]
      rw [ih (r + 1) (assignBlock dd dr tid c r).2 (assignBlock dd dr tid c r).1
        (by rw [assignBlock_length, hlen])]
      rw [assignBlock_snd]
      show _ = match ownerFrom (c :: rest) r tid (dd.getD i 0) with
        | some rk => Int.ofNat rk
        | none => dr.getD i d
      by_cases hin : tid ≤ dd.getD i 0 ∧ dd.getD i 0 < tid + c
      · have hnone : ownerFrom rest (r + 1) (tid + c) (dd.getD i 0) = none := by
          cases howner : ownerFrom rest (r + 1) (tid + c) (dd.getD i 0) with
          | none => rfl
          | some rk =>
            have := ownerFrom_some_le rest (r + 1) (tid + c) (dd.getD i 0) rk howner
            omega
        rw [hnone]
        rw [assignBlock_getD dd dr tid c r i hi hlen d, if_pos hin]
        show Int.ofNat r = _
        unfold ownerFrom
        rw [if_neg hc, if_pos hin]
      · have howner : ownerFrom (c :: rest) r tid (dd.getD i 0) =
            ownerFrom rest (r + 1) (tid + c) (dd.getD i 0) := by
          unfold ownerFrom
          rw [if_neg hc, if_neg hin]
          cases rest <;> rfl
        rw [howner]
        cases ownerFrom rest (r + 1) (tid + c) (dd.getD i 0) with
        | none =>
          rw [assignBlock_getD dd dr tid c r i hi hlen d, if_neg hin]
        | some rk => rfl

/-- Length of the per-rank domain-count vector. -/
theorem rankDomainCount_length (size target : Nat) :
    (rankDomainCount size target).length = size := by
  unfold rankDomainCount
  generalize List.range target = idxs
  have : ∀ (idxs : List Nat) (init : List Nat),
      (idxs.foldl (fun counts i =>
        counts.set (i % min size target) (counts.getD (i % min size target) 0 + 1))
        init).length = init.length := by
    intro idxs
    induction idxs with
    | nil => intro init; rfl
    | cons a t ih =>
      intro init
      rw [List.foldl_cons, ih]
      simp
  rw [this]
  simp

/-- Counting fold: each slot of the count vector accumulates the number
of indices falling on it. -/
theorem count_fold_getD (div : Nat) (l : List Nat) (init : List Nat) (r : Nat)
    (hr : r < init.length) (hmod : ∀ a ∈ l, a % div < init.length) :
    (l.foldl (fun counts i => counts.set (i % div) (counts.getD (i % div) 0 + 1))
      init).getD r 0 =
    init.getD r 0 + l.countP (fun i => i % div = r) := by
  induction l generalizing init with
  | nil => simp [List.countP_nil]
  | cons a t ih =>
    rw [List.foldl_cons, List.countP_cons]
    have hmoda : a % div < init.length := hmod a (List.mem_cons_self a t)
    have hlen' : (init.set (a % div) (init.getD (a % div) 0 + 1)).length = init.length := by
      simp
    rw [ih (init.set (a % div) (init.getD (a % div) 0 + 1)) (by omega)
      (fun b hb => by rw [hlen']; exact hmod b (List.mem_cons_of_mem a hb))]
    by_cases har : a % div = r
    · rw [har] at hmoda ⊢
      rw [getD_set_self _ _ _ _ hmoda, if_pos (by simp)]
      omega
    · rw [getD_set_ne _ _ _ har, if_neg (by simpa using har)]
      omega

/-- The per-rank domain counts are the round-robin residue counts. -/
theorem rankDomainCount_getD (size target r : Nat) (hr : r < size) :
    (rankDomainCount size target).getD r 0 = countSpec size target r := by
  unfold rankDomainCount countSpec
  rw [count_fold_getD (min size target) (List.range target) (List.replicate size 0) r
    (by simpa using hr)]
  · rw [List.getD_eq_getElem _ 0 (by simpa using hr)]
    simp
  · intro a ha
    simp only [List.length_replicate]
    have hta : a < target := List.mem_range.mp ha
    have hmin : 0 < min size target := by omega
    exact Nat.lt_of_lt_of_le (Nat.mod_lt a hmin) (Nat.min_le_left size target)

/-- Pointwise sums split a mapped sum. -/
theorem sum_map_add {α : Type _} (l : List α) (f g : α → Nat) :
    (l.map (fun a => f a + g a)).sum = (l.map f).sum + (l.map g).sum := by
  induction l with
  | nil => rfl
  | cons a t ih =>
    simp only [List.map_cons, List.sum_cons, ih]
    omega

/-- Summing an indicator over a range counts at most one hit. -/
theorem sum_range_ite (m k : Nat) :
    ((List.range m).map (fun r => if k = r then 1 else 0)).sum =
      if k < m then 1 else 0 := by
  induction m with
  | zero => simp
  | succ m ih =>
    rw [List.range_succ, List.map_append, List.sum_append, ih]
    simp only [List.map_cons, List.map_nil, List.sum_cons, List.sum_nil]
    by_cases hk : k = m
    · subst hk
      rw [if_neg (by omega), if_pos rfl, if_pos (by omega)]
      omega
    · rw [if_neg hk]
      by_cases hk2 : k < m
      · rw [if_pos hk2, if_pos (by omega)]
        omega
      · rw [if_neg hk2, if_neg (by omega)]
        omega

/-- Every index lands in exactly one residue class, so the residue counts
sum to the list length. -/
theorem sum_countP_residues (l : List Nat) (div m : Nat)
    (h : ∀ a ∈ l, a % div < m) :
    ((List.range m).map (fun r => l.countP (fun i => i % div = r))).sum = l.length := by
  induction l with
  | nil => simp
  | cons a t ih =>
    have hsplit : ((List.range m).map (fun r => (a :: t).countP (fun i => i % div = r))).sum =
        ((List.range m).map (fun r =>
          t.countP (fun i => i % div = r) + if a % div = r then 1 else 0)).sum := by
      congr 1
      apply List.map_congr_left
      intro r _
      rw [List.countP_cons]
      congr 1
      by_cases hr : a % div = r
      · simp [hr]
      · simp [hr]
    rw [hsplit, sum_map_add, ih (fun b hb => h b (List.mem_cons_of_mem a hb)),
      sum_range_ite, if_pos (h a (List.mem_cons_self a t))]
    simp

/-- The round-robin residue counts over `min size target` ranks sum to
`target`. -/
theorem countSpec_sum (size target : Nat) (hs : 0 < size) (ht : 0 < target) :
    ((List.range (min size target)).map (countSpec size target)).sum = target := by
  unfold countSpec
  rw [sum_countP_residues (List.range target) (min size target) (min size target)
    (fun a _ => Nat.mod_lt a (by omega))]
  simp

/-- Each of the first `min size target` ranks receives at least one
domain. -/
theorem countSpec_pos (size target r : Nat) (hr : r < min size target) :
    0 < countSpec size target r := by
  unfold countSpec
  rw [List.countP_pos_iff]
  refine ⟨r, List.mem_range.mpr (Nat.lt_of_lt_of_le hr (Nat.min_le_right size target)), ?_⟩
  simp [Nat.mod_eq_of_lt hr]

/-- `getD` of a mapped range. -/
theorem getD_map_range {β : Type _} (f : Nat → β) (n i : Nat) (d : β) (h : i < n) :
    ((List.range n).map f).getD i d = f i := by
  rw [List.getD_eq_getElem _ _ (by simpa using h)]
  simp

/-- Walking an all-positive block-size prefix finds an owner for every
domain below the prefix total, namely the rank whose contiguous block of
consecutive ids contains the domain. -/
theorem ownerFrom_pos_append (pos : List Nat) :
    ∀ (rest : List Nat) (r0 tid0 d : Nat),
    (∀ c ∈ pos, 0 < c) → tid0 ≤ d → d < tid0 + pos.sum →
    ∃ rr, rr < pos.length ∧
      ownerFrom (pos ++ rest) r0 tid0 d = some (r0 + rr) ∧
      tid0 + (pos.take rr).sum ≤ d ∧
      d < tid0 + (pos.take rr).sum + pos.getD rr 0 := by
  induction pos with
  | nil =>
    intro rest r0 tid0 d hpos hlo hhi
    simp only [List.sum_nil] at hhi
    omega
  | cons c t ih =>
    intro rest r0 tid0 d hpos hlo hhi
    have hc : 0 < c := hpos c (List.mem_cons_self c t)
    by_cases hd : d < tid0 + c
    · refine ⟨0, by simp, ?_, by simpa using hlo, by simpa using hd⟩
      show (if c = 0 then none
        else if tid0 ≤ d ∧ d < tid0 + c then some r0
        else ownerFrom (t ++ rest) (r0 + 1) (tid0 + c) d) = some (r0 + 0)
      rw [if_neg (by omega), if_pos ⟨hlo, hd⟩, Nat.add_zero]
    · have hhi' : d < tid0 + c + t.sum := by
        rw [List.sum_cons] at hhi
        omega
      obtain ⟨rr, h1, h2, h3, h4⟩ := ih rest (r0 + 1) (tid0 + c) d
        (fun b hb => hpos b (List.mem_cons_of_mem c hb)) (by omega) hhi'
      refine ⟨rr + 1, by simpa using h1, ?_, ?_, ?_⟩
      · show (if c = 0 then none
          else if tid0 ≤ d ∧ d < tid0 + c then some r0
          else ownerFrom (t ++ rest) (r0 + 1) (tid0 + c) d) = some (r0 + (rr + 1))
        rw [if_neg (by omega), if_neg (by omega), h2]
        congr 1
        omega
      · simp only [List.take_succ_cons, List.sum_cons]
        omega
      · simp only [List.take_succ_cons, List.sum_cons, List.getD_cons_succ]
        omega

/-- C6 counterexample: with 2 ranks, target 3 and three equal free
chunks, the greedy pass yields domains `[0,1,2]`, but the code assigns
domain 1 to rank 0 (contiguous blocks: rank 0 gets domains {0,1}, rank 1
gets {2}), while a round-robin distribution of domains over
`min(size,target) = 2` ranks would give domain 1 to rank 1. -/
theorem C6_counterexample :
    (mapChunksFree 2 3 [100, 100, 100]).2 = [0, 1, 2] ∧
    (mapChunksFree 2 3 [100, 100, 100]).1 = [0, 0, 1] ∧
    roundRobinOwner 2 3 ((mapChunksFree 2 3 [100, 100, 100]).2.getD 1 0) = 1 ∧
    (mapChunksFree 2 3 [100, 100, 100]).1.getD 1 0 ≠ (1 : Int) := by
  refine ⟨by decide, by decide, by decide, by decide⟩

/-- C6 (amended): after the greedy pass has chosen a final domain below
`target` for every chunk, the code distributes the `target` domains over
`min(size, target)` ranks in contiguous ascending blocks whose sizes are
the round-robin counts (`countSpec`), not by round-robin assignment:
every chunk whose domain is `d` receives `dest_rank = r` where `r` is the
unique rank with `blockStart r <= d < blockStart r + countSpec r`. -/
theorem C6_block_distribution (size target : Nat) (dd : List Nat)
    (hs : 0 < size) (ht : 0 < target) (hdd : ∀ x ∈ dd, x < target) :
    ∀ i < dd.length, ∃ r : Nat,
      (spreadLoop dd (rankDomainCount size target) 0 0
        (List.replicate dd.length (-1))).getD i 0 = Int.ofNat r ∧
      r < min size target ∧
      blockStart size target r ≤ dd.getD i 0 ∧
      dd.getD i 0 < blockStart size target r + countSpec size target r := by
  intro i hi
  have hv : dd.getD i 0 < target := hdd _ (getD_mem_of_lt dd i 0 hi)
  -- the count vector decomposes into an all-positive prefix and a tail
  have hdivle : min size target ≤ size := Nat.min_le_left size target
  have hcounts : rankDomainCount size target =
      ((List.range (min size target)).map (countSpec size target)) ++
      ((List.range (size - min size target)).map
        (fun k => countSpec size target (min size target + k))) := by
    apply List.ext_getElem
    · rw [rankDomainCount_length]
      simp only [List.length_append, List.length_map, List.length_range]
      omega
    · intro j h1 h2
      have h1' : j < size := by rwa [rankDomainCount_length] at h1
      rw [← List.getD_eq_getElem _ 0 h1, ← List.getD_eq_getElem _ 0 h2,
        rankDomainCount_getD size target j h1']
      by_cases hj : j < min size target
      · rw [getD_append_lt _ _ _ _ (by simpa using hj), getD_map_range _ _ _ _ hj]
      · rw [List.getD_eq_getElem?_getD,
          List.getElem?_append_right
            (by simp only [List.length_map, List.length_range]; omega)]
        rw [List.getElem?_map,
          List.getElem?_range
            (by simp only [List.length_map, List.length_range]; omega)]
        simp only [List.length_map, List.length_range, Option.map_some, Option.getD_some]
        congr 1
        omega
  have hsum : ((List.range (min size target)).map (countSpec size target)).sum = target :=
    countSpec_sum size target hs ht
  obtain ⟨rr, h1, h2, h3, h4⟩ := ownerFrom_pos_append
    ((List.range (min size target)).map (countSpec size target))
    ((List.range (size - min size target)).map
      (fun k => countSpec size target (min size target + k)))
    0 0 (dd.getD i 0)
    (by
      intro c hc
      obtain ⟨r, hr, rfl⟩ := List.mem_map.mp hc
      exact countSpec_pos size target r (List.mem_range.mp hr))
    (Nat.zero_le _)
    (by rw [hsum]; omega)
  rw [List.length_map, List.length_range] at h1
  refine ⟨rr, ?_, h1, ?_, ?_⟩
  · rw [spreadLoop_getD dd _ 0 0 _ i hi (by simp) 0, hcounts, h2]
    simp
  · have htake : (((List.range (min size target)).map (countSpec size target)).take rr).sum =
        blockStart size target rr := by
      rw [← List.map_take]
      unfold blockStart
      congr 2
      have : min size target = rr + (min size target - rr) := by omega
      rw [this, List.range_add]
      rw [List.take_left' (by simp)]
    omega
  · have htake : (((List.range (min size target)).map (countSpec size target)).take rr).sum =
        blockStart size target rr := by
      rw [← List.map_take]
      unfold blockStart
      congr 2
      have : min size target = rr + (min size target - rr) := by omega
      rw [this, List.range_add]
      rw [List.take_left' (by simp)]
    have hgetD : ((List.range (min size target)).map (countSpec size target)).getD rr 0 =
        countSpec size target rr := getD_map_range _ _ _ _ h1
    omega

/-- C6 witness: 2 ranks, target 3, chunk domains `[0,1,2]`, chunk 1. -/
theorem C6_block_distribution_witness :
    0 < 2 ∧ 0 < 3 ∧ (∀ x ∈ ([0, 1, 2] : List Nat), x < 3) ∧
    (∀ i < ([0, 1, 2] : List Nat).length, ∃ r : Nat,
      (spreadLoop [0, 1, 2] (rankDomainCount 2 3) 0 0
        (List.replicate ([0, 1, 2] : List Nat).length (-1))).getD i 0 = Int.ofNat r ∧
      r < min 2 3 ∧
      blockStart 2 3 r ≤ ([0, 1, 2] : List Nat).getD i 0 ∧
      ([0, 1, 2] : List Nat).getD i 0 < blockStart 2 3 r + countSpec 2 3 r) :=
  ⟨by decide, by decide, by decide,
    C6_block_distribution 2 3 [0, 1, 2] (by decide) (by decide) (by decide)⟩

/-- C7 witness: two ranks with selection lengths `[3,7]` and `[7,2]`. -/
theorem C7_get_largest_selection_witness :
    0 < List.length ([[3, 7], [7, 2]] : List (List Nat)) ∧
    0 < maxNat ([[3, 7], [7, 2]] : List (List Nat)).flatten ∧
    (∃ W : Nat, W < ([[3, 7], [7, 2]] : List (List Nat)).length ∧
      maxNat (([[3, 7], [7, 2]] : List (List Nat)).getD W []) =
        maxNat ([[3, 7], [7, 2]] : List (List Nat)).flatten ∧
      (∀ r < W, maxNat (([[3, 7], [7, 2]] : List (List Nat)).getD r []) <
        maxNat ([[3, 7], [7, 2]] : List (List Nat)).flatten) ∧
      (get_largest_selection [[3, 7], [7, 2]] 1).1 = (W : Int) ∧
      (1 ≠ W → (get_largest_selection [[3, 7], [7, 2]] 1).2 = -1) ∧
      (1 = W → ∃ i : Nat,
        (get_largest_selection [[3, 7], [7, 2]] 1).2 = (i : Int) ∧
        i < (([[3, 7], [7, 2]] : List (List Nat)).getD W []).length ∧
        (([[3, 7], [7, 2]] : List (List Nat)).getD W []).getD i 0 =
          maxNat ([[3, 7], [7, 2]] : List (List Nat)).flatten ∧
        ∀ k < i, (([[3, 7], [7, 2]] : List (List Nat)).getD W []).getD k 0 ≠
          maxNat ([[3, 7], [7, 2]] : List (List Nat)).flatten)) :=
  ⟨by decide, by decide,
    C7_get_largest_selection [[3, 7], [7, 2]] 1 (by decide) (by decide)⟩

/-- A fold that appends one entry to each component per index passing a
test equals the append of the mapped filtered index list. -/
theorem foldl_push_filter {α β : Type _} (idxs : List Nat)
    (body : List α × List β → Nat → List α × List β)
    (p : Nat → Bool) (f : Nat → α) (g : Nat → β)
    (hbody : ∀ acc i, body acc i =
      if p i then (acc.1 ++ [f i], acc.2 ++ [g i]) else acc)
    (acc : List α × List β) :
    idxs.foldl body acc =
      (acc.1 ++ (idxs.filter p).map f, acc.2 ++ (idxs.filter p).map g) := by
  induction idxs generalizing acc with
  | nil => simp
  | cons a t ih =>
    rw [List.foldl_cons, hbody]
    by_cases hp : p a = true
    · rw [if_pos hp, ih]
      simp [List.filter_cons, hp]
    · rw [if_neg hp, ih]
      simp [List.filter_cons, hp]

/-- The recv loop of `communicate_chunks` is the filtered global index
list (the indices destined to this rank) mapped to the pushed entries and
to the destination domains. -/
theorem communicateChunksRecv_eq (chunks : List CNode)
    (dest_rank dest_domain : List Int) (offsets : List Nat) (rank : Nat)
    (recvFn : Nat → CNode) :
    communicateChunksRecv chunks dest_rank dest_domain offsets rank recvFn =
      (((List.range dest_rank.length).filter
          (fun i => decide (dest_rank.getD i 0 = Int.ofNat rank))).map
        (fun i =>
          if offsets.getD rank 0 ≤ i ∧ i < offsets.getD rank 0 + chunks.length then
            (wrapLocalChunk (chunks.getD (i - offsets.getD rank 0) (.obj [])) i, true)
          else (toOwnedWNode (setStateDomainId (recvFn i) (Int.ofNat i)), true)),
       ((List.range dest_rank.length).filter
          (fun i => decide (dest_rank.getD i 0 = Int.ofNat rank))).map
        (fun i => dest_domain.getD i 0)) := by
  unfold communicateChunksRecv
  refine Eq.trans (foldl_push_filter _ _
    (fun i => decide (dest_rank.getD i 0 = Int.ofNat rank))
    (fun i =>
      if offsets.getD rank 0 ≤ i ∧ i < offsets.getD rank 0 + chunks.length then
        (wrapLocalChunk (chunks.getD (i - offsets.getD rank 0) (.obj [])) i, true)
      else (toOwnedWNode (setStateDomainId (recvFn i) (Int.ofNat i)), true))
    (fun i => dest_domain.getD i 0) ?_ ([], [])) (by simp)
  intro acc i
  dsimp only
  by_cases hc : dest_rank.getD i 0 = Int.ofNat rank
  · rw [if_pos hc, if_pos (show decide (dest_rank.getD i 0 = Int.ofNat rank) = true by
      simpa using hc)]
    by_cases hs : offsets.getD rank 0 ≤ i ∧ i < offsets.getD rank 0 + chunks.length
    · rw [if_pos hs, if_pos hs]
    · rw [if_neg hs, if_neg hs]
  · rw [if_neg hc, if_neg (show ¬decide (dest_rank.getD i 0 = Int.ofNat rank) = true by
      simpa using hc)]

/-- In the image of a filtered range, the entry produced by an index `g`
passing the test sits at the position given by the number of earlier
passing indices. -/
theorem filter_map_getD_at {α : Type _} (p : Nat → Bool) (f : Nat → α)
    (n g : Nat) (d : α) (hg : g < n) (hpg : p g = true) :
    (List.filter p (List.range g)).length < (((List.range n).filter p).map f).length ∧
    (((List.range n).filter p).map f).getD (List.filter p (List.range g)).length d = f g := by
  have hsplit : List.range n =
      (List.range g ++ [g]) ++ (List.range (n - (g + 1))).map ((g + 1) + ·) := by
    rw [← List.range_succ, ← List.range_add]
    congr 1
    omega
  have hfil : List.filter p [g] = [g] := by simp [hpg]
  rw [hsplit, List.filter_append, List.filter_append, hfil, List.append_assoc,
    List.map_append, List.map_append, List.map_cons, List.map_nil, List.singleton_append]
  constructor
  · simp only [List.length_append, List.length_map, List.length_cons]
    omega
  · rw [show (List.filter p (List.range g)).length =
      ((List.filter p (List.range g)).map f).length from (List.length_map _ _).symm]
    exact getD_append_cons _ _ _ _

/-- The children of the local-wrap node: the external references to the
non-state children followed by a fresh `state` object carrying the copied
`cycle` and `time` (when present) and the new `domain_id`. -/
theorem wrapLocalChunk_children (mesh : CNode) (g : Nat) :
    ∃ st3 : List (String × CNode),
      (wrapLocalChunk mesh g).children =
        (mesh.children.filter (fun c => c.1 ≠ "state")).map
          (fun c => (c.1, WChild.ext c.2)) ++
        [("state", WChild.own (CNode.obj st3))] ∧
      getChild (CNode.obj st3) "domain_id" = some (CNode.leaf (Int.ofNat g)) ∧
      (∀ v, fetchPath2 mesh "state" "cycle" = some v →
        getChild (CNode.obj st3) "cycle" = some v) ∧
      (∀ v, fetchPath2 mesh "state" "time" = some v →
        getChild (CNode.obj st3) "time" = some v) := by
  cases hcyc : fetchPath2 mesh "state" "cycle" with
  | none =>
    cases htime : fetchPath2 mesh "state" "time" with
    | none =>
      refine ⟨[("domain_id", CNode.leaf (Int.ofNat g))], ?_, rfl, ?_, ?_⟩
      · simp [wrapLocalChunk, hcyc, htime, WNode.children]
      · intro v hv
        exact Option.noConfusion hv
      · intro v hv
        exact Option.noConfusion hv
    | some w =>
      refine ⟨[("time", w), ("domain_id", CNode.leaf (Int.ofNat g))], ?_, rfl, ?_, ?_⟩
      · simp [wrapLocalChunk, hcyc, htime, WNode.children]
      · intro v hv
        exact Option.noConfusion hv
      · intro v hv
        injection hv with h
        subst h
        rfl
  | some w0 =>
    cases htime : fetchPath2 mesh "state" "time" with
    | none =>
      refine ⟨[("cycle", w0), ("domain_id", CNode.leaf (Int.ofNat g))], ?_, rfl, ?_, ?_⟩
      · simp [wrapLocalChunk, hcyc, htime, WNode.children]
      · intro v hv
        injection hv with h
        subst h
        rfl
      · intro v hv
        exact Option.noConfusion hv
    | some w =>
      refine ⟨[("cycle", w0), ("time", w), ("domain_id", CNode.leaf (Int.ofNat g))],
        ?_, rfl, ?_, ?_⟩
      · simp [wrapLocalChunk, hcyc, htime, WNode.children]
      · intro v hv
        injection hv with h
        subst h
        rfl
      · intro v hv
        injection hv with h
        subst h
        rfl

/-- C9: for every global chunk index `g` destined to this rank
(`dest_rank[g] == rank`) that lies inside this rank's own offset slice,
the recv loop pushes onto `chunks_to_assemble` (at the position given by
the earlier indices destined to this rank) exactly the local wrapper,
owned, together with `dest_domain[g]`; the wrapper's children other than
`state` are non-owning external references to precisely the non-state
children of the local chunk's subtree, and its own `state` child carries
`state/cycle` and `state/time` copied from the local chunk when present
and `state/domain_id` set to `g`. -/
theorem C9_local_chunk_wrap (chunks : List CNode)
    (dest_rank dest_domain : List Int) (offsets : List Nat)
    (rank g : Nat) (recvFn : Nat → CNode)
    (hg : g < dest_rank.length)
    (hdr : dest_rank.getD g 0 = Int.ofNat rank)
    (hlo : offsets.getD rank 0 ≤ g)
    (hhi : g < offsets.getD rank 0 + chunks.length) :
    ∃ k : Nat, ∃ W : WNode,
      k < (communicateChunksRecv chunks dest_rank dest_domain offsets rank recvFn).1.length ∧
      (communicateChunksRecv chunks dest_rank dest_domain offsets rank recvFn).1.getD k
        (⟨[]⟩, false) = (W, true) ∧
      (communicateChunksRecv chunks dest_rank dest_domain offsets rank recvFn).2.getD k 0 =
        dest_domain.getD g 0 ∧
      W = wrapLocalChunk (chunks.getD (g - offsets.getD rank 0) (.obj [])) g ∧
      (∀ c ∈ (chunks.getD (g - offsets.getD rank 0) (.obj [])).children,
        c.1 ≠ "state" → (c.1, WChild.ext c.2) ∈ W.children) ∧
      (∀ nm w, (nm, WChild.ext w) ∈ W.children →
        nm ≠ "state" ∧ (nm, w) ∈ (chunks.getD (g - offsets.getD rank 0) (.obj [])).children) ∧
      (∃ st : CNode, ("state", WChild.own st) ∈ W.children ∧
        (∀ v, fetchPath2 (chunks.getD (g - offsets.getD rank 0) (.obj [])) "state" "cycle" =
          some v → getChild st "cycle" = some v) ∧
        (∀ v, fetchPath2 (chunks.getD (g - offsets.getD rank 0) (.obj [])) "state" "time" =
          some v → getChild st "time" = some v) ∧
        getChild st "domain_id" = some (CNode.leaf (Int.ofNat g))) := by
  have hpg : (fun i => decide (dest_rank.getD i 0 = Int.ofNat rank)) g = true := by
    simpa using hdr
  have hmain := filter_map_getD_at
    (fun i => decide (dest_rank.getD i 0 = Int.ofNat rank))
    (fun i =>
      if offsets.getD rank 0 ≤ i ∧ i < offsets.getD rank 0 + chunks.length then
        (wrapLocalChunk (chunks.getD (i - offsets.getD rank 0) (.obj [])) i, true)
      else (toOwnedWNode (setStateDomainId (recvFn i) (Int.ofNat i)), true))
    dest_rank.length g (⟨[]⟩, false) hg hpg
  have hdom := filter_map_getD_at
    (fun i => decide (dest_rank.getD i 0 = Int.ofNat rank))
    (fun i => dest_domain.getD i 0)
    dest_rank.length g 0 hg hpg
  obtain ⟨st3, hch, hdid, hcy, hti⟩ :=
    wrapLocalChunk_children (chunks.getD (g - offsets.getD rank 0) (.obj [])) g
  refine ⟨(List.filter (fun i => decide (dest_rank.getD i 0 = Int.ofNat rank))
      (List.range g)).length,
    wrapLocalChunk (chunks.getD (g - offsets.getD rank 0) (.obj [])) g,
    ?_, ?_, ?_, rfl, ?_, ?_, ?_⟩
  · rw [communicateChunksRecv_eq]
    exact hmain.1
  · rw [communicateChunksRecv_eq]
    dsimp only
    rw [hmain.2]
    dsimp only
    exact if_pos ⟨hlo, hhi⟩
  · rw [communicateChunksRecv_eq]
    dsimp only
    rw [hdom.2]
  · intro c hc hne
    rw [hch]
    exact List.mem_append_left _
      (List.mem_map.mpr ⟨c, List.mem_filter.mpr ⟨hc, by simpa using hne⟩, rfl⟩)
  · intro nm w hmem
    rw [hch] at hmem
    rcases List.mem_append.mp hmem with h | h
    · obtain ⟨c, hcf, heq⟩ := List.mem_map.mp h
      obtain ⟨hcm, hcp⟩ := List.mem_filter.mp hcf
      injection heq with h1 h2
      injection h2 with h3
      constructor
      · rw [← h1]
        simpa using hcp
      · have hcw : (nm, w) = c := by
          rw [← h1, ← h3]
        rw [hcw]
        exact hcm
    · simp at h
  · refine ⟨CNode.obj st3, ?_, hcy, hti, hdid⟩
    rw [hch]
    exact List.mem_append_right _ (List.mem_singleton.mpr rfl)

/-- C9 witness: one chunk on rank 0, global index 0 in the local slice. -/
theorem C9_local_chunk_wrap_witness :
    (0 : Nat) < ([(0 : Int)] : List Int).length ∧
    ([(0 : Int)] : List Int).getD 0 0 = Int.ofNat 0 ∧
    ([0] : List Nat).getD 0 0 ≤ 0 ∧
    0 < ([0] : List Nat).getD 0 0 + ([c9mesh] : List CNode).length ∧
    (∃ k : Nat, ∃ W : WNode,
      k < (communicateChunksRecv [c9mesh] [(0 : Int)] [(4 : Int)] [0] 0
        (fun _ => CNode.obj [])).1.length ∧
      (communicateChunksRecv [c9mesh] [(0 : Int)] [(4 : Int)] [0] 0
        (fun _ => CNode.obj [])).1.getD k (⟨[]⟩, false) = (W, true) ∧
      (communicateChunksRecv [c9mesh] [(0 : Int)] [(4 : Int)] [0] 0
        (fun _ => CNode.obj [])).2.getD k 0 = ([(4 : Int)] : List Int).getD 0 0 ∧
      W = wrapLocalChunk (([c9mesh] : List CNode).getD
        (0 - ([0] : List Nat).getD 0 0) (.obj [])) 0 ∧
      (∀ c ∈ (([c9mesh] : List CNode).getD (0 - ([0] : List Nat).getD 0 0) (.obj [])).children,
        c.1 ≠ "state" → (c.1, WChild.ext c.2) ∈ W.children) ∧
      (∀ nm w, (nm, WChild.ext w) ∈ W.children →
        nm ≠ "state" ∧
        (nm, w) ∈ (([c9mesh] : List CNode).getD
          (0 - ([0] : List Nat).getD 0 0) (.obj [])).children) ∧
      (∃ st : CNode, ("state", WChild.own st) ∈ W.children ∧
        (∀ v, fetchPath2 (([c9mesh] : List CNode).getD
          (0 - ([0] : List Nat).getD 0 0) (.obj [])) "state" "cycle" =
          some v → getChild st "cycle" = some v) ∧
        (∀ v, fetchPath2 (([c9mesh] : List CNode).getD
          (0 - ([0] : List Nat).getD 0 0) (.obj [])) "state" "time" =
          some v → getChild st "time" = some v) ∧
        getChild st "domain_id" = some (CNode.leaf (Int.ofNat 0)))) :=
  ⟨by decide, by decide, by decide, by decide,
    C9_local_chunk_wrap [c9mesh] [(0 : Int)] [(4 : Int)] [0] 0 0
      (fun _ => CNode.obj []) (by decide) (by decide) (by decide) (by decide)⟩

/-- A nonnegative id is not the sentinel. -/
theorem nonneg_ne_invalid {v : Int} (h : 0 ≤ v) : v ≠ INVALID_POINT := by
  intro he
  rw [he] at h
  exact absurd h (by decide)

/-- A fold of `set`s keeps the list length. -/
theorem foldl_set_length (prs : List (Nat × Int)) :
    ∀ t : List Int, (prs.foldl (fun l pr => l.set pr.1 pr.2) t).length = t.length := by
  induction prs with
  | nil => intro t; rfl
  | cons a prs ih =>
    intro t
    rw [List.foldl_cons, ih]
    simp

/-- `setPointIds` keeps the tile length. -/
theorem setPointIds_length (t : List Int) (idxs : List Nat) (ids : List Int) :
    (setPointIds t idxs ids).length = t.length := by
  unfold setPointIds
  exact foldl_set_length _ t

/-- A fold of `set`s writing only values satisfying `P` preserves an
entrywise invariant `P`. -/
theorem foldl_set_val_inv (P : Int → Prop) (prs : List (Nat × Int))
    (hprs : ∀ pr ∈ prs, P pr.2) :
    ∀ t : List Int, (∀ v ∈ t, P v) →
    ∀ v ∈ prs.foldl (fun l pr => l.set pr.1 pr.2) t, P v := by
  induction prs with
  | nil => intro t ht v hv; exact ht v hv
  | cons a prs ih =>
    intro t ht v hv
    rw [List.foldl_cons] at hv
    refine ih (fun pr hpr => hprs pr (List.mem_cons_of_mem a hpr)) (t.set a.1 a.2) ?_ v hv
    intro w hw
    rcases List.mem_or_eq_of_mem_set hw with h | h
    · exact ht w h
    · rw [h]
      exact hprs a (List.mem_cons_self a prs)

/-- `setPointIds` with values satisfying `P` preserves an entrywise
invariant `P`. -/
theorem setPointIds_val_inv (P : Int → Prop) (t : List Int) (idxs : List Nat)
    (ids : List Int) (ht : ∀ v ∈ t, P v) (hids : ∀ v ∈ ids, P v) :
    ∀ v ∈ setPointIds t idxs ids, P v := by
  unfold setPointIds
  refine foldl_set_val_inv P _ ?_ t ht
  intro pr hpr
  exact hids pr.2 (List.of_mem_zip hpr).2

/-- Ids gathered from an all-nonnegative tile are nonnegative. -/
theorem getPointIds_mem_nonneg (t : List Int) (idxs : List Nat)
    (ht : ∀ idx : Nat, 0 ≤ t.getD idx 0) : ∀ v ∈ getPointIds t idxs, 0 ≤ v := by
  intro v hv
  unfold getPointIds at hv
  obtain ⟨idx, _, rfl⟩ := List.mem_map.mp hv
  exact ht idx

/-- The point-filling fold of `addPoints`, abstractly: it writes a
nonnegative fresh id exactly into the slots still holding the sentinel,
preserves every other slot, and keeps the length. -/
theorem addfold_spec {γ : Type _} (body : List Int × γ → Nat → List Int × γ)
    (fresh : List Int × γ → Int) (upd : List Int × γ → Nat → γ)
    (hbody : ∀ st i, body st i =
      if st.1.getD i 0 = INVALID_POINT then (st.1.set i (fresh st), upd st i) else st)
    (hfresh : ∀ st, 0 ≤ fresh st) :
    ∀ (l : List Nat) (st : List Int × γ),
      (l.foldl body st).1.length = st.1.length ∧
      (∀ idx : Nat, st.1.getD idx 0 ≠ INVALID_POINT →
        (l.foldl body st).1.getD idx 0 = st.1.getD idx 0) ∧
      (∀ idx : Nat, idx ∈ l → idx < st.1.length →
        (st.1.getD idx 0 = INVALID_POINT ∨ 0 ≤ st.1.getD idx 0) →
        0 ≤ (l.foldl body st).1.getD idx 0) := by
  intro l
  induction l with
  | nil =>
    intro st
    exact ⟨rfl, fun idx _ => rfl, fun idx hmem => absurd hmem (List.not_mem_nil idx)⟩
  | cons a t ih =>
    intro st
    rw [List.foldl_cons, hbody]
    by_cases hc : st.1.getD a 0 = INVALID_POINT
    · rw [if_pos hc]
      obtain ⟨ihl, ihp, ihn⟩ := ih (st.1.set a (fresh st), upd st a)
      refine ⟨?_, ?_, ?_⟩
      · rw [ihl]
        simp
      · intro idx hne
        have hai : a ≠ idx := fun h => hne (h ▸ hc)
        have hpres : ((st.1.set a (fresh st), upd st a) :
            List Int × γ).1.getD idx 0 = st.1.getD idx 0 := getD_set_ne _ _ _ hai
        rw [ihp idx (by rw [hpres]; exact hne), hpres]
      · intro idx hmem hlt hval
        by_cases hai : a = idx
        · subst hai
          have hset : ((st.1.set a (fresh st), upd st a) :
              List Int × γ).1.getD a 0 = fresh st := getD_set_self _ _ _ _ hlt
          rw [ihp a (by rw [hset]; exact nonneg_ne_invalid (hfresh st)), hset]
          exact hfresh st
        · rcases List.mem_cons.mp hmem with h | h
          · exact absurd h.symm hai
          · have hpres : ((st.1.set a (fresh st), upd st a) :
                List Int × γ).1.getD idx 0 = st.1.getD idx 0 := getD_set_ne _ _ _ hai
            refine ihn idx h (by simpa using hlt) ?_
            rw [hpres]
            exact hval
    · rw [if_neg hc]
      obtain ⟨ihl, ihp, ihn⟩ := ih st
      refine ⟨ihl, ihp, ?_⟩
      intro idx hmem hlt hval
      rcases List.mem_cons.mp hmem with h | h
      · subst h
        rcases hval with hv | hv
        · exact absurd hv hc
        · rw [ihp idx (nonneg_ne_invalid hv)]
          exact hv
      · exact ihn idx h hlt hval

/-- `addPoints` keeps the tile length, preserves every already-assigned
slot, and leaves every in-range slot nonnegative when the input slots are
sentinel-or-nonnegative. -/
theorem addPoints_spec (p : TilerPattern) (M : Mat3) (t : List Int) (x y : List Frac) :
    (addPoints p M t x y).1.length = t.length ∧
    (∀ idx : Nat, t.getD idx 0 ≠ INVALID_POINT →
      (addPoints p M t x y).1.getD idx 0 = t.getD idx 0) ∧
    (∀ idx : Nat, idx < p.xpts.length → idx < t.length →
      (t.getD idx 0 = INVALID_POINT ∨ 0 ≤ t.getD idx 0) →
      0 ≤ (addPoints p M t x y).1.getD idx 0) := by
  unfold addPoints
  have h := addfold_spec
    (fun st i =>
      let ptids := st.1
      let x := st.2.1
      let y := st.2.2
      if ptids.getD i 0 = INVALID_POINT then
        let xv := p.xpts.getD i 0
        let yv := p.ypts.getD i 0
        let xc := xv * M.m00 + yv * M.m10 + M.m20
        let yc := xv * M.m01 + yv * M.m11 + M.m21
        let h := xv * M.m02 + yv * M.m12 + M.m22
        (ptids.set i (Int.ofNat x.length), x ++ [xc / h], y ++ [yc / h])
      else st)
    (fun st => Int.ofNat st.2.1.length)
    (fun st i =>
      (st.2.1 ++ [(p.xpts.getD i 0 * M.m00 + p.ypts.getD i 0 * M.m10 + M.m20) /
        (p.xpts.getD i 0 * M.m02 + p.ypts.getD i 0 * M.m12 + M.m22)],
       st.2.2 ++ [(p.xpts.getD i 0 * M.m01 + p.ypts.getD i 0 * M.m11 + M.m21) /
        (p.xpts.getD i 0 * M.m02 + p.ypts.getD i 0 * M.m12 + M.m22)]))
    (fun st i => rfl)
    (fun st => Int.ofNat_nonneg _)
    (List.range p.xpts.length) (t, x, y)
  exact ⟨h.1, h.2.1, fun idx h1 h2 h3 => h.2.2 idx (List.mem_range.mpr h1) h2 h3⟩

/-- The `left`-edge copy of the default pattern, written out as five
`set`s. -/
theorem leftCopy_eq (prevX : List Int) :
    setPointIds (List.replicate 33 (-1 : Int)) defaultPattern.left
      (getPointIds prevX defaultPattern.right) =
    (((((List.replicate 33 (-1 : Int)).set 0 (prevX.getD 4 0)).set 5
      (prevX.getD 8 0)).set 14 (prevX.getD 18 0)).set 24 (prevX.getD 27 0)).set 28
      (prevX.getD 32 0) := rfl

/-- The `bottom`-edge copy of the default pattern, written out as five
`set`s. -/
theorem bottomCopy_eq (t1 prevY : List Int) :
    setPointIds t1 defaultPattern.bottom (getPointIds prevY defaultPattern.top) =
    ((((t1.set 0 (prevY.getD 28 0)).set 1 (prevY.getD 29 0)).set 2
      (prevY.getD 30 0)).set 3 (prevY.getD 31 0)).set 4 (prevY.getD 32 0) := rfl

/-- The tile buffer after both edge copies (interior tile): values at the
written slots. -/
theorem t2both_getD (prevX prevY t2 : List Int)
    (ht2 : t2 = setPointIds (setPointIds (List.replicate 33 (-1 : Int))
      defaultPattern.left (getPointIds prevX defaultPattern.right))
      defaultPattern.bottom (getPointIds prevY defaultPattern.top)) :
    t2.length = 33 ∧
    t2.getD 0 0 = prevY.getD 28 0 ∧ t2.getD 1 0 = prevY.getD 29 0 ∧
    t2.getD 2 0 = prevY.getD 30 0 ∧ t2.getD 3 0 = prevY.getD 31 0 ∧
    t2.getD 4 0 = prevY.getD 32 0 ∧
    t2.getD 5 0 = prevX.getD 8 0 ∧ t2.getD 14 0 = prevX.getD 18 0 ∧
    t2.getD 24 0 = prevX.getD 27 0 ∧ t2.getD 28 0 = prevX.getD 32 0 := by
  subst ht2
  rw [bottomCopy_eq, leftCopy_eq]
  refine ⟨by simp, ?_, ?_, ?_, ?_, ?_, ?_, ?_, ?_, ?_⟩
  · rw [getD_set_ne _ _ _ (by decide), getD_set_ne _ _ _ (by decide),
      getD_set_ne _ _ _ (by decide), getD_set_ne _ _ _ (by decide)]
    exact getD_set_self _ _ _ _ (by simp)
  · rw [getD_set_ne _ _ _ (by decide), getD_set_ne _ _ _ (by decide),
      getD_set_ne _ _ _ (by decide)]
    exact getD_set_self _ _ _ _ (by simp)
  · rw [getD_set_ne _ _ _ (by decide), getD_set_ne _ _ _ (by decide)]
    exact getD_set_self _ _ _ _ (by simp)
  · rw [getD_set_ne _ _ _ (by decide)]
    exact getD_set_self _ _ _ _ (by simp)
  · exact getD_set_self _ _ _ _ (by simp)
  · rw [getD_set_ne _ _ _ (by decide), getD_set_ne _ _ _ (by decide),
      getD_set_ne _ _ _ (by decide), getD_set_ne _ _ _ (by decide),
      getD_set_ne _ _ _ (by decide), getD_set_ne _ _ _ (by decide),
      getD_set_ne _ _ _ (by decide), getD_set_ne _ _ _ (by decide)]
    exact getD_set_self _ _ _ _ (by simp)
  · rw [getD_set_ne _ _ _ (by decide), getD_set_ne _ _ _ (by decide),
      getD_set_ne _ _ _ (by decide), getD_set_ne _ _ _ (by decide),
      getD_set_ne _ _ _ (by decide), getD_set_ne _ _ _ (by decide),
      getD_set_ne _ _ _ (by decide)]
    exact getD_set_self _ _ _ _ (by simp)
  · rw [getD_set_ne _ _ _ (by decide), getD_set_ne _ _ _ (by decide),
      getD_set_ne _ _ _ (by decide), getD_set_ne _ _ _ (by decide),
      getD_set_ne _ _ _ (by decide), getD_set_ne _ _ _ (by decide)]
    exact getD_set_self _ _ _ _ (by simp)
  · rw [getD_set_ne _ _ _ (by decide), getD_set_ne _ _ _ (by decide),
      getD_set_ne _ _ _ (by decide), getD_set_ne _ _ _ (by decide),
      getD_set_ne _ _ _ (by decide)]
    exact getD_set_self _ _ _ _ (by simp)

/-- The tile buffer after only the `left` copy (first-row tile): values
at the written slots. -/
theorem t2left_getD (prevX t2 : List Int)
    (ht2 : t2 = setPointIds (List.replicate 33 (-1 : Int)) defaultPattern.left
      (getPointIds prevX defaultPattern.right)) :
    t2.length = 33 ∧
    t2.getD 0 0 = prevX.getD 4 0 ∧ t2.getD 5 0 = prevX.getD 8 0 ∧
    t2.getD 14 0 = prevX.getD 18 0 ∧ t2.getD 24 0 = prevX.getD 27 0 ∧
    t2.getD 28 0 = prevX.getD 32 0 := by
  subst ht2
  rw [leftCopy_eq]
  refine ⟨by simp, ?_, ?_, ?_, ?_, ?_⟩
  · rw [getD_set_ne _ _ _ (by decide), getD_set_ne _ _ _ (by decide),
      getD_set_ne _ _ _ (by decide), getD_set_ne _ _ _ (by decide)]
    exact getD_set_self _ _ _ _ (by simp)
  · rw [getD_set_ne _ _ _ (by decide), getD_set_ne _ _ _ (by decide),
      getD_set_ne _ _ _ (by decide)]
    exact getD_set_self _ _ _ _ (by simp)
  · rw [getD_set_ne _ _ _ (by decide), getD_set_ne _ _ _ (by decide)]
    exact getD_set_self _ _ _ _ (by simp)
  · rw [getD_set_ne _ _ _ (by decide)]
    exact getD_set_self _ _ _ _ (by simp)
  · exact getD_set_self _ _ _ _ (by simp)

/-- The tile buffer after only the `bottom` copy (first-column tile):
values at the written slots. -/
theorem t2bottom_getD (prevY t2 : List Int)
    (ht2 : t2 = setPointIds (List.replicate 33 (-1 : Int)) defaultPattern.bottom
      (getPointIds prevY defaultPattern.top)) :
    t2.length = 33 ∧
    t2.getD 0 0 = prevY.getD 28 0 ∧ t2.getD 1 0 = prevY.getD 29 0 ∧
    t2.getD 2 0 = prevY.getD 30 0 ∧ t2.getD 3 0 = prevY.getD 31 0 ∧
    t2.getD 4 0 = prevY.getD 32 0 := by
  subst ht2
  rw [bottomCopy_eq]
  refine ⟨by simp, ?_, ?_, ?_, ?_, ?_⟩
  · rw [getD_set_ne _ _ _ (by decide), getD_set_ne _ _ _ (by decide),
      getD_set_ne _ _ _ (by decide), getD_set_ne _ _ _ (by decide)]
    exact getD_set_self _ _ _ _ (by simp)
  · rw [getD_set_ne _ _ _ (by decide), getD_set_ne _ _ _ (by decide),
      getD_set_ne _ _ _ (by decide)]
    exact getD_set_self _ _ _ _ (by simp)
  · rw [getD_set_ne _ _ _ (by decide), getD_set_ne _ _ _ (by decide)]
    exact getD_set_self _ _ _ _ (by simp)
  · rw [getD_set_ne _ _ _ (by decide)]
    exact getD_set_self _ _ _ _ (by simp)
  · exact getD_set_self _ _ _ _ (by simp)

/-- The empty tile list satisfies the point-pass invariant. -/
theorem goodTiles_nil (nx : Nat) : goodTiles nx [] := by
  unfold goodTiles
  refine ⟨fun t ht => absurd ht (List.not_mem_nil t),
    fun t ht => absurd ht (List.not_mem_nil t), ?_, ?_, ?_, ?_⟩ <;>
    intro m hm <;> simp at hm

/-- Componentwise equality of the `left` ids of one tile with the
`right` ids of another (default pattern). -/
theorem getPointIds_left_eq (T A : List Int)
    (h0 : T.getD 0 0 = A.getD 4 0) (h5 : T.getD 5 0 = A.getD 8 0)
    (h14 : T.getD 14 0 = A.getD 18 0) (h24 : T.getD 24 0 = A.getD 27 0)
    (h28 : T.getD 28 0 = A.getD 32 0) :
    getPointIds T defaultPattern.left = getPointIds A defaultPattern.right := by
  have e1 : getPointIds T defaultPattern.left =
      [T.getD 0 0, T.getD 5 0, T.getD 14 0, T.getD 24 0, T.getD 28 0] := rfl
  have e2 : getPointIds A defaultPattern.right =
      [A.getD 4 0, A.getD 8 0, A.getD 18 0, A.getD 27 0, A.getD 32 0] := rfl
  rw [e1, e2, h0, h5, h14, h24, h28]

/-- Componentwise equality of the `bottom` ids of one tile with the `top`
ids of another (default pattern). -/
theorem getPointIds_bottom_eq (T A : List Int)
    (h0 : T.getD 0 0 = A.getD 28 0) (h1 : T.getD 1 0 = A.getD 29 0)
    (h2 : T.getD 2 0 = A.getD 30 0) (h3 : T.getD 3 0 = A.getD 31 0)
    (h4 : T.getD 4 0 = A.getD 32 0) :
    getPointIds T defaultPattern.bottom = getPointIds A defaultPattern.top := by
  have e1 : getPointIds T defaultPattern.bottom =
      [T.getD 0 0, T.getD 1 0, T.getD 2 0, T.getD 3 0, T.getD 4 0] := rfl
  have e2 : getPointIds A defaultPattern.top =
      [A.getD 28 0, A.getD 29 0, A.getD 30 0, A.getD 31 0, A.getD 32 0] := rfl
  rw [e1, e2, h0, h1, h2, h3, h4]

/-- Appending a new tile with the right edge links preserves the
point-pass invariant. -/
theorem goodTiles_append (nx j i : Nat) (ts : List (List Int)) (T : List Int)
    (hnx : 0 < nx) (hi : i < nx)
    (hlen : ts.length = j * nx + i)
    (hg : goodTiles nx ts)
    (hTl : T.length = 33)
    (hTn : ∀ idx : Nat, 0 ≤ T.getD idx 0)
    (hTQ1 : 0 < i → T.getD 28 0 = (ts.getD (j * nx + i - 1) []).getD 32 0)
    (hTQ2 : 0 < j → T.getD 4 0 = (ts.getD ((j - 1) * nx + i) []).getD 32 0)
    (hTH : 0 < i → getPointIds T defaultPattern.left =
      getPointIds (ts.getD (j * nx + i - 1) []) defaultPattern.right)
    (hTV : 0 < j → getPointIds T defaultPattern.bottom =
      getPointIds (ts.getD ((j - 1) * nx + i) []) defaultPattern.top) :
    (ts ++ [T]).length = j * nx + i + 1 ∧ goodTiles nx (ts ++ [T]) := by
  obtain ⟨hgL, hgN, hgQ1, hgQ2, hgH, hgV⟩ := hg
  have hlen2 : (ts ++ [T]).length = ts.length + 1 := by simp
  refine ⟨by rw [hlen2, hlen], ?_, ?_, ?_, ?_, ?_, ?_⟩
  · intro t ht
    rcases List.mem_append.mp ht with h | h
    · exact hgL t h
    · rw [List.mem_singleton.mp h]
      exact hTl
  · intro t ht
    rcases List.mem_append.mp ht with h | h
    · exact hgN t h
    · rw [List.mem_singleton.mp h]
      exact hTn
  · intro m hm hmod
    rw [hlen2] at hm
    by_cases hmts : m < ts.length
    · rw [getD_append_lt _ _ _ _ hmts, getD_append_lt _ _ _ _ (by omega)]
      exact hgQ1 m hmts hmod
    · have hme : m = ts.length := by omega
      have hmi : m % nx = i := by
        rw [hme, hlen, Nat.mul_add_mod', Nat.mod_eq_of_lt hi]
      have hi0 : 0 < i := by
        rcases Nat.eq_zero_or_pos i with h0 | h0
        · exact absurd (hmi.trans h0) hmod
        · exact h0
      have e1 : (ts ++ [T]).getD m [] = T := by
        rw [hme]
        exact getD_append_cons _ _ _ _
      have e2 : (ts ++ [T]).getD (m - 1) [] = ts.getD (j * nx + i - 1) [] := by
        rw [getD_append_lt _ _ _ _ (by omega)]
        congr 1
        omega
      rw [e1, e2]
      exact hTQ1 hi0
  · intro m hm hord
    rw [hlen2] at hm
    by_cases hmts : m < ts.length
    · rw [getD_append_lt _ _ _ _ hmts, getD_append_lt _ _ _ _ (by omega)]
      exact hgQ2 m hmts hord
    · have hme : m = ts.length := by omega
      have hj0 : 0 < j := by
        rcases Nat.eq_zero_or_pos j with h0 | h0
        · rw [h0, Nat.zero_mul, Nat.zero_add] at hlen
          omega
        · exact h0
      have hK : nx ≤ j * nx := Nat.le_mul_of_pos_left nx hj0
      have e1 : (ts ++ [T]).getD m [] = T := by
        rw [hme]
        exact getD_append_cons _ _ _ _
      have e2 : (ts ++ [T]).getD (m - nx) [] = ts.getD ((j - 1) * nx + i) [] := by
        rw [getD_append_lt _ _ _ _ (by omega)]
        congr 1
        rw [Nat.sub_one_mul]
        omega
      rw [e1, e2]
      exact hTQ2 hj0
  · intro m hm hmod
    rw [hlen2] at hm
    by_cases hmts : m < ts.length
    · rw [getD_append_lt _ _ _ _ hmts, getD_append_lt _ _ _ _ (by omega)]
      exact hgH m hmts hmod
    · have hme : m = ts.length := by omega
      have hmi : m % nx = i := by
        rw [hme, hlen, Nat.mul_add_mod', Nat.mod_eq_of_lt hi]
      have hi0 : 0 < i := by
        rcases Nat.eq_zero_or_pos i with h0 | h0
        · exact absurd (hmi.trans h0) hmod
        · exact h0
      have e1 : (ts ++ [T]).getD m [] = T := by
        rw [hme]
        exact getD_append_cons _ _ _ _
      have e2 : (ts ++ [T]).getD (m - 1) [] = ts.getD (j * nx + i - 1) [] := by
        rw [getD_append_lt _ _ _ _ (by omega)]
        congr 1
        omega
      rw [e1, e2]
      exact hTH hi0
  · intro m hm hord
    rw [hlen2] at hm
    by_cases hmts : m < ts.length
    · rw [getD_append_lt _ _ _ _ hmts, getD_append_lt _ _ _ _ (by omega)]
      exact hgV m hmts hord
    · have hme : m = ts.length := by omega
      have hj0 : 0 < j := by
        rcases Nat.eq_zero_or_pos j with h0 | h0
        · rw [h0, Nat.zero_mul, Nat.zero_add] at hlen
          omega
        · exact h0
      have hK : nx ≤ j * nx := Nat.le_mul_of_pos_left nx hj0
      have e1 : (ts ++ [T]).getD m [] = T := by
        rw [hme]
        exact getD_append_cons _ _ _ _
      have e2 : (ts ++ [T]).getD (m - nx) [] = ts.getD ((j - 1) * nx + i) [] := by
        rw [getD_append_lt _ _ _ _ (by omega)]
        congr 1
        rw [Nat.sub_one_mul]
        omega
      rw [e1, e2]
      exact hTV hj0

/-- One step of the point pass with the default pattern preserves the
invariant and appends exactly one tile. -/
theorem tileStep_good (nx : Nat) (sx sy : Frac) (j i : Nat) (st : TilerState)
    (hnx : 0 < nx) (hi : i < nx)
    (hlen : st.tiles.length = j * nx + i)
    (hg : goodTiles nx st.tiles) :
    (tileStep defaultPattern nx sx sy j i st).tiles.length = j * nx + i + 1 ∧
    goodTiles nx (tileStep defaultPattern nx sx sy j i st).tiles := by
  obtain ⟨hgL, hgN, hgQ1, hgQ2, hgH, hgV⟩ := hg
  have hts : (tileStep defaultPattern nx sx sy j i st).tiles =
      st.tiles ++
        [(addPoints defaultPattern ⟨sx, 0, 0, 0, sy, 0, st.m20, st.m21, 1⟩
          (if 0 < j then
            setPointIds
              (if 0 < i then
                setPointIds (List.replicate 33 (-1 : Int)) defaultPattern.left
                  (getPointIds (st.tiles.getD (j * nx + i - 1) []) defaultPattern.right)
              else List.replicate 33 (-1 : Int))
              defaultPattern.bottom
              (getPointIds (st.tiles.getD ((j - 1) * nx + i) []) defaultPattern.top)
          else
            if 0 < i then
              setPointIds (List.replicate 33 (-1 : Int)) defaultPattern.left
                (getPointIds (st.tiles.getD (j * nx + i - 1) []) defaultPattern.right)
            else List.replicate 33 (-1 : Int))
          st.x st.y).1] := rfl
  by_cases hj0 : 0 < j
  · rw [if_pos hj0] at hts
    have hK : nx ≤ j * nx := Nat.le_mul_of_pos_left nx hj0
    have hmemY : st.tiles.getD ((j - 1) * nx + i) [] ∈ st.tiles := by
      refine getD_mem_of_lt _ _ _ ?_
      rw [hlen, Nat.sub_one_mul]
      omega
    have hYn := hgN _ hmemY
    by_cases hi0 : 0 < i
    · rw [if_pos hi0] at hts
      have hmemX : st.tiles.getD (j * nx + i - 1) [] ∈ st.tiles := by
        refine getD_mem_of_lt _ _ _ ?_
        rw [hlen]
        omega
      have hXn := hgN _ hmemX
      obtain ⟨hbl, hb0, hb1, hb2, hb3, hb4, hc5, hc14, hc24, hc28⟩ :=
        t2both_getD (st.tiles.getD (j * nx + i - 1) [])
          (st.tiles.getD ((j - 1) * nx + i) []) _ rfl
      obtain ⟨haL, haP, haN⟩ := addPoints_spec defaultPattern
        ⟨sx, 0, 0, 0, sy, 0, st.m20, st.m21, 1⟩
        (setPointIds
          (setPointIds (List.replicate 33 (-1 : Int)) defaultPattern.left
            (getPointIds (st.tiles.getD (j * nx + i - 1) []) defaultPattern.right))
          defaultPattern.bottom
          (getPointIds (st.tiles.getD ((j - 1) * nx + i) []) defaultPattern.top))
        st.x st.y
      have hvalinv : ∀ v ∈ setPointIds
          (setPointIds (List.replicate 33 (-1 : Int)) defaultPattern.left
            (getPointIds (st.tiles.getD (j * nx + i - 1) []) defaultPattern.right))
          defaultPattern.bottom
          (getPointIds (st.tiles.getD ((j - 1) * nx + i) []) defaultPattern.top),
          v = INVALID_POINT ∨ 0 ≤ v := by
        refine setPointIds_val_inv _ _ _ _ ?_ ?_
        · refine setPointIds_val_inv _ _ _ _ ?_ ?_
          · intro v hv
            exact Or.inl (List.eq_of_mem_replicate hv)
          · intro v hv
            exact Or.inr (getPointIds_mem_nonneg _ _ hXn v hv)
        · intro v hv
          exact Or.inr (getPointIds_mem_nonneg _ _ hYn v hv)
      have hTl : (addPoints defaultPattern ⟨sx, 0, 0, 0, sy, 0, st.m20, st.m21, 1⟩
          (setPointIds
            (setPointIds (List.replicate 33 (-1 : Int)) defaultPattern.left
              (getPointIds (st.tiles.getD (j * nx + i - 1) []) defaultPattern.right))
            defaultPattern.bottom
            (getPointIds (st.tiles.getD ((j - 1) * nx + i) []) defaultPattern.top))
          st.x st.y).1.length = 33 := by
        rw [haL]
        exact hbl
      have hTn : ∀ idx : Nat, 0 ≤ (addPoints defaultPattern
          ⟨sx, 0, 0, 0, sy, 0, st.m20, st.m21, 1⟩
          (setPointIds
            (setPointIds (List.replicate 33 (-1 : Int)) defaultPattern.left
              (getPointIds (st.tiles.getD (j * nx + i - 1) []) defaultPattern.right))
            defaultPattern.bottom
            (getPointIds (st.tiles.getD ((j - 1) * nx + i) []) defaultPattern.top))
          st.x st.y).1.getD idx 0 := by
        intro idx
        by_cases hidx : idx < 33
        · refine haN idx ?_ (by rw [hbl]; exact hidx) ?_
          · show idx < defaultPattern.xpts.length
            have h33 : defaultPattern.xpts.length = 33 := rfl
            omega
          · exact hvalinv _ (getD_mem_of_lt _ _ _ (by rw [hbl]; exact hidx))
        · rw [List.getD_eq_default _ _ (by omega)]
      have hT0 := haP 0 (by rw [hb0]; exact nonneg_ne_invalid (hYn 28))
      have hT1 := haP 1 (by rw [hb1]; exact nonneg_ne_invalid (hYn 29))
      have hT2 := haP 2 (by rw [hb2]; exact nonneg_ne_invalid (hYn 30))
      have hT3 := haP 3 (by rw [hb3]; exact nonneg_ne_invalid (hYn 31))
      have hT4 := haP 4 (by rw [hb4]; exact nonneg_ne_invalid (hYn 32))
      have hT5 := haP 5 (by rw [hc5]; exact nonneg_ne_invalid (hXn 8))
      have hT14 := haP 14 (by rw [hc14]; exact nonneg_ne_invalid (hXn 18))
      have hT24 := haP 24 (by rw [hc24]; exact nonneg_ne_invalid (hXn 27))
      have hT28 := haP 28 (by rw [hc28]; exact nonneg_ne_invalid (hXn 32))
      have hcQ1 := hgQ1 ((j - 1) * nx + i)
        (by rw [hlen, Nat.sub_one_mul]; omega)
        (by rw [Nat.mul_add_mod', Nat.mod_eq_of_lt hi]; omega)
      have hcQ2 := hgQ2 (j * nx + i - 1) (by rw [hlen]; omega) (by omega)
      have hidxeq : (j - 1) * nx + i - 1 = j * nx + i - 1 - nx := by
        rw [Nat.sub_one_mul]
        omega
      have hcorner : (st.tiles.getD ((j - 1) * nx + i) []).getD 28 0 =
          (st.tiles.getD (j * nx + i - 1) []).getD 4 0 := by
        rw [hcQ1, hcQ2, hidxeq]
      rw [hts]
      refine goodTiles_append nx j i st.tiles _ hnx hi hlen
        ⟨hgL, hgN, hgQ1, hgQ2, hgH, hgV⟩ hTl hTn ?_ ?_ ?_ ?_
      · intro _
        rw [hT28]
        exact hc28
      · intro _
        rw [hT4]
        exact hb4
      · intro _
        exact getPointIds_left_eq _ _ (by rw [hT0, hb0, hcorner]) (by rw [hT5, hc5])
          (by rw [hT14, hc14]) (by rw [hT24, hc24]) (by rw [hT28, hc28])
      · intro _
        exact getPointIds_bottom_eq _ _ (by rw [hT0, hb0]) (by rw [hT1, hb1])
          (by rw [hT2, hb2]) (by rw [hT3, hb3]) (by rw [hT4, hb4])
    · rw [if_neg hi0] at hts
      obtain ⟨hbl, hb0, hb1, hb2, hb3, hb4⟩ :=
        t2bottom_getD (st.tiles.getD ((j - 1) * nx + i) []) _ rfl
      obtain ⟨haL, haP, haN⟩ := addPoints_spec defaultPattern
        ⟨sx, 0, 0, 0, sy, 0, st.m20, st.m21, 1⟩
        (setPointIds (List.replicate 33 (-1 : Int)) defaultPattern.bottom
          (getPointIds (st.tiles.getD ((j - 1) * nx + i) []) defaultPattern.top))
        st.x st.y
      have hvalinv : ∀ v ∈ setPointIds (List.replicate 33 (-1 : Int))
          defaultPattern.bottom
          (getPointIds (st.tiles.getD ((j - 1) * nx + i) []) defaultPattern.top),
          v = INVALID_POINT ∨ 0 ≤ v := by
        refine setPointIds_val_inv _ _ _ _ ?_ ?_
        · intro v hv
          exact Or.inl (List.eq_of_mem_replicate hv)
        · intro v hv
          exact Or.inr (getPointIds_mem_nonneg _ _ hYn v hv)
      have hTl : (addPoints defaultPattern ⟨sx, 0, 0, 0, sy, 0, st.m20, st.m21, 1⟩
          (setPointIds (List.replicate 33 (-1 : Int)) defaultPattern.bottom
            (getPointIds (st.tiles.getD ((j - 1) * nx + i) []) defaultPattern.top))
          st.x st.y).1.length = 33 := by
        rw [haL]
        exact hbl
      have hTn : ∀ idx : Nat, 0 ≤ (addPoints defaultPattern
          ⟨sx, 0, 0, 0, sy, 0, st.m20, st.m21, 1⟩
          (setPointIds (List.replicate 33 (-1 : Int)) defaultPattern.bottom
            (getPointIds (st.tiles.getD ((j - 1) * nx + i) []) defaultPattern.top))
          st.x st.y).1.getD idx 0 := by
        intro idx
        by_cases hidx : idx < 33
        · refine haN idx ?_ (by rw [hbl]; exact hidx) ?_
          · show idx < defaultPattern.xpts.length
            have h33 : defaultPattern.xpts.length = 33 := rfl
            omega
          · exact hvalinv _ (getD_mem_of_lt _ _ _ (by rw [hbl]; exact hidx))
        · rw [List.getD_eq_default _ _ (by omega)]
      have hT0 := haP 0 (by rw [hb0]; exact nonneg_ne_invalid (hYn 28))
      have hT1 := haP 1 (by rw [hb1]; exact nonneg_ne_invalid (hYn 29))
      have hT2 := haP 2 (by rw [hb2]; exact nonneg_ne_invalid (hYn 30))
      have hT3 := haP 3 (by rw [hb3]; exact nonneg_ne_invalid (hYn 31))
      have hT4 := haP 4 (by rw [hb4]; exact nonneg_ne_invalid (hYn 32))
      rw [hts]
      refine goodTiles_append nx j i st.tiles _ hnx hi hlen
        ⟨hgL, hgN, hgQ1, hgQ2, hgH, hgV⟩ hTl hTn ?_ ?_ ?_ ?_
      · intro h
        exact absurd h hi0
      · intro _
        rw [hT4]
        exact hb4
      · intro h
        exact absurd h hi0
      · intro _
        exact getPointIds_bottom_eq _ _ (by rw [hT0, hb0]) (by rw [hT1, hb1])
          (by rw [hT2, hb2]) (by rw [hT3, hb3]) (by rw [hT4, hb4])
  · rw [if_neg hj0] at hts
    by_cases hi0 : 0 < i
    · rw [if_pos hi0] at hts
      have hmemX : st.tiles.getD (j * nx + i - 1) [] ∈ st.tiles := by
        refine getD_mem_of_lt _ _ _ ?_
        rw [hlen]
        omega
      have hXn := hgN _ hmemX
      obtain ⟨hbl, hb0, hc5, hc14, hc24, hc28⟩ :=
        t2left_getD (st.tiles.getD (j * nx + i - 1) []) _ rfl
      obtain ⟨haL, haP, haN⟩ := addPoints_spec defaultPattern
        ⟨sx, 0, 0, 0, sy, 0, st.m20, st.m21, 1⟩
        (setPointIds (List.replicate 33 (-1 : Int)) defaultPattern.left
          (getPointIds (st.tiles.getD (j * nx + i - 1) []) defaultPattern.right))
        st.x st.y
      have hvalinv : ∀ v ∈ setPointIds (List.replicate 33 (-1 : Int))
          defaultPattern.left
          (getPointIds (st.tiles.getD (j * nx + i - 1) []) defaultPattern.right),
          v = INVALID_POINT ∨ 0 ≤ v := by
        refine setPointIds_val_inv _ _ _ _ ?_ ?_
        · intro v hv
          exact Or.inl (List.eq_of_mem_replicate hv)
        · intro v hv
          exact Or.inr (getPointIds_mem_nonneg _ _ hXn v hv)
      have hTl : (addPoints defaultPattern ⟨sx, 0, 0, 0, sy, 0, st.m20, st.m21, 1⟩
          (setPointIds (List.replicate 33 (-1 : Int)) defaultPattern.left
            (getPointIds (st.tiles.getD (j * nx + i - 1) []) defaultPattern.right))
          st.x st.y).1.length = 33 := by
        rw [haL]
        exact hbl
      have hTn : ∀ idx : Nat, 0 ≤ (addPoints defaultPattern
          ⟨sx, 0, 0, 0, sy, 0, st.m20, st.m21, 1⟩
          (setPointIds (List.replicate 33 (-1 : Int)) defaultPattern.left
            (getPointIds (st.tiles.getD (j * nx + i - 1) []) defaultPattern.right))
          st.x st.y).1.getD idx 0 := by
        intro idx
        by_cases hidx : idx < 33
        · refine haN idx ?_ (by rw [hbl]; exact hidx) ?_
          · show idx < defaultPattern.xpts.length
            have h33 : defaultPattern.xpts.length = 33 := rfl
            omega
          · exact hvalinv _ (getD_mem_of_lt _ _ _ (by rw [hbl]; exact hidx))
        · rw [List.getD_eq_default _ _ (by omega)]
      have hT0 := haP 0 (by rw [hb0]; exact nonneg_ne_invalid (hXn 4))
      have hT5 := haP 5 (by rw [hc5]; exact nonneg_ne_invalid (hXn 8))
      have hT14 := haP 14 (by rw [hc14]; exact nonneg_ne_invalid (hXn 18))
      have hT24 := haP 24 (by rw [hc24]; exact nonneg_ne_invalid (hXn 27))
      have hT28 := haP 28 (by rw [hc28]; exact nonneg_ne_invalid (hXn 32))
      rw [hts]
      refine goodTiles_append nx j i st.tiles _ hnx hi hlen
        ⟨hgL, hgN, hgQ1, hgQ2, hgH, hgV⟩ hTl hTn ?_ ?_ ?_ ?_
      · intro _
        rw [hT28]
        exact hc28
      · intro h
        exact absurd h hj0
      · intro _
        exact getPointIds_left_eq _ _ (by rw [hT0, hb0]) (by rw [hT5, hc5])
          (by rw [hT14, hc14]) (by rw [hT24, hc24]) (by rw [hT28, hc28])
      · intro h
        exact absurd h hj0
    · rw [if_neg hi0] at hts
      obtain ⟨haL, haP, haN⟩ := addPoints_spec defaultPattern
        ⟨sx, 0, 0, 0, sy, 0, st.m20, st.m21, 1⟩
        (List.replicate 33 (-1 : Int)) st.x st.y
      have hTl : (addPoints defaultPattern ⟨sx, 0, 0, 0, sy, 0, st.m20, st.m21, 1⟩
          (List.replicate 33 (-1 : Int)) st.x st.y).1.length = 33 := by
        rw [haL]
        simp
      have hTn : ∀ idx : Nat, 0 ≤ (addPoints defaultPattern
          ⟨sx, 0, 0, 0, sy, 0, st.m20, st.m21, 1⟩
          (List.replicate 33 (-1 : Int)) st.x st.y).1.getD idx 0 := by
        intro idx
        by_cases hidx : idx < 33
        · refine haN idx ?_ (by simpa using hidx) ?_
          · show idx < defaultPattern.xpts.length
            have h33 : defaultPattern.xpts.length = 33 := rfl
            omega
          · refine Or.inl ?_
            exact List.eq_of_mem_replicate
              (getD_mem_of_lt _ _ _ (by simpa using hidx))
        · rw [List.getD_eq_default _ _ (by omega)]
      rw [hts]
      refine goodTiles_append nx j i st.tiles _ hnx hi hlen
        ⟨hgL, hgN, hgQ1, hgQ2, hgH, hgV⟩ hTl hTn ?_ ?_ ?_ ?_
      · intro h
        exact absurd h hi0
      · intro h
        exact absurd h hj0
      · intro h
        exact absurd h hi0
      · intro h
        exact absurd h hj0

/-- The inner (column) fold of the point pass preserves the invariant,
adding one tile per column. -/
theorem innerFold_good (nx : Nat) (hnx : 0 < nx) (sx sy tx : Frac) (j : Nat) :
    ∀ i : Nat, i ≤ nx → ∀ st : TilerState,
      st.tiles.length = j * nx → goodTiles nx st.tiles →
      ((List.range i).foldl
        (fun st2 i2 =>
          let st3 := tileStep defaultPattern nx sx sy j i2 st2
          ⟨st3.tiles, st3.x, st3.y, st3.m20 + tx, st3.m21⟩) st).tiles.length =
        j * nx + i ∧
      goodTiles nx ((List.range i).foldl
        (fun st2 i2 =>
          let st3 := tileStep defaultPattern nx sx sy j i2 st2
          ⟨st3.tiles, st3.x, st3.y, st3.m20 + tx, st3.m21⟩) st).tiles := by
  intro i
  induction i with
  | zero =>
    intro _ st h1 h2
    simp only [List.range_zero, List.foldl_nil]
    exact ⟨by omega, h2⟩
  | succ i ih =>
    intro hile st h1 h2
    rw [List.range_succ, List.foldl_append]
    simp only [List.foldl_cons, List.foldl_nil]
    obtain ⟨ihl, ihg⟩ := ih (by omega) st h1 h2
    have hstep := tileStep_good nx sx sy j i _ hnx (by omega) ihl ihg
    constructor
    · dsimp only
      exact hstep.1
    · dsimp only
      exact hstep.2

/-- The outer (row) fold of the point pass preserves the invariant,
adding one full row of tiles per step. -/
theorem outerFold_good (nx : Nat) (hnx : 0 < nx) (sx sy ox oy tx ty : Frac) :
    ∀ jcnt : Nat,
      ((List.range jcnt).foldl
        (fun st j =>
          let strow := (List.range nx).foldl
            (fun st2 i =>
              let st3 := tileStep defaultPattern nx sx sy j i st2
              ⟨st3.tiles, st3.x, st3.y, st3.m20 + tx, st3.m21⟩)
            ⟨st.tiles, st.x, st.y, ox, st.m21⟩
          ⟨strow.tiles, strow.x, strow.y, strow.m20, strow.m21 + ty⟩)
        (⟨[], [], [], ox, oy⟩ : TilerState)).tiles.length = jcnt * nx ∧
      goodTiles nx ((List.range jcnt).foldl
        (fun st j =>
          let strow := (List.range nx).foldl
            (fun st2 i =>
              let st3 := tileStep defaultPattern nx sx sy j i st2
              ⟨st3.tiles, st3.x, st3.y, st3.m20 + tx, st3.m21⟩)
            ⟨st.tiles, st.x, st.y, ox, st.m21⟩
          ⟨strow.tiles, strow.x, strow.y, strow.m20, strow.m21 + ty⟩)
        (⟨[], [], [], ox, oy⟩ : TilerState)).tiles := by
  intro jcnt
  induction jcnt with
  | zero =>
    simp only [List.range_zero, List.foldl_nil]
    exact ⟨by simp, goodTiles_nil nx⟩
  | succ jc ih =>
    rw [List.range_succ, List.foldl_append]
    simp only [List.foldl_cons, List.foldl_nil]
    obtain ⟨ihl, ihg⟩ := ih
    set F := (List.range jc).foldl
      (fun st j =>
        let strow := (List.range nx).foldl
          (fun st2 i =>
            let st3 := tileStep defaultPattern nx sx sy j i st2
            ⟨st3.tiles, st3.x, st3.y, st3.m20 + tx, st3.m21⟩)
          ⟨st.tiles, st.x, st.y, ox, st.m21⟩
        ⟨strow.tiles, strow.x, strow.y, strow.m20, strow.m21 + ty⟩)
      (⟨[], [], [], ox, oy⟩ : TilerState) with hF
    have hinner := innerFold_good nx hnx sx sy tx jc nx (le_refl nx)
      ⟨F.tiles, F.x, F.y, ox, F.m21⟩ ihl ihg
    constructor
    · rw [Nat.succ_mul]
      exact hinner.1
    · exact hinner.2

/-- The whole point pass with the default pattern yields `ny*nx` tiles
satisfying the sharing invariant. -/
theorem tilePass_good (nx ny : Nat) (hnx : 0 < nx) (ox oy tx ty : Frac) :
    (tilePass defaultPattern nx ny ox oy tx ty).tiles.length = ny * nx ∧
    goodTiles nx (tilePass defaultPattern nx ny ox oy tx ty).tiles := by
  unfold tilePass
  exact outerFold_good nx hnx (tx / defaultPattern.width)
    (ty / defaultPattern.height) ox oy tx ty ny

/-- C4 counterexample: a pattern satisfying every validation invariant of
the spec whose `left` and `bottom` arrays share index 0 with inconsistent
`right`/`top` sources.  At `nx = ny = 2` the bottom copy overwrites the
left copy in tile 3, so the horizontally adjacent tiles 2 and 3 disagree
on the shared edge: tile 3's `left` ids are `[4]` but tile 2's `right`
ids are `[5]`. -/
theorem C4_counterexample :
    specValidPattern roguePattern ∧
    (1 : Nat) ≤ 2 ∧
    getPointIds ((tilePass roguePattern 2 2 0 0 1 1).tiles.getD 3 [])
        roguePattern.left ≠
      getPointIds ((tilePass roguePattern 2 2 0 0 1 1).tiles.getD 2 [])
        roguePattern.right := by
  exact ⟨by decide, by decide, by decide⟩

/-- C4 (amended): the universal edge-sharing property fails for arbitrary
(even spec-valid) patterns, but holds for the default pattern: for every
`nx, ny` and any transform, every tile after the first of its row agrees
with its left neighbour on the full `left`/`right` id sequences, and
every tile beyond the first row agrees with the tile below on the full
`bottom`/`top` id sequences; in particular `tiled(2,1,0)` has 61 points
and the two tiles match on the 5 seam ids. -/
theorem C4_default_edge_sharing :
    (∀ (nx ny : Nat) (ox oy tx ty : Frac), 0 < nx →
      ∀ m : Nat, m < (tilePass defaultPattern nx ny ox oy tx ty).tiles.length →
        (m % nx ≠ 0 →
          getPointIds ((tilePass defaultPattern nx ny ox oy tx ty).tiles.getD m [])
              defaultPattern.left =
            getPointIds ((tilePass defaultPattern nx ny ox oy tx ty).tiles.getD (m - 1) [])
              defaultPattern.right) ∧
        (nx ≤ m →
          getPointIds ((tilePass defaultPattern nx ny ox oy tx ty).tiles.getD m [])
              defaultPattern.bottom =
            getPointIds ((tilePass defaultPattern nx ny ox oy tx ty).tiles.getD (m - nx) [])
              defaultPattern.top)) ∧
    (tiledGenerate2D defaultPattern 2 1).x.length = 61 ∧
    getPointIds ((tilePass defaultPattern 2 1 0 0 defaultPattern.width
        defaultPattern.height).tiles.getD 1 []) defaultPattern.left =
      getPointIds ((tilePass defaultPattern 2 1 0 0 defaultPattern.width
        defaultPattern.height).tiles.getD 0 []) defaultPattern.right ∧
    getPointIds ((tilePass defaultPattern 2 1 0 0 defaultPattern.width
        defaultPattern.height).tiles.getD 0 []) defaultPattern.right =
      [4, 8, 18, 27, 32] := by
  refine ⟨?_, by decide, by decide, by decide⟩
  intro nx ny ox oy tx ty hnx m hm
  obtain ⟨-, -, -, -, hgH, hgV⟩ := (tilePass_good nx ny hnx ox oy tx ty).2
  exact ⟨hgH m hm, hgV m hm⟩

/-- C4 witness: `nx = 2`, `ny = 1`, tile 1 shares its `left` ids with
tile 0's `right` ids. -/
theorem C4_default_edge_sharing_witness :
    (0 : Nat) < 2 ∧
    (1 : Nat) < (tilePass defaultPattern 2 1 0 0 20 20).tiles.length ∧
    (1 : Nat) % 2 ≠ 0 ∧
    getPointIds ((tilePass defaultPattern 2 1 0 0 20 20).tiles.getD 1 [])
        defaultPattern.left =
      getPointIds ((tilePass defaultPattern 2 1 0 0 20 20).tiles.getD (1 - 1) [])
        defaultPattern.right :=
  ⟨by decide, by decide, by decide,
    (C4_default_edge_sharing.1 2 1 0 0 20 20 (by decide) 1 (by decide)).1 (by decide)⟩

/-- Exact fraction addition agrees with `ℚ` when both denominators are
nonzero. -/
theorem Frac.toRat_add {a b : Frac} (ha : a.d ≠ 0) (hb : b.d ≠ 0) :
    (a + b).toRat = a.toRat + b.toRat := by
  have ha' : (a.d : ℚ) ≠ 0 := Int.cast_ne_zero.mpr ha
  have hb' : (b.d : ℚ) ≠ 0 := Int.cast_ne_zero.mpr hb
  unfold Frac.toRat
  show ((a.n * b.d + b.n * a.d : ℤ) : ℚ) / ((a.d * b.d : ℤ) : ℚ) =
    (a.n : ℚ) / (a.d : ℚ) + (b.n : ℚ) / (b.d : ℚ)
  push_cast
  field_simp

/-- Exact fraction multiplication agrees with `ℚ` unconditionally (a zero
denominator makes both sides zero). -/
theorem Frac.toRat_mul (a b : Frac) : (a * b).toRat = a.toRat * b.toRat := by
  unfold Frac.toRat
  show ((a.n * b.n : ℤ) : ℚ) / ((a.d * b.d : ℤ) : ℚ) =
    (a.n : ℚ) / (a.d : ℚ) * ((b.n : ℚ) / (b.d : ℚ))
  push_cast
  rw [div_mul_div_comm]

/-- Exact fraction division agrees with `ℚ` unconditionally (a zero
denominator or divisor makes both sides zero). -/
theorem Frac.toRat_div (a b : Frac) : (a / b).toRat = a.toRat / b.toRat := by
  unfold Frac.toRat
  show ((a.n * b.d : ℤ) : ℚ) / ((a.d * b.n : ℤ) : ℚ) =
    (a.n : ℚ) / (a.d : ℚ) / ((b.n : ℚ) / (b.d : ℚ))
  push_cast
  conv_rhs => rw [div_eq_mul_inv, inv_div]
  rw [div_mul_div_comm]

/-- The denominator of a sum of fractions. -/
theorem Frac.d_add (a b : Frac) : (a + b).d = a.d * b.d := rfl

/-- The denominator of a product of fractions. -/
theorem Frac.d_mul (a b : Frac) : (a * b).d = a.d * b.d := rfl

/-- Every template x coordinate of the default pattern is an integer
(denominator 1). -/
theorem xpts_d_one : ∀ idx : Nat, (defaultPattern.xpts.getD idx 0).d = 1 := by
  intro idx
  by_cases h : idx < 33
  · have hall : ∀ k < 33, (defaultPattern.xpts.getD k 0).d = 1 := by decide
    exact hall idx h
  · rw [List.getD_eq_default _ _ (by
      have h33 : defaultPattern.xpts.length = 33 := rfl
      omega)]
    rfl

/-- Every template y coordinate of the default pattern is an integer
(denominator 1). -/
theorem ypts_d_one : ∀ idx : Nat, (defaultPattern.ypts.getD idx 0).d = 1 := by
  intro idx
  by_cases h : idx < 33
  · have hall : ∀ k < 33, (defaultPattern.ypts.getD k 0).d = 1 := by decide
    exact hall idx h
  · rw [List.getD_eq_default _ _ (by
      have h33 : defaultPattern.ypts.length = 33 := rfl
      omega)]
    rfl

/-- Row-major index: the column of tile `j*nx + i`. -/
theorem rowmajor_mod (j i nx : Nat) (h : i < nx) : (j * nx + i) % nx = i := by
  rw [Nat.mul_add_mod', Nat.mod_eq_of_lt h]

/-- Row-major index: the row of tile `j*nx + i`. -/
theorem rowmajor_div (j i nx : Nat) (h : i < nx) : (j * nx + i) / nx = j := by
  rw [Nat.add_comm, Nat.add_mul_div_right _ _ (by omega : 0 < nx), Nat.div_eq_of_lt h]
  omega

/-- Tiles of a row `j < ny` are within the `ny*nx` tile list. -/
theorem rowmajor_lt (j i nx ny : Nat) (hj : j < ny) (hi : i < nx) :
    j * nx + i < ny * nx := by
  have h2 := Nat.mul_le_mul_right nx (by omega : j + 1 ≤ ny)
  rw [Nat.succ_mul] at h2
  omega

/-- The point-filling fold of `addPoints`, coordinate view: each freshly
assigned slot receives the id `x.length` at assignment time, the
coordinate pair for that slot is appended at exactly that position, and
earlier coordinates are untouched. -/
theorem addfold_coords
    (body : List Int × List Frac × List Frac → Nat → List Int × List Frac × List Frac)
    (fx fy : Nat → Frac)
    (hbody : ∀ st i, body st i =
      if st.1.getD i 0 = INVALID_POINT then
        (st.1.set i (Int.ofNat st.2.1.length), st.2.1 ++ [fx i], st.2.2 ++ [fy i])
      else st) :
    ∀ (l : List Nat) (t : List Int) (x y : List Frac),
      x.length = y.length →
      (l.foldl body (t, x, y)).2.1.length = (l.foldl body (t, x, y)).2.2.length ∧
      x.length ≤ (l.foldl body (t, x, y)).2.1.length ∧
      (∀ k : Nat, k < x.length →
        (l.foldl body (t, x, y)).2.1.getD k 0 = x.getD k 0 ∧
        (l.foldl body (t, x, y)).2.2.getD k 0 = y.getD k 0) ∧
      (∀ idx ∈ l, idx < t.length → t.getD idx 0 = INVALID_POINT →
        0 ≤ (l.foldl body (t, x, y)).1.getD idx 0 ∧
        ((l.foldl body (t, x, y)).1.getD idx 0).toNat < (l.foldl body (t, x, y)).2.1.length ∧
        (l.foldl body (t, x, y)).2.1.getD
          ((l.foldl body (t, x, y)).1.getD idx 0).toNat 0 = fx idx ∧
        (l.foldl body (t, x, y)).2.2.getD
          ((l.foldl body (t, x, y)).1.getD idx 0).toNat 0 = fy idx) := by
  have hspec := addfold_spec body (fun st => Int.ofNat st.2.1.length)
    (fun st i => (st.2.1 ++ [fx i], st.2.2 ++ [fy i]))
    (fun st i => by rw [hbody]) (fun st => Int.ofNat_nonneg _)
  intro l
  induction l with
  | nil =>
    intro t x y hxy
    exact ⟨hxy, le_refl _, fun k hk => ⟨rfl, rfl⟩,
      fun idx hmem => absurd hmem (List.not_mem_nil idx)⟩
  | cons a rest ih =>
    intro t x y hxy
    rw [List.foldl_cons, hbody]
    by_cases hc : t.getD a 0 = INVALID_POINT
    · rw [if_pos hc]
      obtain ⟨ihlen, ihmono, ihpre, ihfresh⟩ :=
        ih (t.set a (Int.ofNat x.length)) (x ++ [fx a]) (y ++ [fy a]) (by simp [hxy])
      refine ⟨ihlen, ?_, ?_, ?_⟩
      · refine le_trans ?_ ihmono
        simp
      · intro k hk
        obtain ⟨e1, e2⟩ := ihpre k (by simp; omega)
        rw [e1, e2, getD_append_lt _ _ _ _ hk, getD_append_lt _ _ _ _ (by omega)]
        exact ⟨rfl, rfl⟩
      · intro idx hmem hidxlen hval
        by_cases hia : idx = a
        · subst hia
          have hset : (t.set idx (Int.ofNat x.length)).getD idx 0 = Int.ofNat x.length :=
            getD_set_self _ _ _ _ hidxlen
          have hne : (t.set idx (Int.ofNat x.length)).getD idx 0 ≠ INVALID_POINT := by
            rw [hset]
            exact nonneg_ne_invalid (Int.ofNat_nonneg _)
          have hidpres := (hspec rest
            (t.set idx (Int.ofNat x.length), x ++ [fx idx], y ++ [fy idx])).2.1 idx hne
          rw [hidpres, hset]
          have htn : (Int.ofNat x.length).toNat = x.length := rfl
          refine ⟨Int.ofNat_nonneg _, ?_, ?_, ?_⟩
          · rw [htn]
            exact lt_of_lt_of_le (by simp : x.length < (x ++ [fx idx]).length) ihmono
          · rw [htn, (ihpre x.length (by simp)).1, getD_append_cons]
          · rw [htn, (ihpre x.length (by simp)).2, hxy, getD_append_cons]
        · rcases List.mem_cons.mp hmem with h | h
          · exact absurd h hia
          · have hpres : (t.set a (Int.ofNat x.length)).getD idx 0 = t.getD idx 0 :=
              getD_set_ne _ _ _ (fun hh => hia hh.symm)
            exact ihfresh idx h (by simpa using hidxlen) (by rw [hpres]; exact hval)
    · rw [if_neg hc]
      obtain ⟨ihlen, ihmono, ihpre, ihfresh⟩ := ih t x y hxy
      refine ⟨ihlen, ihmono, ihpre, ?_⟩
      intro idx hmem hidxlen hval
      rcases List.mem_cons.mp hmem with h | h
      · rw [h] at hval
        exact absurd hval hc
      · exact ihfresh idx h hidxlen hval

/-- `addPoints`, coordinate view: lengths stay equal, earlier
coordinates are untouched, and each freshly assigned slot's id points at
the transformed template point appended for it. -/
theorem addPoints_coords (p : TilerPattern) (M : Mat3) (t : List Int) (x y : List Frac)
    (hxy : x.length = y.length) :
    (addPoints p M t x y).2.1.length = (addPoints p M t x y).2.2.length ∧
    x.length ≤ (addPoints p M t x y).2.1.length ∧
    (∀ k : Nat, k < x.length →
      (addPoints p M t x y).2.1.getD k 0 = x.getD k 0 ∧
      (addPoints p M t x y).2.2.getD k 0 = y.getD k 0) ∧
    (∀ idx : Nat, idx < p.xpts.length → idx < t.length → t.getD idx 0 = INVALID_POINT →
      0 ≤ (addPoints p M t x y).1.getD idx 0 ∧
      ((addPoints p M t x y).1.getD idx 0).toNat < (addPoints p M t x y).2.1.length ∧
      (addPoints p M t x y).2.1.getD ((addPoints p M t x y).1.getD idx 0).toNat 0 =
        (p.xpts.getD idx 0 * M.m00 + p.ypts.getD idx 0 * M.m10 + M.m20) /
        (p.xpts.getD idx 0 * M.m02 + p.ypts.getD idx 0 * M.m12 + M.m22) ∧
      (addPoints p M t x y).2.2.getD ((addPoints p M t x y).1.getD idx 0).toNat 0 =
        (p.xpts.getD idx 0 * M.m01 + p.ypts.getD idx 0 * M.m11 + M.m21) /
        (p.xpts.getD idx 0 * M.m02 + p.ypts.getD idx 0 * M.m12 + M.m22)) := by
  unfold addPoints
  have h := addfold_coords
    (fun st i =>
      let ptids := st.1
      let x := st.2.1
      let y := st.2.2
      if ptids.getD i 0 = INVALID_POINT then
        let xv := p.xpts.getD i 0
        let yv := p.ypts.getD i 0
        let xc := xv * M.m00 + yv * M.m10 + M.m20
        let yc := xv * M.m01 + yv * M.m11 + M.m21
        let h := xv * M.m02 + yv * M.m12 + M.m22
        (ptids.set i (Int.ofNat x.length), x ++ [xc / h], y ++ [yc / h])
      else st)
    (fun i => (p.xpts.getD i 0 * M.m00 + p.ypts.getD i 0 * M.m10 + M.m20) /
      (p.xpts.getD i 0 * M.m02 + p.ypts.getD i 0 * M.m12 + M.m22))
    (fun i => (p.xpts.getD i 0 * M.m01 + p.ypts.getD i 0 * M.m11 + M.m21) /
      (p.xpts.getD i 0 * M.m02 + p.ypts.getD i 0 * M.m12 + M.m22))
    (fun st i => rfl)
    (List.range p.xpts.length) t x y hxy
  exact ⟨h.1, h.2.1, h.2.2.1,
    fun idx h1 h2 h3 => h.2.2.2 idx (List.mem_range.mpr h1) h2 h3⟩

/-- The fraction `0` represents the rational `0`. -/
theorem frac_zero_toRat : ((0 : Frac)).toRat = 0 := by
  rw [Frac.toRat_natLit]
  norm_num

/-- The fraction `1` represents the rational `1`. -/
theorem frac_one_toRat : ((1 : Frac)).toRat = 1 := by
  rw [Frac.toRat_natLit]
  norm_num

/-- The rational value of a transformed template point with the point
pass's matrix shape (scale entries, zero shears, homogeneous divisor 1):
the scaled template coordinates plus the translation. -/
theorem transform_toRat (xv yv s1 s2 m2 : Frac) (v : ℚ)
    (hxv : xv.d = 1) (hyv : yv.d = 1)
    (hs1d : s1.d ≠ 0) (hs2d : s2.d ≠ 0) (hm2d : m2.d ≠ 0)
    (hval : xv.toRat * s1.toRat + yv.toRat * s2.toRat + m2.toRat = v) :
    ((xv * s1 + yv * s2 + m2) /
      (xv * (0 : Frac) + yv * (0 : Frac) + (1 : Frac))).toRat = v := by
  have hzd : ((0 : Frac)).d = 1 := rfl
  have hod : ((1 : Frac)).d = 1 := rfl
  have hd1 : (xv * s1).d ≠ 0 := by rw [Frac.d_mul, hxv, one_mul]; exact hs1d
  have hd2 : (yv * s2).d ≠ 0 := by rw [Frac.d_mul, hyv, one_mul]; exact hs2d
  have hd3 : (xv * s1 + yv * s2).d ≠ 0 := by
    rw [Frac.d_add]
    exact mul_ne_zero hd1 hd2
  have hd4 : (xv * (0 : Frac)).d ≠ 0 := by rw [Frac.d_mul, hxv, hzd]; norm_num
  have hd5 : (yv * (0 : Frac)).d ≠ 0 := by rw [Frac.d_mul, hyv, hzd]; norm_num
  have hd6 : (xv * (0 : Frac) + yv * (0 : Frac)).d ≠ 0 := by
    rw [Frac.d_add]
    exact mul_ne_zero hd4 hd5
  have hd7 : ((1 : Frac)).d ≠ 0 := by rw [hod]; norm_num
  have hh : (xv * (0 : Frac) + yv * (0 : Frac) + (1 : Frac)).toRat = 1 := by
    rw [Frac.toRat_add hd6 hd7, Frac.toRat_add hd4 hd5, Frac.toRat_mul, Frac.toRat_mul,
      frac_zero_toRat, frac_one_toRat]
    ring
  rw [Frac.toRat_div, hh, div_one, Frac.toRat_add hd3 hm2d, Frac.toRat_add hd1 hd2,
    Frac.toRat_mul, Frac.toRat_mul, hval]

/-- Template x coordinate of default-pattern point 0. -/
theorem xval_0 : (defaultPattern.xpts.getD 0 0).toRat = 0 := by
  show (OfNat.ofNat 0 : Frac).toRat = 0
  rw [Frac.toRat_natLit]
  norm_num

/-- Template x coordinate of default-pattern point 1. -/
theorem xval_1 : (defaultPattern.xpts.getD 1 0).toRat = 3 := by
  show (OfNat.ofNat 3 : Frac).toRat = 3
  rw [Frac.toRat_natLit]
  norm_num

/-- Template x coordinate of default-pattern point 2. -/
theorem xval_2 : (defaultPattern.xpts.getD 2 0).toRat = 10 := by
  show (OfNat.ofNat 10 : Frac).toRat = 10
  rw [Frac.toRat_natLit]
  norm_num

/-- Template x coordinate of default-pattern point 3. -/
theorem xval_3 : (defaultPattern.xpts.getD 3 0).toRat = 17 := by
  show (OfNat.ofNat 17 : Frac).toRat = 17
  rw [Frac.toRat_natLit]
  norm_num

/-- Template x coordinate of default-pattern point 4. -/
theorem xval_4 : (defaultPattern.xpts.getD 4 0).toRat = 20 := by
  show (OfNat.ofNat 20 : Frac).toRat = 20
  rw [Frac.toRat_natLit]
  norm_num

/-- Template x coordinate of default-pattern point 5. -/
theorem xval_5 : (defaultPattern.xpts.getD 5 0).toRat = 0 := by
  show (OfNat.ofNat 0 : Frac).toRat = 0
  rw [Frac.toRat_natLit]
  norm_num

/-- Template x coordinate of default-pattern point 8. -/
theorem xval_8 : (defaultPattern.xpts.getD 8 0).toRat = 20 := by
  show (OfNat.ofNat 20 : Frac).toRat = 20
  rw [Frac.toRat_natLit]
  norm_num

/-- Template x coordinate of default-pattern point 14. -/
theorem xval_14 : (defaultPattern.xpts.getD 14 0).toRat = 0 := by
  show (OfNat.ofNat 0 : Frac).toRat = 0
  rw [Frac.toRat_natLit]
  norm_num

/-- Template x coordinate of default-pattern point 18. -/
theorem xval_18 : (defaultPattern.xpts.getD 18 0).toRat = 20 := by
  show (OfNat.ofNat 20 : Frac).toRat = 20
  rw [Frac.toRat_natLit]
  norm_num

/-- Template x coordinate of default-pattern point 24. -/
theorem xval_24 : (defaultPattern.xpts.getD 24 0).toRat = 0 := by
  show (OfNat.ofNat 0 : Frac).toRat = 0
  rw [Frac.toRat_natLit]
  norm_num

/-- Template x coordinate of default-pattern point 27. -/
theorem xval_27 : (defaultPattern.xpts.getD 27 0).toRat = 20 := by
  show (OfNat.ofNat 20 : Frac).toRat = 20
  rw [Frac.toRat_natLit]
  norm_num

/-- Template x coordinate of default-pattern point 28. -/
theorem xval_28 : (defaultPattern.xpts.getD 28 0).toRat = 0 := by
  show (OfNat.ofNat 0 : Frac).toRat = 0
  rw [Frac.toRat_natLit]
  norm_num

/-- Template x coordinate of default-pattern point 29. -/
theorem xval_29 : (defaultPattern.xpts.getD 29 0).toRat = 3 := by
  show (OfNat.ofNat 3 : Frac).toRat = 3
  rw [Frac.toRat_natLit]
  norm_num

/-- Template x coordinate of default-pattern point 30. -/
theorem xval_30 : (defaultPattern.xpts.getD 30 0).toRat = 10 := by
  show (OfNat.ofNat 10 : Frac).toRat = 10
  rw [Frac.toRat_natLit]
  norm_num

/-- Template x coordinate of default-pattern point 31. -/
theorem xval_31 : (defaultPattern.xpts.getD 31 0).toRat = 17 := by
  show (OfNat.ofNat 17 : Frac).toRat = 17
  rw [Frac.toRat_natLit]
  norm_num

/-- Template x coordinate of default-pattern point 32. -/
theorem xval_32 : (defaultPattern.xpts.getD 32 0).toRat = 20 := by
  show (OfNat.ofNat 20 : Frac).toRat = 20
  rw [Frac.toRat_natLit]
  norm_num

/-- Template y coordinate of default-pattern point 0. -/
theorem yval_0 : (defaultPattern.ypts.getD 0 0).toRat = 0 := by
  show (OfNat.ofNat 0 : Frac).toRat = 0
  rw [Frac.toRat_natLit]
  norm_num

/-- Template y coordinate of default-pattern point 1. -/
theorem yval_1 : (defaultPattern.ypts.getD 1 0).toRat = 0 := by
  show (OfNat.ofNat 0 : Frac).toRat = 0
  rw [Frac.toRat_natLit]
  norm_num

/-- Template y coordinate of default-pattern point 2. -/
theorem yval_2 : (defaultPattern.ypts.getD 2 0).toRat = 0 := by
  show (OfNat.ofNat 0 : Frac).toRat = 0
  rw [Frac.toRat_natLit]
  norm_num

/-- Template y coordinate of default-pattern point 3. -/
theorem yval_3 : (defaultPattern.ypts.getD 3 0).toRat = 0 := by
  show (OfNat.ofNat 0 : Frac).toRat = 0
  rw [Frac.toRat_natLit]
  norm_num

/-- Template y coordinate of default-pattern point 4. -/
theorem yval_4 : (defaultPattern.ypts.getD 4 0).toRat = 0 := by
  show (OfNat.ofNat 0 : Frac).toRat = 0
  rw [Frac.toRat_natLit]
  norm_num

/-- Template y coordinate of default-pattern point 5. -/
theorem yval_5 : (defaultPattern.ypts.getD 5 0).toRat = 3 := by
  show (OfNat.ofNat 3 : Frac).toRat = 3
  rw [Frac.toRat_natLit]
  norm_num

/-- Template y coordinate of default-pattern point 8. -/
theorem yval_8 : (defaultPattern.ypts.getD 8 0).toRat = 3 := by
  show (OfNat.ofNat 3 : Frac).toRat = 3
  rw [Frac.toRat_natLit]
  norm_num

/-- Template y coordinate of default-pattern point 14. -/
theorem yval_14 : (defaultPattern.ypts.getD 14 0).toRat = 10 := by
  show (OfNat.ofNat 10 : Frac).toRat = 10
  rw [Frac.toRat_natLit]
  norm_num

/-- Template y coordinate of default-pattern point 18. -/
theorem yval_18 : (defaultPattern.ypts.getD 18 0).toRat = 10 := by
  show (OfNat.ofNat 10 : Frac).toRat = 10
  rw [Frac.toRat_natLit]
  norm_num

/-- Template y coordinate of default-pattern point 24. -/
theorem yval_24 : (defaultPattern.ypts.getD 24 0).toRat = 17 := by
  show (OfNat.ofNat 17 : Frac).toRat = 17
  rw [Frac.toRat_natLit]
  norm_num

/-- Template y coordinate of default-pattern point 27. -/
theorem yval_27 : (defaultPattern.ypts.getD 27 0).toRat = 17 := by
  show (OfNat.ofNat 17 : Frac).toRat = 17
  rw [Frac.toRat_natLit]
  norm_num

/-- Template y coordinate of default-pattern point 28. -/
theorem yval_28 : (defaultPattern.ypts.getD 28 0).toRat = 20 := by
  show (OfNat.ofNat 20 : Frac).toRat = 20
  rw [Frac.toRat_natLit]
  norm_num

/-- Template y coordinate of default-pattern point 29. -/
theorem yval_29 : (defaultPattern.ypts.getD 29 0).toRat = 20 := by
  show (OfNat.ofNat 20 : Frac).toRat = 20
  rw [Frac.toRat_natLit]
  norm_num

/-- Template y coordinate of default-pattern point 30. -/
theorem yval_30 : (defaultPattern.ypts.getD 30 0).toRat = 20 := by
  show (OfNat.ofNat 20 : Frac).toRat = 20
  rw [Frac.toRat_natLit]
  norm_num

/-- Template y coordinate of default-pattern point 31. -/
theorem yval_31 : (defaultPattern.ypts.getD 31 0).toRat = 20 := by
  show (OfNat.ofNat 20 : Frac).toRat = 20
  rw [Frac.toRat_natLit]
  norm_num

/-- Template y coordinate of default-pattern point 32. -/
theorem yval_32 : (defaultPattern.ypts.getD 32 0).toRat = 20 := by
  show (OfNat.ofNat 20 : Frac).toRat = 20
  rw [Frac.toRat_natLit]
  norm_num

/-- A slot of the new tile whose id was copied from a stored neighbour
tile keeps that id's coordinates through `addPoints` (the coordinate
arrays only grow), so its coordinates are the neighbour tile's origin
plus the source template point. -/
theorem copied_slot_coord (nx : Nat) (ts : List (List Int)) (xs ys : List Frac)
    (T : List Int) (X2 Y2 : List Frac)
    (hcg2 : ∀ m : Nat, m < ts.length → ∀ idx : Nat, idx < 33 →
      ((ts.getD m []).getD idx 0).toNat < xs.length ∧
      (xs.getD ((ts.getD m []).getD idx 0).toNat 0).toRat =
        ((m % nx : Nat) : ℚ) * 20 + (defaultPattern.xpts.getD idx 0).toRat ∧
      (ys.getD ((ts.getD m []).getD idx 0).toNat 0).toRat =
        ((m / nx : Nat) : ℚ) * 20 + (defaultPattern.ypts.getD idx 0).toRat)
    (m2 : Nat) (hm2 : m2 < ts.length)
    (idx src : Nat) (hsrc : src < 33)
    (hid : T.getD idx 0 = (ts.getD m2 []).getD src 0)
    (hamono : xs.length ≤ X2.length)
    (hapre : ∀ k : Nat, k < xs.length →
      X2.getD k 0 = xs.getD k 0 ∧ Y2.getD k 0 = ys.getD k 0)
    (qx qy : ℚ)
    (hqx : ((m2 % nx : Nat) : ℚ) * 20 + (defaultPattern.xpts.getD src 0).toRat = qx)
    (hqy : ((m2 / nx : Nat) : ℚ) * 20 + (defaultPattern.ypts.getD src 0).toRat = qy) :
    (T.getD idx 0).toNat < X2.length ∧
    (X2.getD (T.getD idx 0).toNat 0).toRat = qx ∧
    (Y2.getD (T.getD idx 0).toNat 0).toRat = qy := by
  obtain ⟨hb, hcx, hcy⟩ := hcg2 m2 hm2 src hsrc
  refine ⟨?_, ?_, ?_⟩
  · rw [hid]
    exact lt_of_lt_of_le hb hamono
  · rw [hid, (hapre _ hb).1, hcx, hqx]
  · rw [hid, (hapre _ hb).2, hcy, hqy]

/-- A slot of the new tile that was still unassigned receives a fresh id
whose appended coordinates are the tile origin plus the template
point. -/
theorem fresh_slot_coord (sx sy m20 m21 : Frac) (t2c : List Int) (x y : List Frac)
    (ci cj : ℚ)
    (hsxd : sx.d ≠ 0) (hsx1 : sx.toRat = 1) (hsyd : sy.d ≠ 0) (hsy1 : sy.toRat = 1)
    (hm20d : m20.d ≠ 0) (hm20 : m20.toRat = ci * 20)
    (hm21d : m21.d ≠ 0) (hm21 : m21.toRat = cj * 20)
    (ht2len : t2c.length = 33) (hxy : x.length = y.length)
    (k : Nat) (hk : k < 33) (hkv : t2c.getD k 0 = INVALID_POINT) :
    (((addPoints defaultPattern ⟨sx, 0, 0, 0, sy, 0, m20, m21, 1⟩ t2c x y).1.getD k 0).toNat <
      (addPoints defaultPattern ⟨sx, 0, 0, 0, sy, 0, m20, m21, 1⟩ t2c x y).2.1.length) ∧
    ((addPoints defaultPattern ⟨sx, 0, 0, 0, sy, 0, m20, m21, 1⟩ t2c x y).2.1.getD
      ((addPoints defaultPattern ⟨sx, 0, 0, 0, sy, 0, m20, m21, 1⟩ t2c x y).1.getD k 0).toNat
        0).toRat = ci * 20 + (defaultPattern.xpts.getD k 0).toRat ∧
    ((addPoints defaultPattern ⟨sx, 0, 0, 0, sy, 0, m20, m21, 1⟩ t2c x y).2.2.getD
      ((addPoints defaultPattern ⟨sx, 0, 0, 0, sy, 0, m20, m21, 1⟩ t2c x y).1.getD k 0).toNat
        0).toRat = cj * 20 + (defaultPattern.ypts.getD k 0).toRat := by
  obtain ⟨hal, hamono, hapre, hafresh⟩ :=
    addPoints_coords defaultPattern ⟨sx, 0, 0, 0, sy, 0, m20, m21, 1⟩ t2c x y hxy
  obtain ⟨hpos, hbnd, hcx, hcy⟩ := hafresh k
    (by
      show k < defaultPattern.xpts.length
      have h33 : defaultPattern.xpts.length = 33 := rfl
      omega)
    (by rw [ht2len]; exact hk) hkv
  refine ⟨hbnd, ?_, ?_⟩
  · rw [hcx]
    exact transform_toRat _ _ sx (0 : Frac) m20 _ (xpts_d_one k) (ypts_d_one k)
      hsxd (by decide) hm20d (by rw [hsx1, frac_zero_toRat, hm20]; ring)
  · rw [hcy]
    exact transform_toRat _ _ (0 : Frac) sy m21 _ (xpts_d_one k) (ypts_d_one k)
      (by decide) hsyd hm21d (by rw [hsy1, frac_zero_toRat, hm21]; ring)

/-- Structural unfolding of one `tileStep`: the new tile, the extended
coordinate arrays, and the unchanged translation entries. -/
theorem tileStep_eq (p : TilerPattern) (nx : Nat) (sx sy : Frac) (j i : Nat)
    (st : TilerState) :
    tileStep p nx sx sy j i st =
      ⟨st.tiles ++
        [(addPoints p ⟨sx, 0, 0, 0, sy, 0, st.m20, st.m21, 1⟩
          (if 0 < j then
            setPointIds
              (if 0 < i then
                setPointIds (List.replicate p.xpts.length (-1 : Int)) p.left
                  (getPointIds (st.tiles.getD (j * nx + i - 1) []) p.right)
              else List.replicate p.xpts.length (-1 : Int))
              p.bottom
              (getPointIds (st.tiles.getD ((j - 1) * nx + i) []) p.top)
          else
            if 0 < i then
              setPointIds (List.replicate p.xpts.length (-1 : Int)) p.left
                (getPointIds (st.tiles.getD (j * nx + i - 1) []) p.right)
            else List.replicate p.xpts.length (-1 : Int))
          st.x st.y).1],
       (addPoints p ⟨sx, 0, 0, 0, sy, 0, st.m20, st.m21, 1⟩
          (if 0 < j then
            setPointIds
              (if 0 < i then
                setPointIds (List.replicate p.xpts.length (-1 : Int)) p.left
                  (getPointIds (st.tiles.getD (j * nx + i - 1) []) p.right)
              else List.replicate p.xpts.length (-1 : Int))
              p.bottom
              (getPointIds (st.tiles.getD ((j - 1) * nx + i) []) p.top)
          else
            if 0 < i then
              setPointIds (List.replicate p.xpts.length (-1 : Int)) p.left
                (getPointIds (st.tiles.getD (j * nx + i - 1) []) p.right)
            else List.replicate p.xpts.length (-1 : Int))
          st.x st.y).2.1,
       (addPoints p ⟨sx, 0, 0, 0, sy, 0, st.m20, st.m21, 1⟩
          (if 0 < j then
            setPointIds
              (if 0 < i then
                setPointIds (List.replicate p.xpts.length (-1 : Int)) p.left
                  (getPointIds (st.tiles.getD (j * nx + i - 1) []) p.right)
              else List.replicate p.xpts.length (-1 : Int))
              p.bottom
              (getPointIds (st.tiles.getD ((j - 1) * nx + i) []) p.top)
          else
            if 0 < i then
              setPointIds (List.replicate p.xpts.length (-1 : Int)) p.left
                (getPointIds (st.tiles.getD (j * nx + i - 1) []) p.right)
            else List.replicate p.xpts.length (-1 : Int))
          st.x st.y).2.2, st.m20, st.m21⟩ := rfl

set_option maxHeartbeats 1600000 in
/-- One step of the point pass with the default pattern preserves the
coordinate invariant. -/
theorem tileStepCoords_good (nx : Nat) (sx sy : Frac) (j i : Nat) (st : TilerState)
    (hnx : 0 < nx) (hi : i < nx)
    (hlen : st.tiles.length = j * nx + i)
    (hg : goodTiles nx st.tiles)
    (hc : coordsGood nx st.tiles st.x st.y)
    (hsxd : sx.d ≠ 0) (hsx1 : sx.toRat = 1)
    (hsyd : sy.d ≠ 0) (hsy1 : sy.toRat = 1)
    (hm20d : st.m20.d ≠ 0) (hm20 : st.m20.toRat = (i : ℚ) * 20)
    (hm21d : st.m21.d ≠ 0) (hm21 : st.m21.toRat = (j : ℚ) * 20) :
    coordsGood nx (tileStep defaultPattern nx sx sy j i st).tiles
      (tileStep defaultPattern nx sx sy j i st).x
      (tileStep defaultPattern nx sx sy j i st).y := by
  obtain ⟨-, hgN, -, -, -, -⟩ := hg
  obtain ⟨hcxy, hcg2⟩ := hc
  have hteq := tileStep_eq defaultPattern nx sx sy j i st
  have hrep : List.replicate defaultPattern.xpts.length (-1 : Int) =
      List.replicate 33 (-1 : Int) := rfl
  rw [hrep] at hteq
  by_cases hj0 : 0 < j
  · rw [if_pos hj0] at hteq
    have hK : nx ≤ j * nx := Nat.le_mul_of_pos_left nx hj0
    have hYlt : (j - 1) * nx + i < st.tiles.length := by
      rw [hlen, Nat.sub_one_mul]
      omega
    have hYn := hgN _ (getD_mem_of_lt _ _ ([] : List Int) hYlt)
    by_cases hi0 : 0 < i
    · rw [if_pos hi0] at hteq
      have hXlt : j * nx + i - 1 < st.tiles.length := by
        rw [hlen]
        omega
      have hXn := hgN _ (getD_mem_of_lt _ _ ([] : List Int) hXlt)
      set t2c := setPointIds
          (setPointIds (List.replicate 33 (-1 : Int)) defaultPattern.left
            (getPointIds (st.tiles.getD (j * nx + i - 1) []) defaultPattern.right))
          defaultPattern.bottom
          (getPointIds (st.tiles.getD ((j - 1) * nx + i) []) defaultPattern.top) with ht2c
      obtain ⟨hbl, hb0, hb1, hb2, hb3, hb4, hc5, hc14, hc24, hc28⟩ :=
        t2both_getD (st.tiles.getD (j * nx + i - 1) [])
          (st.tiles.getD ((j - 1) * nx + i) []) t2c ht2c
      have ht2len : t2c.length = 33 := hbl
      obtain ⟨haL, haP, haN⟩ := addPoints_spec defaultPattern
        ⟨sx, 0, 0, 0, sy, 0, st.m20, st.m21, 1⟩ t2c st.x st.y
      have hts : (tileStep defaultPattern nx sx sy j i st).tiles =
          st.tiles ++ [(addPoints defaultPattern ⟨sx, 0, 0, 0, sy, 0, st.m20, st.m21, 1⟩
            t2c st.x st.y).1] := by rw [hteq]
      have htsx : (tileStep defaultPattern nx sx sy j i st).x =
          (addPoints defaultPattern ⟨sx, 0, 0, 0, sy, 0, st.m20, st.m21, 1⟩
            t2c st.x st.y).2.1 := by rw [hteq]
      have htsy : (tileStep defaultPattern nx sx sy j i st).y =
          (addPoints defaultPattern ⟨sx, 0, 0, 0, sy, 0, st.m20, st.m21, 1⟩
            t2c st.x st.y).2.2 := by rw [hteq]
      rw [hts, htsx, htsy]
      obtain ⟨hal, hamono, hapre, hafresh⟩ := addPoints_coords defaultPattern
        ⟨sx, 0, 0, 0, sy, 0, st.m20, st.m21, 1⟩ t2c st.x st.y hcxy
      unfold coordsGood
      refine ⟨hal, ?_⟩
      intro m hm idx hidx
      by_cases hmts : m < st.tiles.length
      · obtain ⟨hb, hcx, hcy⟩ := hcg2 m hmts idx hidx
        rw [getD_append_lt _ _ _ _ hmts]
        exact ⟨lt_of_lt_of_le hb hamono, by rw [(hapre _ hb).1, hcx],
          by rw [(hapre _ hb).2, hcy]⟩
      · have hme : m = st.tiles.length := by
          rw [List.length_append, List.length_singleton] at hm
          omega
        rw [hme, getD_append_cons, hlen, rowmajor_mod _ _ _ hi, rowmajor_div _ _ _ hi]
        interval_cases idx
        · exact copied_slot_coord nx st.tiles st.x st.y _ _ _ hcg2 ((j - 1) * nx + i) hYlt
            0 28 (by decide)
            (by rw [haP 0 (by rw [hb0]; exact nonneg_ne_invalid (hYn 28)), hb0])
            hamono hapre _ _
            (by rw [rowmajor_mod _ _ _ hi, xval_28, xval_0])
            (by
              rw [rowmajor_div _ _ _ hi, yval_28, yval_0]
              push_cast [Nat.cast_sub (by omega : 1 ≤ j)]
              ring)
        · exact copied_slot_coord nx st.tiles st.x st.y _ _ _ hcg2 ((j - 1) * nx + i) hYlt
            1 29 (by decide)
            (by rw [haP 1 (by rw [hb1]; exact nonneg_ne_invalid (hYn 29)), hb1])
            hamono hapre _ _
            (by rw [rowmajor_mod _ _ _ hi, xval_29, xval_1])
            (by
              rw [rowmajor_div _ _ _ hi, yval_29, yval_1]
              push_cast [Nat.cast_sub (by omega : 1 ≤ j)]
              ring)
        · exact copied_slot_coord nx st.tiles st.x st.y _ _ _ hcg2 ((j - 1) * nx + i) hYlt
            2 30 (by decide)
            (by rw [haP 2 (by rw [hb2]; exact nonneg_ne_invalid (hYn 30)), hb2])
            hamono hapre _ _
            (by rw [rowmajor_mod _ _ _ hi, xval_30, xval_2])
            (by
              rw [rowmajor_div _ _ _ hi, yval_30, yval_2]
              push_cast [Nat.cast_sub (by omega : 1 ≤ j)]
              ring)
        · exact copied_slot_coord nx st.tiles st.x st.y _ _ _ hcg2 ((j - 1) * nx + i) hYlt
            3 31 (by decide)
            (by rw [haP 3 (by rw [hb3]; exact nonneg_ne_invalid (hYn 31)), hb3])
            hamono hapre _ _
            (by rw [rowmajor_mod _ _ _ hi, xval_31, xval_3])
            (by
              rw [rowmajor_div _ _ _ hi, yval_31, yval_3]
              push_cast [Nat.cast_sub (by omega : 1 ≤ j)]
              ring)
        · exact copied_slot_coord nx st.tiles st.x st.y _ _ _ hcg2 ((j - 1) * nx + i) hYlt
            4 32 (by decide)
            (by rw [haP 4 (by rw [hb4]; exact nonneg_ne_invalid (hYn 32)), hb4])
            hamono hapre _ _
            (by rw [rowmajor_mod _ _ _ hi, xval_32, xval_4])
            (by
              rw [rowmajor_div _ _ _ hi, yval_32, yval_4]
              push_cast [Nat.cast_sub (by omega : 1 ≤ j)]
              ring)
        · exact copied_slot_coord nx st.tiles st.x st.y _ _ _ hcg2 (j * nx + i - 1) hXlt
            5 8 (by decide)
            (by rw [haP 5 (by rw [hc5]; exact nonneg_ne_invalid (hXn 8)), hc5])
            hamono hapre _ _
            (by
              rw [(by omega : j * nx + i - 1 = j * nx + (i - 1)),
                rowmajor_mod _ _ _ (by omega : i - 1 < nx), xval_8, xval_5]
              push_cast [Nat.cast_sub (by omega : 1 ≤ i)]
              ring)
            (by rw [(by omega : j * nx + i - 1 = j * nx + (i - 1)),
              rowmajor_div _ _ _ (by omega : i - 1 < nx), yval_8, yval_5])
        · exact fresh_slot_coord sx sy st.m20 st.m21 _ st.x st.y _ _ hsxd hsx1 hsyd hsy1
            hm20d hm20 hm21d hm21 ht2len hcxy _ (by decide) rfl
        · exact fresh_slot_coord sx sy st.m20 st.m21 _ st.x st.y _ _ hsxd hsx1 hsyd hsy1
            hm20d hm20 hm21d hm21 ht2len hcxy _ (by decide) rfl
        · exact fresh_slot_coord sx sy st.m20 st.m21 _ st.x st.y _ _ hsxd hsx1 hsyd hsy1
            hm20d hm20 hm21d hm21 ht2len hcxy _ (by decide) rfl
        · exact fresh_slot_coord sx sy st.m20 st.m21 _ st.x st.y _ _ hsxd hsx1 hsyd hsy1
            hm20d hm20 hm21d hm21 ht2len hcxy _ (by decide) rfl
        · exact fresh_slot_coord sx sy st.m20 st.m21 _ st.x st.y _ _ hsxd hsx1 hsyd hsy1
            hm20d hm20 hm21d hm21 ht2len hcxy _ (by decide) rfl
        · exact fresh_slot_coord sx sy st.m20 st.m21 _ st.x st.y _ _ hsxd hsx1 hsyd hsy1
            hm20d hm20 hm21d hm21 ht2len hcxy _ (by decide) rfl
        · exact fresh_slot_coord sx sy st.m20 st.m21 _ st.x st.y _ _ hsxd hsx1 hsyd hsy1
            hm20d hm20 hm21d hm21 ht2len hcxy _ (by decide) rfl
        · exact fresh_slot_coord sx sy st.m20 st.m21 _ st.x st.y _ _ hsxd hsx1 hsyd hsy1
            hm20d hm20 hm21d hm21 ht2len hcxy _ (by decide) rfl
        · exact copied_slot_coord nx st.tiles st.x st.y _ _ _ hcg2 (j * nx + i - 1) hXlt
            14 18 (by decide)
            (by rw [haP 14 (by rw [hc14]; exact nonneg_ne_invalid (hXn 18)), hc14])
            hamono hapre _ _
            (by
              rw [(by omega : j * nx + i - 1 = j * nx + (i - 1)),
                rowmajor_mod _ _ _ (by omega : i - 1 < nx), xval_18, xval_14]
              push_cast [Nat.cast_sub (by omega : 1 ≤ i)]
              ring)
            (by rw [(by omega : j * nx + i - 1 = j * nx + (i - 1)),
              rowmajor_div _ _ _ (by omega : i - 1 < nx), yval_18, yval_14])
        · exact fresh_slot_coord sx sy st.m20 st.m21 _ st.x st.y _ _ hsxd hsx1 hsyd hsy1
            hm20d hm20 hm21d hm21 ht2len hcxy _ (by decide) rfl
        · exact fresh_slot_coord sx sy st.m20 st.m21 _ st.x st.y _ _ hsxd hsx1 hsyd hsy1
            hm20d hm20 hm21d hm21 ht2len hcxy _ (by decide) rfl
        · exact fresh_slot_coord sx sy st.m20 st.m21 _ st.x st.y _ _ hsxd hsx1 hsyd hsy1
            hm20d hm20 hm21d hm21 ht2len hcxy _ (by decide) rfl
        · exact fresh_slot_coord sx sy st.m20 st.m21 _ st.x st.y _ _ hsxd hsx1 hsyd hsy1
            hm20d hm20 hm21d hm21 ht2len hcxy _ (by decide) rfl
        · exact fresh_slot_coord sx sy st.m20 st.m21 _ st.x st.y _ _ hsxd hsx1 hsyd hsy1
            hm20d hm20 hm21d hm21 ht2len hcxy _ (by decide) rfl
        · exact fresh_slot_coord sx sy st.m20 st.m21 _ st.x st.y _ _ hsxd hsx1 hsyd hsy1
            hm20d hm20 hm21d hm21 ht2len hcxy _ (by decide) rfl
        · exact fresh_slot_coord sx sy st.m20 st.m21 _ st.x st.y _ _ hsxd hsx1 hsyd hsy1
            hm20d hm20 hm21d hm21 ht2len hcxy _ (by decide) rfl
        · exact fresh_slot_coord sx sy st.m20 st.m21 _ st.x st.y _ _ hsxd hsx1 hsyd hsy1
            hm20d hm20 hm21d hm21 ht2len hcxy _ (by decide) rfl
        · exact fresh_slot_coord sx sy st.m20 st.m21 _ st.x st.y _ _ hsxd hsx1 hsyd hsy1
            hm20d hm20 hm21d hm21 ht2len hcxy _ (by decide) rfl
        · exact copied_slot_coord nx st.tiles st.x st.y _ _ _ hcg2 (j * nx + i - 1) hXlt
            24 27 (by decide)
            (by rw [haP 24 (by rw [hc24]; exact nonneg_ne_invalid (hXn 27)), hc24])
            hamono hapre _ _
            (by
              rw [(by omega : j * nx + i - 1 = j * nx + (i - 1)),
                rowmajor_mod _ _ _ (by omega : i - 1 < nx), xval_27, xval_24]
              push_cast [Nat.cast_sub (by omega : 1 ≤ i)]
              ring)
            (by rw [(by omega : j * nx + i - 1 = j * nx + (i - 1)),
              rowmajor_div _ _ _ (by omega : i - 1 < nx), yval_27, yval_24])
        · exact fresh_slot_coord sx sy st.m20 st.m21 _ st.x st.y _ _ hsxd hsx1 hsyd hsy1
            hm20d hm20 hm21d hm21 ht2len hcxy _ (by decide) rfl
        · exact fresh_slot_coord sx sy st.m20 st.m21 _ st.x st.y _ _ hsxd hsx1 hsyd hsy1
            hm20d hm20 hm21d hm21 ht2len hcxy _ (by decide) rfl
        · exact fresh_slot_coord sx sy st.m20 st.m21 _ st.x st.y _ _ hsxd hsx1 hsyd hsy1
            hm20d hm20 hm21d hm21 ht2len hcxy _ (by decide) rfl
        · exact copied_slot_coord nx st.tiles st.x st.y _ _ _ hcg2 (j * nx + i - 1) hXlt
            28 32 (by decide)
            (by rw [haP 28 (by rw [hc28]; exact nonneg_ne_invalid (hXn 32)), hc28])
            hamono hapre _ _
            (by
              rw [(by omega : j * nx + i - 1 = j * nx + (i - 1)),
                rowmajor_mod _ _ _ (by omega : i - 1 < nx), xval_32, xval_28]
              push_cast [Nat.cast_sub (by omega : 1 ≤ i)]
              ring)
            (by rw [(by omega : j * nx + i - 1 = j * nx + (i - 1)),
              rowmajor_div _ _ _ (by omega : i - 1 < nx), yval_32, yval_28])
        · exact fresh_slot_coord sx sy st.m20 st.m21 _ st.x st.y _ _ hsxd hsx1 hsyd hsy1
            hm20d hm20 hm21d hm21 ht2len hcxy _ (by decide) rfl
        · exact fresh_slot_coord sx sy st.m20 st.m21 _ st.x st.y _ _ hsxd hsx1 hsyd hsy1
            hm20d hm20 hm21d hm21 ht2len hcxy _ (by decide) rfl
        · exact fresh_slot_coord sx sy st.m20 st.m21 _ st.x st.y _ _ hsxd hsx1 hsyd hsy1
            hm20d hm20 hm21d hm21 ht2len hcxy _ (by decide) rfl
        · exact fresh_slot_coord sx sy st.m20 st.m21 _ st.x st.y _ _ hsxd hsx1 hsyd hsy1
            hm20d hm20 hm21d hm21 ht2len hcxy _ (by decide) rfl
    · rw [if_neg hi0] at hteq
      set t2c := setPointIds (List.replicate 33 (-1 : Int)) defaultPattern.bottom
          (getPointIds (st.tiles.getD ((j - 1) * nx + i) []) defaultPattern.top) with ht2c
      obtain ⟨hbl, hb0, hb1, hb2, hb3, hb4⟩ :=
        t2bottom_getD (st.tiles.getD ((j - 1) * nx + i) []) t2c ht2c
      have ht2len : t2c.length = 33 := hbl
      obtain ⟨haL, haP, haN⟩ := addPoints_spec defaultPattern
        ⟨sx, 0, 0, 0, sy, 0, st.m20, st.m21, 1⟩ t2c st.x st.y
      have hts : (tileStep defaultPattern nx sx sy j i st).tiles =
          st.tiles ++ [(addPoints defaultPattern ⟨sx, 0, 0, 0, sy, 0, st.m20, st.m21, 1⟩
            t2c st.x st.y).1] := by rw [hteq]
      have htsx : (tileStep defaultPattern nx sx sy j i st).x =
          (addPoints defaultPattern ⟨sx, 0, 0, 0, sy, 0, st.m20, st.m21, 1⟩
            t2c st.x st.y).2.1 := by rw [hteq]
      have htsy : (tileStep defaultPattern nx sx sy j i st).y =
          (addPoints defaultPattern ⟨sx, 0, 0, 0, sy, 0, st.m20, st.m21, 1⟩
            t2c st.x st.y).2.2 := by rw [hteq]
      rw [hts, htsx, htsy]
      obtain ⟨hal, hamono, hapre, hafresh⟩ := addPoints_coords defaultPattern
        ⟨sx, 0, 0, 0, sy, 0, st.m20, st.m21, 1⟩ t2c st.x st.y hcxy
      unfold coordsGood
      refine ⟨hal, ?_⟩
      intro m hm idx hidx
      by_cases hmts : m < st.tiles.length
      · obtain ⟨hb, hcx, hcy⟩ := hcg2 m hmts idx hidx
        rw [getD_append_lt _ _ _ _ hmts]
        exact ⟨lt_of_lt_of_le hb hamono, by rw [(hapre _ hb).1, hcx],
          by rw [(hapre _ hb).2, hcy]⟩
      · have hme : m = st.tiles.length := by
          rw [List.length_append, List.length_singleton] at hm
          omega
        rw [hme, getD_append_cons, hlen, rowmajor_mod _ _ _ hi, rowmajor_div _ _ _ hi]
        interval_cases idx
        · exact copied_slot_coord nx st.tiles st.x st.y _ _ _ hcg2 ((j - 1) * nx + i) hYlt
            0 28 (by decide)
            (by rw [haP 0 (by rw [hb0]; exact nonneg_ne_invalid (hYn 28)), hb0])
            hamono hapre _ _
            (by rw [rowmajor_mod _ _ _ hi, xval_28, xval_0])
            (by
              rw [rowmajor_div _ _ _ hi, yval_28, yval_0]
              push_cast [Nat.cast_sub (by omega : 1 ≤ j)]
              ring)
        · exact copied_slot_coord nx st.tiles st.x st.y _ _ _ hcg2 ((j - 1) * nx + i) hYlt
            1 29 (by decide)
            (by rw [haP 1 (by rw [hb1]; exact nonneg_ne_invalid (hYn 29)), hb1])
            hamono hapre _ _
            (by rw [rowmajor_mod _ _ _ hi, xval_29, xval_1])
            (by
              rw [rowmajor_div _ _ _ hi, yval_29, yval_1]
              push_cast [Nat.cast_sub (by omega : 1 ≤ j)]
              ring)
        · exact copied_slot_coord nx st.tiles st.x st.y _ _ _ hcg2 ((j - 1) * nx + i) hYlt
            2 30 (by decide)
            (by rw [haP 2 (by rw [hb2]; exact nonneg_ne_invalid (hYn 30)), hb2])
            hamono hapre _ _
            (by rw [rowmajor_mod _ _ _ hi, xval_30, xval_2])
            (by
              rw [rowmajor_div _ _ _ hi, yval_30, yval_2]
              push_cast [Nat.cast_sub (by omega : 1 ≤ j)]
              ring)
        · exact copied_slot_coord nx st.tiles st.x st.y _ _ _ hcg2 ((j - 1) * nx + i) hYlt
            3 31 (by decide)
            (by rw [haP 3 (by rw [hb3]; exact nonneg_ne_invalid (hYn 31)), hb3])
            hamono hapre _ _
            (by rw [rowmajor_mod _ _ _ hi, xval_31, xval_3])
            (by
              rw [rowmajor_div _ _ _ hi, yval_31, yval_3]
              push_cast [Nat.cast_sub (by omega : 1 ≤ j)]
              ring)
        · exact copied_slot_coord nx st.tiles st.x st.y _ _ _ hcg2 ((j - 1) * nx + i) hYlt
            4 32 (by decide)
            (by rw [haP 4 (by rw [hb4]; exact nonneg_ne_invalid (hYn 32)), hb4])
            hamono hapre _ _
            (by rw [rowmajor_mod _ _ _ hi, xval_32, xval_4])
            (by
              rw [rowmajor_div _ _ _ hi, yval_32, yval_4]
              push_cast [Nat.cast_sub (by omega : 1 ≤ j)]
              ring)
        · exact fresh_slot_coord sx sy st.m20 st.m21 _ st.x st.y _ _ hsxd hsx1 hsyd hsy1
            hm20d hm20 hm21d hm21 ht2len hcxy _ (by decide) rfl
        · exact fresh_slot_coord sx sy st.m20 st.m21 _ st.x st.y _ _ hsxd hsx1 hsyd hsy1
            hm20d hm20 hm21d hm21 ht2len hcxy _ (by decide) rfl
        · exact fresh_slot_coord sx sy st.m20 st.m21 _ st.x st.y _ _ hsxd hsx1 hsyd hsy1
            hm20d hm20 hm21d hm21 ht2len hcxy _ (by decide) rfl
        · exact fresh_slot_coord sx sy st.m20 st.m21 _ st.x st.y _ _ hsxd hsx1 hsyd hsy1
            hm20d hm20 hm21d hm21 ht2len hcxy _ (by decide) rfl
        · exact fresh_slot_coord sx sy st.m20 st.m21 _ st.x st.y _ _ hsxd hsx1 hsyd hsy1
            hm20d hm20 hm21d hm21 ht2len hcxy _ (by decide) rfl
        · exact fresh_slot_coord sx sy st.m20 st.m21 _ st.x st.y _ _ hsxd hsx1 hsyd hsy1
            hm20d hm20 hm21d hm21 ht2len hcxy _ (by decide) rfl
        · exact fresh_slot_coord sx sy st.m20 st.m21 _ st.x st.y _ _ hsxd hsx1 hsyd hsy1
            hm20d hm20 hm21d hm21 ht2len hcxy _ (by decide) rfl
        · exact fresh_slot_coord sx sy st.m20 st.m21 _ st.x st.y _ _ hsxd hsx1 hsyd hsy1
            hm20d hm20 hm21d hm21 ht2len hcxy _ (by decide) rfl
        · exact fresh_slot_coord sx sy st.m20 st.m21 _ st.x st.y _ _ hsxd hsx1 hsyd hsy1
            hm20d hm20 hm21d hm21 ht2len hcxy _ (by decide) rfl
        · exact fresh_slot_coord sx sy st.m20 st.m21 _ st.x st.y _ _ hsxd hsx1 hsyd hsy1
            hm20d hm20 hm21d hm21 ht2len hcxy _ (by decide) rfl
        · exact fresh_slot_coord sx sy st.m20 st.m21 _ st.x st.y _ _ hsxd hsx1 hsyd hsy1
            hm20d hm20 hm21d hm21 ht2len hcxy _ (by decide) rfl
        · exact fresh_slot_coord sx sy st.m20 st.m21 _ st.x st.y _ _ hsxd hsx1 hsyd hsy1
            hm20d hm20 hm21d hm21 ht2len hcxy _ (by decide) rfl
        · exact fresh_slot_coord sx sy st.m20 st.m21 _ st.x st.y _ _ hsxd hsx1 hsyd hsy1
            hm20d hm20 hm21d hm21 ht2len hcxy _ (by decide) rfl
        · exact fresh_slot_coord sx sy st.m20 st.m21 _ st.x st.y _ _ hsxd hsx1 hsyd hsy1
            hm20d hm20 hm21d hm21 ht2len hcxy _ (by decide) rfl
        · exact fresh_slot_coord sx sy st.m20 st.m21 _ st.x st.y _ _ hsxd hsx1 hsyd hsy1
            hm20d hm20 hm21d hm21 ht2len hcxy _ (by decide) rfl
        · exact fresh_slot_coord sx sy st.m20 st.m21 _ st.x st.y _ _ hsxd hsx1 hsyd hsy1
            hm20d hm20 hm21d hm21 ht2len hcxy _ (by decide) rfl
        · exact fresh_slot_coord sx sy st.m20 st.m21 _ st.x st.y _ _ hsxd hsx1 hsyd hsy1
            hm20d hm20 hm21d hm21 ht2len hcxy _ (by decide) rfl
        · exact fresh_slot_coord sx sy st.m20 st.m21 _ st.x st.y _ _ hsxd hsx1 hsyd hsy1
            hm20d hm20 hm21d hm21 ht2len hcxy _ (by decide) rfl
        · exact fresh_slot_coord sx sy st.m20 st.m21 _ st.x st.y _ _ hsxd hsx1 hsyd hsy1
            hm20d hm20 hm21d hm21 ht2len hcxy _ (by decide) rfl
        · exact fresh_slot_coord sx sy st.m20 st.m21 _ st.x st.y _ _ hsxd hsx1 hsyd hsy1
            hm20d hm20 hm21d hm21 ht2len hcxy _ (by decide) rfl
        · exact fresh_slot_coord sx sy st.m20 st.m21 _ st.x st.y _ _ hsxd hsx1 hsyd hsy1
            hm20d hm20 hm21d hm21 ht2len hcxy _ (by decide) rfl
        · exact fresh_slot_coord sx sy st.m20 st.m21 _ st.x st.y _ _ hsxd hsx1 hsyd hsy1
            hm20d hm20 hm21d hm21 ht2len hcxy _ (by decide) rfl
        · exact fresh_slot_coord sx sy st.m20 st.m21 _ st.x st.y _ _ hsxd hsx1 hsyd hsy1
            hm20d hm20 hm21d hm21 ht2len hcxy _ (by decide) rfl
        · exact fresh_slot_coord sx sy st.m20 st.m21 _ st.x st.y _ _ hsxd hsx1 hsyd hsy1
            hm20d hm20 hm21d hm21 ht2len hcxy _ (by decide) rfl
        · exact fresh_slot_coord sx sy st.m20 st.m21 _ st.x st.y _ _ hsxd hsx1 hsyd hsy1
            hm20d hm20 hm21d hm21 ht2len hcxy _ (by decide) rfl
        · exact fresh_slot_coord sx sy st.m20 st.m21 _ st.x st.y _ _ hsxd hsx1 hsyd hsy1
            hm20d hm20 hm21d hm21 ht2len hcxy _ (by decide) rfl
        · exact fresh_slot_coord sx sy st.m20 st.m21 _ st.x st.y _ _ hsxd hsx1 hsyd hsy1
            hm20d hm20 hm21d hm21 ht2len hcxy _ (by decide) rfl
        · exact fresh_slot_coord sx sy st.m20 st.m21 _ st.x st.y _ _ hsxd hsx1 hsyd hsy1
            hm20d hm20 hm21d hm21 ht2len hcxy _ (by decide) rfl
  · rw [if_neg hj0] at hteq
    by_cases hi0 : 0 < i
    · rw [if_pos hi0] at hteq
      have hXlt : j * nx + i - 1 < st.tiles.length := by
        rw [hlen]
        omega
      have hXn := hgN _ (getD_mem_of_lt _ _ ([] : List Int) hXlt)
      set t2c := setPointIds (List.replicate 33 (-1 : Int)) defaultPattern.left
          (getPointIds (st.tiles.getD (j * nx + i - 1) []) defaultPattern.right) with ht2c
      obtain ⟨hbl, hb0, hc5, hc14, hc24, hc28⟩ :=
        t2left_getD (st.tiles.getD (j * nx + i - 1) []) t2c ht2c
      have ht2len : t2c.length = 33 := hbl
      obtain ⟨haL, haP, haN⟩ := addPoints_spec defaultPattern
        ⟨sx, 0, 0, 0, sy, 0, st.m20, st.m21, 1⟩ t2c st.x st.y
      have hts : (tileStep defaultPattern nx sx sy j i st).tiles =
          st.tiles ++ [(addPoints defaultPattern ⟨sx, 0, 0, 0, sy, 0, st.m20, st.m21, 1⟩
            t2c st.x st.y).1] := by rw [hteq]
      have htsx : (tileStep defaultPattern nx sx sy j i st).x =
          (addPoints defaultPattern ⟨sx, 0, 0, 0, sy, 0, st.m20, st.m21, 1⟩
            t2c st.x st.y).2.1 := by rw [hteq]
      have htsy : (tileStep defaultPattern nx sx sy j i st).y =
          (addPoints defaultPattern ⟨sx, 0, 0, 0, sy, 0, st.m20, st.m21, 1⟩
            t2c st.x st.y).2.2 := by rw [hteq]
      rw [hts, htsx, htsy]
      obtain ⟨hal, hamono, hapre, hafresh⟩ := addPoints_coords defaultPattern
        ⟨sx, 0, 0, 0, sy, 0, st.m20, st.m21, 1⟩ t2c st.x st.y hcxy
      unfold coordsGood
      refine ⟨hal, ?_⟩
      intro m hm idx hidx
      by_cases hmts : m < st.tiles.length
      · obtain ⟨hb, hcx, hcy⟩ := hcg2 m hmts idx hidx
        rw [getD_append_lt _ _ _ _ hmts]
        exact ⟨lt_of_lt_of_le hb hamono, by rw [(hapre _ hb).1, hcx],
          by rw [(hapre _ hb).2, hcy]⟩
      · have hme : m = st.tiles.length := by
          rw [List.length_append, List.length_singleton] at hm
          omega
        rw [hme, getD_append_cons, hlen, rowmajor_mod _ _ _ hi, rowmajor_div _ _ _ hi]
        interval_cases idx
        · exact copied_slot_coord nx st.tiles st.x st.y _ _ _ hcg2 (j * nx + i - 1) hXlt
            0 4 (by decide)
            (by rw [haP 0 (by rw [hb0]; exact nonneg_ne_invalid (hXn 4)), hb0])
            hamono hapre _ _
            (by
              rw [(by omega : j * nx + i - 1 = j * nx + (i - 1)),
                rowmajor_mod _ _ _ (by omega : i - 1 < nx), xval_4, xval_0]
              push_cast [Nat.cast_sub (by omega : 1 ≤ i)]
              ring)
            (by rw [(by omega : j * nx + i - 1 = j * nx + (i - 1)),
              rowmajor_div _ _ _ (by omega : i - 1 < nx), yval_4, yval_0])
        · exact fresh_slot_coord sx sy st.m20 st.m21 _ st.x st.y _ _ hsxd hsx1 hsyd hsy1
            hm20d hm20 hm21d hm21 ht2len hcxy _ (by decide) rfl
        · exact fresh_slot_coord sx sy st.m20 st.m21 _ st.x st.y _ _ hsxd hsx1 hsyd hsy1
            hm20d hm20 hm21d hm21 ht2len hcxy _ (by decide) rfl
        · exact fresh_slot_coord sx sy st.m20 st.m21 _ st.x st.y _ _ hsxd hsx1 hsyd hsy1
            hm20d hm20 hm21d hm21 ht2len hcxy _ (by decide) rfl
        · exact fresh_slot_coord sx sy st.m20 st.m21 _ st.x st.y _ _ hsxd hsx1 hsyd hsy1
            hm20d hm20 hm21d hm21 ht2len hcxy _ (by decide) rfl
        · exact copied_slot_coord nx st.tiles st.x st.y _ _ _ hcg2 (j * nx + i - 1) hXlt
            5 8 (by decide)
            (by rw [haP 5 (by rw [hc5]; exact nonneg_ne_invalid (hXn 8)), hc5])
            hamono hapre _ _
            (by
              rw [(by omega : j * nx + i - 1 = j * nx + (i - 1)),
                rowmajor_mod _ _ _ (by omega : i - 1 < nx), xval_8, xval_5]
              push_cast [Nat.cast_sub (by omega : 1 ≤ i)]
              ring)
            (by rw [(by omega : j * nx + i - 1 = j * nx + (i - 1)),
              rowmajor_div _ _ _ (by omega : i - 1 < nx), yval_8, yval_5])
        · exact fresh_slot_coord sx sy st.m20 st.m21 _ st.x st.y _ _ hsxd hsx1 hsyd hsy1
            hm20d hm20 hm21d hm21 ht2len hcxy _ (by decide) rfl
        · exact fresh_slot_coord sx sy st.m20 st.m21 _ st.x st.y _ _ hsxd hsx1 hsyd hsy1
            hm20d hm20 hm21d hm21 ht2len hcxy _ (by decide) rfl
        · exact fresh_slot_coord sx sy st.m20 st.m21 _ st.x st.y _ _ hsxd hsx1 hsyd hsy1
            hm20d hm20 hm21d hm21 ht2len hcxy _ (by decide) rfl
        · exact fresh_slot_coord sx sy st.m20 st.m21 _ st.x st.y _ _ hsxd hsx1 hsyd hsy1
            hm20d hm20 hm21d hm21 ht2len hcxy _ (by decide) rfl
        · exact fresh_slot_coord sx sy st.m20 st.m21 _ st.x st.y _ _ hsxd hsx1 hsyd hsy1
            hm20d hm20 hm21d hm21 ht2len hcxy _ (by decide) rfl
        · exact fresh_slot_coord sx sy st.m20 st.m21 _ st.x st.y _ _ hsxd hsx1 hsyd hsy1
            hm20d hm20 hm21d hm21 ht2len hcxy _ (by decide) rfl
        · exact fresh_slot_coord sx sy st.m20 st.m21 _ st.x st.y _ _ hsxd hsx1 hsyd hsy1
            hm20d hm20 hm21d hm21 ht2len hcxy _ (by decide) rfl
        · exact fresh_slot_coord sx sy st.m20 st.m21 _ st.x st.y _ _ hsxd hsx1 hsyd hsy1
            hm20d hm20 hm21d hm21 ht2len hcxy _ (by decide) rfl
        · exact copied_slot_coord nx st.tiles st.x st.y _ _ _ hcg2 (j * nx + i - 1) hXlt
            14 18 (by decide)
            (by rw [haP 14 (by rw [hc14]; exact nonneg_ne_invalid (hXn 18)), hc14])
            hamono hapre _ _
            (by
              rw [(by omega : j * nx + i - 1 = j * nx + (i - 1)),
                rowmajor_mod _ _ _ (by omega : i - 1 < nx), xval_18, xval_14]
              push_cast [Nat.cast_sub (by omega : 1 ≤ i)]
              ring)
            (by rw [(by omega : j * nx + i - 1 = j * nx + (i - 1)),
              rowmajor_div _ _ _ (by omega : i - 1 < nx), yval_18, yval_14])
        · exact fresh_slot_coord sx sy st.m20 st.m21 _ st.x st.y _ _ hsxd hsx1 hsyd hsy1
            hm20d hm20 hm21d hm21 ht2len hcxy _ (by decide) rfl
        · exact fresh_slot_coord sx sy st.m20 st.m21 _ st.x st.y _ _ hsxd hsx1 hsyd hsy1
            hm20d hm20 hm21d hm21 ht2len hcxy _ (by decide) rfl
        · exact fresh_slot_coord sx sy st.m20 st.m21 _ st.x st.y _ _ hsxd hsx1 hsyd hsy1
            hm20d hm20 hm21d hm21 ht2len hcxy _ (by decide) rfl
        · exact fresh_slot_coord sx sy st.m20 st.m21 _ st.x st.y _ _ hsxd hsx1 hsyd hsy1
            hm20d hm20 hm21d hm21 ht2len hcxy _ (by decide) rfl
        · exact fresh_slot_coord sx sy st.m20 st.m21 _ st.x st.y _ _ hsxd hsx1 hsyd hsy1
            hm20d hm20 hm21d hm21 ht2len hcxy _ (by decide) rfl
        · exact fresh_slot_coord sx sy st.m20 st.m21 _ st.x st.y _ _ hsxd hsx1 hsyd hsy1
            hm20d hm20 hm21d hm21 ht2len hcxy _ (by decide) rfl
        · exact fresh_slot_coord sx sy st.m20 st.m21 _ st.x st.y _ _ hsxd hsx1 hsyd hsy1
            hm20d hm20 hm21d hm21 ht2len hcxy _ (by decide) rfl
        · exact fresh_slot_coord sx sy st.m20 st.m21 _ st.x st.y _ _ hsxd hsx1 hsyd hsy1
            hm20d hm20 hm21d hm21 ht2len hcxy _ (by decide) rfl
        · exact fresh_slot_coord sx sy st.m20 st.m21 _ st.x st.y _ _ hsxd hsx1 hsyd hsy1
            hm20d hm20 hm21d hm21 ht2len hcxy _ (by decide) rfl
        · exact copied_slot_coord nx st.tiles st.x st.y _ _ _ hcg2 (j * nx + i - 1) hXlt
            24 27 (by decide)
            (by rw [haP 24 (by rw [hc24]; exact nonneg_ne_invalid (hXn 27)), hc24])
            hamono hapre _ _
            (by
              rw [(by omega : j * nx + i - 1 = j * nx + (i - 1)),
                rowmajor_mod _ _ _ (by omega : i - 1 < nx), xval_27, xval_24]
              push_cast [Nat.cast_sub (by omega : 1 ≤ i)]
              ring)
            (by rw [(by omega : j * nx + i - 1 = j * nx + (i - 1)),
              rowmajor_div _ _ _ (by omega : i - 1 < nx), yval_27, yval_24])
        · exact fresh_slot_coord sx sy st.m20 st.m21 _ st.x st.y _ _ hsxd hsx1 hsyd hsy1
            hm20d hm20 hm21d hm21 ht2len hcxy _ (by decide) rfl
        · exact fresh_slot_coord sx sy st.m20 st.m21 _ st.x st.y _ _ hsxd hsx1 hsyd hsy1
            hm20d hm20 hm21d hm21 ht2len hcxy _ (by decide) rfl
        · exact fresh_slot_coord sx sy st.m20 st.m21 _ st.x st.y _ _ hsxd hsx1 hsyd hsy1
            hm20d hm20 hm21d hm21 ht2len hcxy _ (by decide) rfl
        · exact copied_slot_coord nx st.tiles st.x st.y _ _ _ hcg2 (j * nx + i - 1) hXlt
            28 32 (by decide)
            (by rw [haP 28 (by rw [hc28]; exact nonneg_ne_invalid (hXn 32)), hc28])
            hamono hapre _ _
            (by
              rw [(by omega : j * nx + i - 1 = j * nx + (i - 1)),
                rowmajor_mod _ _ _ (by omega : i - 1 < nx), xval_32, xval_28]
              push_cast [Nat.cast_sub (by omega : 1 ≤ i)]
              ring)
            (by rw [(by omega : j * nx + i - 1 = j * nx + (i - 1)),
              rowmajor_div _ _ _ (by omega : i - 1 < nx), yval_32, yval_28])
        · exact fresh_slot_coord sx sy st.m20 st.m21 _ st.x st.y _ _ hsxd hsx1 hsyd hsy1
            hm20d hm20 hm21d hm21 ht2len hcxy _ (by decide) rfl
        · exact fresh_slot_coord sx sy st.m20 st.m21 _ st.x st.y _ _ hsxd hsx1 hsyd hsy1
            hm20d hm20 hm21d hm21 ht2len hcxy _ (by decide) rfl
        · exact fresh_slot_coord sx sy st.m20 st.m21 _ st.x st.y _ _ hsxd hsx1 hsyd hsy1
            hm20d hm20 hm21d hm21 ht2len hcxy _ (by decide) rfl
        · exact fresh_slot_coord sx sy st.m20 st.m21 _ st.x st.y _ _ hsxd hsx1 hsyd hsy1
            hm20d hm20 hm21d hm21 ht2len hcxy _ (by decide) rfl
    · rw [if_neg hi0] at hteq
      set t2c := List.replicate 33 (-1 : Int) with ht2c
      have ht2len : t2c.length = 33 := by rw [ht2c]; simp
      have hts : (tileStep defaultPattern nx sx sy j i st).tiles =
          st.tiles ++ [(addPoints defaultPattern ⟨sx, 0, 0, 0, sy, 0, st.m20, st.m21, 1⟩
            t2c st.x st.y).1] := by rw [hteq]
      have htsx : (tileStep defaultPattern nx sx sy j i st).x =
          (addPoints defaultPattern ⟨sx, 0, 0, 0, sy, 0, st.m20, st.m21, 1⟩
            t2c st.x st.y).2.1 := by rw [hteq]
      have htsy : (tileStep defaultPattern nx sx sy j i st).y =
          (addPoints defaultPattern ⟨sx, 0, 0, 0, sy, 0, st.m20, st.m21, 1⟩
            t2c st.x st.y).2.2 := by rw [hteq]
      rw [hts, htsx, htsy]
      obtain ⟨hal, hamono, hapre, hafresh⟩ := addPoints_coords defaultPattern
        ⟨sx, 0, 0, 0, sy, 0, st.m20, st.m21, 1⟩ t2c st.x st.y hcxy
      unfold coordsGood
      refine ⟨hal, ?_⟩
      intro m hm idx hidx
      by_cases hmts : m < st.tiles.length
      · obtain ⟨hb, hcx, hcy⟩ := hcg2 m hmts idx hidx
        rw [getD_append_lt _ _ _ _ hmts]
        exact ⟨lt_of_lt_of_le hb hamono, by rw [(hapre _ hb).1, hcx],
          by rw [(hapre _ hb).2, hcy]⟩
      · have hme : m = st.tiles.length := by
          rw [List.length_append, List.length_singleton] at hm
          omega
        rw [hme, getD_append_cons, hlen, rowmajor_mod _ _ _ hi, rowmajor_div _ _ _ hi]
        interval_cases idx
        · exact fresh_slot_coord sx sy st.m20 st.m21 _ st.x st.y _ _ hsxd hsx1 hsyd hsy1
            hm20d hm20 hm21d hm21 ht2len hcxy _ (by decide) rfl
        · exact fresh_slot_coord sx sy st.m20 st.m21 _ st.x st.y _ _ hsxd hsx1 hsyd hsy1
            hm20d hm20 hm21d hm21 ht2len hcxy _ (by decide) rfl
        · exact fresh_slot_coord sx sy st.m20 st.m21 _ st.x st.y _ _ hsxd hsx1 hsyd hsy1
            hm20d hm20 hm21d hm21 ht2len hcxy _ (by decide) rfl
        · exact fresh_slot_coord sx sy st.m20 st.m21 _ st.x st.y _ _ hsxd hsx1 hsyd hsy1
            hm20d hm20 hm21d hm21 ht2len hcxy _ (by decide) rfl
        · exact fresh_slot_coord sx sy st.m20 st.m21 _ st.x st.y _ _ hsxd hsx1 hsyd hsy1
            hm20d hm20 hm21d hm21 ht2len hcxy _ (by decide) rfl
        · exact fresh_slot_coord sx sy st.m20 st.m21 _ st.x st.y _ _ hsxd hsx1 hsyd hsy1
            hm20d hm20 hm21d hm21 ht2len hcxy _ (by decide) rfl
        · exact fresh_slot_coord sx sy st.m20 st.m21 _ st.x st.y _ _ hsxd hsx1 hsyd hsy1
            hm20d hm20 hm21d hm21 ht2len hcxy _ (by decide) rfl
        · exact fresh_slot_coord sx sy st.m20 st.m21 _ st.x st.y _ _ hsxd hsx1 hsyd hsy1
            hm20d hm20 hm21d hm21 ht2len hcxy _ (by decide) rfl
        · exact fresh_slot_coord sx sy st.m20 st.m21 _ st.x st.y _ _ hsxd hsx1 hsyd hsy1
            hm20d hm20 hm21d hm21 ht2len hcxy _ (by decide) rfl
        · exact fresh_slot_coord sx sy st.m20 st.m21 _ st.x st.y _ _ hsxd hsx1 hsyd hsy1
            hm20d hm20 hm21d hm21 ht2len hcxy _ (by decide) rfl
        · exact fresh_slot_coord sx sy st.m20 st.m21 _ st.x st.y _ _ hsxd hsx1 hsyd hsy1
            hm20d hm20 hm21d hm21 ht2len hcxy _ (by decide) rfl
        · exact fresh_slot_coord sx sy st.m20 st.m21 _ st.x st.y _ _ hsxd hsx1 hsyd hsy1
            hm20d hm20 hm21d hm21 ht2len hcxy _ (by decide) rfl
        · exact fresh_slot_coord sx sy st.m20 st.m21 _ st.x st.y _ _ hsxd hsx1 hsyd hsy1
            hm20d hm20 hm21d hm21 ht2len hcxy _ (by decide) rfl
        · exact fresh_slot_coord sx sy st.m20 st.m21 _ st.x st.y _ _ hsxd hsx1 hsyd hsy1
            hm20d hm20 hm21d hm21 ht2len hcxy _ (by decide) rfl
        · exact fresh_slot_coord sx sy st.m20 st.m21 _ st.x st.y _ _ hsxd hsx1 hsyd hsy1
            hm20d hm20 hm21d hm21 ht2len hcxy _ (by decide) rfl
        · exact fresh_slot_coord sx sy st.m20 st.m21 _ st.x st.y _ _ hsxd hsx1 hsyd hsy1
            hm20d hm20 hm21d hm21 ht2len hcxy _ (by decide) rfl
        · exact fresh_slot_coord sx sy st.m20 st.m21 _ st.x st.y _ _ hsxd hsx1 hsyd hsy1
            hm20d hm20 hm21d hm21 ht2len hcxy _ (by decide) rfl
        · exact fresh_slot_coord sx sy st.m20 st.m21 _ st.x st.y _ _ hsxd hsx1 hsyd hsy1
            hm20d hm20 hm21d hm21 ht2len hcxy _ (by decide) rfl
        · exact fresh_slot_coord sx sy st.m20 st.m21 _ st.x st.y _ _ hsxd hsx1 hsyd hsy1
            hm20d hm20 hm21d hm21 ht2len hcxy _ (by decide) rfl
        · exact fresh_slot_coord sx sy st.m20 st.m21 _ st.x st.y _ _ hsxd hsx1 hsyd hsy1
            hm20d hm20 hm21d hm21 ht2len hcxy _ (by decide) rfl
        · exact fresh_slot_coord sx sy st.m20 st.m21 _ st.x st.y _ _ hsxd hsx1 hsyd hsy1
            hm20d hm20 hm21d hm21 ht2len hcxy _ (by decide) rfl
        · exact fresh_slot_coord sx sy st.m20 st.m21 _ st.x st.y _ _ hsxd hsx1 hsyd hsy1
            hm20d hm20 hm21d hm21 ht2len hcxy _ (by decide) rfl
        · exact fresh_slot_coord sx sy st.m20 st.m21 _ st.x st.y _ _ hsxd hsx1 hsyd hsy1
            hm20d hm20 hm21d hm21 ht2len hcxy _ (by decide) rfl
        · exact fresh_slot_coord sx sy st.m20 st.m21 _ st.x st.y _ _ hsxd hsx1 hsyd hsy1
            hm20d hm20 hm21d hm21 ht2len hcxy _ (by decide) rfl
        · exact fresh_slot_coord sx sy st.m20 st.m21 _ st.x st.y _ _ hsxd hsx1 hsyd hsy1
            hm20d hm20 hm21d hm21 ht2len hcxy _ (by decide) rfl
        · exact fresh_slot_coord sx sy st.m20 st.m21 _ st.x st.y _ _ hsxd hsx1 hsyd hsy1
            hm20d hm20 hm21d hm21 ht2len hcxy _ (by decide) rfl
        · exact fresh_slot_coord sx sy st.m20 st.m21 _ st.x st.y _ _ hsxd hsx1 hsyd hsy1
            hm20d hm20 hm21d hm21 ht2len hcxy _ (by decide) rfl
        · exact fresh_slot_coord sx sy st.m20 st.m21 _ st.x st.y _ _ hsxd hsx1 hsyd hsy1
            hm20d hm20 hm21d hm21 ht2len hcxy _ (by decide) rfl
        · exact fresh_slot_coord sx sy st.m20 st.m21 _ st.x st.y _ _ hsxd hsx1 hsyd hsy1
            hm20d hm20 hm21d hm21 ht2len hcxy _ (by decide) rfl
        · exact fresh_slot_coord sx sy st.m20 st.m21 _ st.x st.y _ _ hsxd hsx1 hsyd hsy1
            hm20d hm20 hm21d hm21 ht2len hcxy _ (by decide) rfl
        · exact fresh_slot_coord sx sy st.m20 st.m21 _ st.x st.y _ _ hsxd hsx1 hsyd hsy1
            hm20d hm20 hm21d hm21 ht2len hcxy _ (by decide) rfl
        · exact fresh_slot_coord sx sy st.m20 st.m21 _ st.x st.y _ _ hsxd hsx1 hsyd hsy1
            hm20d hm20 hm21d hm21 ht2len hcxy _ (by decide) rfl
        · exact fresh_slot_coord sx sy st.m20 st.m21 _ st.x st.y _ _ hsxd hsx1 hsyd hsy1
            hm20d hm20 hm21d hm21 ht2len hcxy _ (by decide) rfl

/-- The inner (column) fold of the point pass preserves the coordinate
invariant and tracks the translation entries. -/
theorem innerFoldCoords (nx : Nat) (hnx : 0 < nx) (sx sy tx : Frac)
    (hsxd : sx.d ≠ 0) (hsx1 : sx.toRat = 1)
    (hsyd : sy.d ≠ 0) (hsy1 : sy.toRat = 1)
    (htxd : tx.d ≠ 0) (htx : tx.toRat = 20) (j : Nat) :
    ∀ i : Nat, i ≤ nx → ∀ st : TilerState,
      st.tiles.length = j * nx → goodTiles nx st.tiles →
      coordsGood nx st.tiles st.x st.y →
      st.m20.d ≠ 0 → st.m20.toRat = 0 →
      st.m21.d ≠ 0 → st.m21.toRat = (j : ℚ) * 20 →
      ((List.range i).foldl
      (fun st2 i2 =>
        let st3 := tileStep defaultPattern nx sx sy j i2 st2
        ⟨st3.tiles, st3.x, st3.y, st3.m20 + tx, st3.m21⟩) st).tiles.length = j * nx + i ∧
      goodTiles nx ((List.range i).foldl
      (fun st2 i2 =>
        let st3 := tileStep defaultPattern nx sx sy j i2 st2
        ⟨st3.tiles, st3.x, st3.y, st3.m20 + tx, st3.m21⟩) st).tiles ∧
      coordsGood nx ((List.range i).foldl
      (fun st2 i2 =>
        let st3 := tileStep defaultPattern nx sx sy j i2 st2
        ⟨st3.tiles, st3.x, st3.y, st3.m20 + tx, st3.m21⟩) st).tiles
        ((List.range i).foldl
      (fun st2 i2 =>
        let st3 := tileStep defaultPattern nx sx sy j i2 st2
        ⟨st3.tiles, st3.x, st3.y, st3.m20 + tx, st3.m21⟩) st).x
        ((List.range i).foldl
      (fun st2 i2 =>
        let st3 := tileStep defaultPattern nx sx sy j i2 st2
        ⟨st3.tiles, st3.x, st3.y, st3.m20 + tx, st3.m21⟩) st).y ∧
      ((List.range i).foldl
      (fun st2 i2 =>
        let st3 := tileStep defaultPattern nx sx sy j i2 st2
        ⟨st3.tiles, st3.x, st3.y, st3.m20 + tx, st3.m21⟩) st).m20.d ≠ 0 ∧
      ((List.range i).foldl
      (fun st2 i2 =>
        let st3 := tileStep defaultPattern nx sx sy j i2 st2
        ⟨st3.tiles, st3.x, st3.y, st3.m20 + tx, st3.m21⟩) st).m20.toRat = (i : ℚ) * 20 ∧
      ((List.range i).foldl
      (fun st2 i2 =>
        let st3 := tileStep defaultPattern nx sx sy j i2 st2
        ⟨st3.tiles, st3.x, st3.y, st3.m20 + tx, st3.m21⟩) st).m21.d ≠ 0 ∧
      ((List.range i).foldl
      (fun st2 i2 =>
        let st3 := tileStep defaultPattern nx sx sy j i2 st2
        ⟨st3.tiles, st3.x, st3.y, st3.m20 + tx, st3.m21⟩) st).m21.toRat = (j : ℚ) * 20 := by
  intro i
  induction i with
  | zero =>
    intro _ st h1 h2 h3 h4 h5 h6 h7
    simp only [List.range_zero, List.foldl_nil]
    refine ⟨by omega, h2, h3, h4, ?_, h6, h7⟩
    rw [h5]
    norm_num
  | succ i ih =>
    intro hile st h1 h2 h3 h4 h5 h6 h7
    rw [List.range_succ, List.foldl_append]
    simp only [List.foldl_cons, List.foldl_nil]
    obtain ⟨ihl, ihg, ihc, ihm20d, ihm20, ihm21d, ihm21⟩ :=
      ih (by omega) st h1 h2 h3 h4 h5 h6 h7
    set FI := (List.range i).foldl
      (fun st2 i2 =>
        let st3 := tileStep defaultPattern nx sx sy j i2 st2
        ⟨st3.tiles, st3.x, st3.y, st3.m20 + tx, st3.m21⟩) st with hFI
    have hstep := tileStep_good nx sx sy j i FI hnx (by omega) ihl ihg
    have hcoords := tileStepCoords_good nx sx sy j i FI hnx (by omega) ihl ihg ihc
      hsxd hsx1 hsyd hsy1 ihm20d ihm20 ihm21d ihm21
    have hm20e : (tileStep defaultPattern nx sx sy j i FI).m20 = FI.m20 := by
      rw [tileStep_eq]
    have hm21e : (tileStep defaultPattern nx sx sy j i FI).m21 = FI.m21 := by
      rw [tileStep_eq]
    refine ⟨?_, ?_, ?_, ?_, ?_, ?_, ?_⟩
    · dsimp only
      exact hstep.1
    · dsimp only
      exact hstep.2
    · dsimp only
      exact hcoords
    · dsimp only
      exact mul_ne_zero (by rw [hm20e]; exact ihm20d) htxd
    · dsimp only
      rw [Frac.toRat_add (by rw [hm20e]; exact ihm20d) htxd, hm20e, ihm20, htx]
      push_cast
      ring
    · dsimp only
      rw [hm21e]
      exact ihm21d
    · dsimp only
      rw [hm21e]
      exact ihm21

/-- The outer (row) fold of the point pass preserves the coordinate
invariant, advancing `M[2][1]` by one tile height per row. -/
theorem outerFoldCoords (nx : Nat) (hnx : 0 < nx) (sx sy ox oy tx ty : Frac)
    (hsxd : sx.d ≠ 0) (hsx1 : sx.toRat = 1)
    (hsyd : sy.d ≠ 0) (hsy1 : sy.toRat = 1)
    (htxd : tx.d ≠ 0) (htx : tx.toRat = 20)
    (hoxd : ox.d ≠ 0) (hox : ox.toRat = 0)
    (hoyd : oy.d ≠ 0) (hoy : oy.toRat = 0)
    (htyd : ty.d ≠ 0) (hty : ty.toRat = 20) :
    ∀ jcnt : Nat,
      ((List.range jcnt).foldl
        (fun st j =>
          let strow := (List.range nx).foldl
            (fun st2 i =>
              let st3 := tileStep defaultPattern nx sx sy j i st2
              ⟨st3.tiles, st3.x, st3.y, st3.m20 + tx, st3.m21⟩)
            ⟨st.tiles, st.x, st.y, ox, st.m21⟩
          ⟨strow.tiles, strow.x, strow.y, strow.m20, strow.m21 + ty⟩)
        (⟨[], [], [], ox, oy⟩ : TilerState)).tiles.length = jcnt * nx ∧
      goodTiles nx ((List.range jcnt).foldl
        (fun st j =>
          let strow := (List.range nx).foldl
            (fun st2 i =>
              let st3 := tileStep defaultPattern nx sx sy j i st2
              ⟨st3.tiles, st3.x, st3.y, st3.m20 + tx, st3.m21⟩)
            ⟨st.tiles, st.x, st.y, ox, st.m21⟩
          ⟨strow.tiles, strow.x, strow.y, strow.m20, strow.m21 + ty⟩)
        (⟨[], [], [], ox, oy⟩ : TilerState)).tiles ∧
      coordsGood nx ((List.range jcnt).foldl
        (fun st j =>
          let strow := (List.range nx).foldl
            (fun st2 i =>
              let st3 := tileStep defaultPattern nx sx sy j i st2
              ⟨st3.tiles, st3.x, st3.y, st3.m20 + tx, st3.m21⟩)
            ⟨st.tiles, st.x, st.y, ox, st.m21⟩
          ⟨strow.tiles, strow.x, strow.y, strow.m20, strow.m21 + ty⟩)
        (⟨[], [], [], ox, oy⟩ : TilerState)).tiles
        ((List.range jcnt).foldl
        (fun st j =>
          let strow := (List.range nx).foldl
            (fun st2 i =>
              let st3 := tileStep defaultPattern nx sx sy j i st2
              ⟨st3.tiles, st3.x, st3.y, st3.m20 + tx, st3.m21⟩)
            ⟨st.tiles, st.x, st.y, ox, st.m21⟩
          ⟨strow.tiles, strow.x, strow.y, strow.m20, strow.m21 + ty⟩)
        (⟨[], [], [], ox, oy⟩ : TilerState)).x
        ((List.range jcnt).foldl
        (fun st j =>
          let strow := (List.range nx).foldl
            (fun st2 i =>
              let st3 := tileStep defaultPattern nx sx sy j i st2
              ⟨st3.tiles, st3.x, st3.y, st3.m20 + tx, st3.m21⟩)
            ⟨st.tiles, st.x, st.y, ox, st.m21⟩
          ⟨strow.tiles, strow.x, strow.y, strow.m20, strow.m21 + ty⟩)
        (⟨[], [], [], ox, oy⟩ : TilerState)).y ∧
      ((List.range jcnt).foldl
        (fun st j =>
          let strow := (List.range nx).foldl
            (fun st2 i =>
              let st3 := tileStep defaultPattern nx sx sy j i st2
              ⟨st3.tiles, st3.x, st3.y, st3.m20 + tx, st3.m21⟩)
            ⟨st.tiles, st.x, st.y, ox, st.m21⟩
          ⟨strow.tiles, strow.x, strow.y, strow.m20, strow.m21 + ty⟩)
        (⟨[], [], [], ox, oy⟩ : TilerState)).m21.d ≠ 0 ∧
      ((List.range jcnt).foldl
        (fun st j =>
          let strow := (List.range nx).foldl
            (fun st2 i =>
              let st3 := tileStep defaultPattern nx sx sy j i st2
              ⟨st3.tiles, st3.x, st3.y, st3.m20 + tx, st3.m21⟩)
            ⟨st.tiles, st.x, st.y, ox, st.m21⟩
          ⟨strow.tiles, strow.x, strow.y, strow.m20, strow.m21 + ty⟩)
        (⟨[], [], [], ox, oy⟩ : TilerState)).m21.toRat = (jcnt : ℚ) * 20 := by
  intro jcnt
  induction jcnt with
  | zero =>
    simp only [List.range_zero, List.foldl_nil]
    refine ⟨by simp, goodTiles_nil nx, ⟨rfl, ?_⟩, hoyd, by rw [hoy]; norm_num⟩
    intro m hm idx hidx
    rw [List.length_nil] at hm
    omega
  | succ jc ih =>
    rw [List.range_succ, List.foldl_append]
    simp only [List.foldl_cons, List.foldl_nil]
    obtain ⟨ihl, ihg, ihc, ihm21d, ihm21⟩ := ih
    set F := (List.range jc).foldl
      (fun st j =>
        let strow := (List.range nx).foldl
          (fun st2 i =>
            let st3 := tileStep defaultPattern nx sx sy j i st2
            ⟨st3.tiles, st3.x, st3.y, st3.m20 + tx, st3.m21⟩)
          ⟨st.tiles, st.x, st.y, ox, st.m21⟩
        ⟨strow.tiles, strow.x, strow.y, strow.m20, strow.m21 + ty⟩)
      (⟨[], [], [], ox, oy⟩ : TilerState) with hF
    obtain ⟨hleni, hgoodi, hcoordsi, hm20di, hm20i, hm21di, hm21i⟩ :=
      innerFoldCoords nx hnx sx sy tx hsxd hsx1 hsyd hsy1 htxd htx jc nx
        (le_refl nx) ⟨F.tiles, F.x, F.y, ox, F.m21⟩ ihl ihg ihc hoxd hox ihm21d ihm21
    refine ⟨?_, ?_, ?_, ?_, ?_⟩
    · rw [Nat.succ_mul]
      exact hleni
    · exact hgoodi
    · exact hcoordsi
    · exact mul_ne_zero hm21di htyd
    · show (((List.range nx).foldl
          (fun st2 i =>
            let st3 := tileStep defaultPattern nx sx sy jc i st2
            ⟨st3.tiles, st3.x, st3.y, st3.m20 + tx, st3.m21⟩)
          (⟨F.tiles, F.x, F.y, ox, F.m21⟩ : TilerState)).m21 + ty).toRat = _
      rw [Frac.toRat_add hm21di htyd, hm21i, hty]
      push_cast
      ring

/-- The whole point pass with unit scale and tile-size translation steps
satisfies the coordinate invariant: every tile id denotes the tile origin
plus the template point. -/
theorem tilePassCoords (nx ny : Nat) (hnx : 0 < nx) (ox oy tx ty : Frac)
    (hoxd : ox.d ≠ 0) (hox : ox.toRat = 0)
    (hoyd : oy.d ≠ 0) (hoy : oy.toRat = 0)
    (htxd : tx.d ≠ 0) (htx : tx.toRat = 20)
    (htyd : ty.d ≠ 0) (hty : ty.toRat = 20) :
    coordsGood nx (tilePass defaultPattern nx ny ox oy tx ty).tiles
      (tilePass defaultPattern nx ny ox oy tx ty).x
      (tilePass defaultPattern nx ny ox oy tx ty).y := by
  have hwd : defaultPattern.width = (⟨20, 1⟩ : Frac) := rfl
  have hhd : defaultPattern.height = (⟨20, 1⟩ : Frac) := rfl
  have hsxd : (tx / defaultPattern.width).d ≠ 0 := by
    show tx.d * defaultPattern.width.n ≠ 0
    rw [hwd]
    exact mul_ne_zero htxd (by decide)
  have hsx1 : (tx / defaultPattern.width).toRat = 1 := by
    rw [Frac.toRat_div, htx, hwd]
    norm_num [Frac.toRat]
  have hsyd : (ty / defaultPattern.height).d ≠ 0 := by
    show ty.d * defaultPattern.height.n ≠ 0
    rw [hhd]
    exact mul_ne_zero htyd (by decide)
  have hsy1 : (ty / defaultPattern.height).toRat = 1 := by
    rw [Frac.toRat_div, hty, hhd]
    norm_num [Frac.toRat]
  unfold tilePass
  exact (outerFoldCoords nx hnx (tx / defaultPattern.width)
    (ty / defaultPattern.height) ox oy tx ty hsxd hsx1 hsyd hsy1 htxd htx
    hoxd hox hoyd hoy htyd hty ny).2.2.1

end Conduit
